import Mathlib

/-!
Verification development for the `EccOvlFs` snapshotter
(`src/image-rs/src/snapshots/eccfs.rs`).

The snapshotter is embedded shallowly: paths are lists of components carrying a
UTF-8 validity flag, the filesystem is an association list from paths to nodes,
and the effectful code runs in `EStateM Err World`, whose error results keep the
state (matching the Rust code, which performs no rollback on failure).  External
collaborators (the OS mount subsystem, the `eccfs_builder` secure-image builder,
the random byte source) are modelled at their interface boundary, with
per-call behaviour supplied by an `Oracles` record.  A ghost event trace in the
state records the order of the effectful steps.
-/

namespace Eccfs

/-- A filesystem path, as the list of its components (absolute, root = `[]`). -/
abbrev P := List String

/-- A path value as handed around by the code: its components plus whether the
underlying OS string is valid UTF-8 (`Path::to_str` succeeds iff `utf8`). -/
structure EPath where
  comps : List String
  utf8 : Bool
deriving DecidableEq

/-- `Path::join` with a (valid UTF-8) literal component. -/
def EPath.joinC (p : EPath) (s : String) : EPath := ⟨p.comps ++ [s], p.utf8⟩

/-- `Path::parent`: `None` on the root, otherwise drops the final component. -/
def EPath.parent (p : EPath) : Option EPath :=
  match p.comps with
  | [] => none
  | _ => some ⟨p.comps.dropLast, p.utf8⟩

/-- `Path::file_name`: the final component, if any. -/
def EPath.fileName (p : EPath) : Option String := p.comps.getLast?

/-- `Path::to_str`: fails exactly when the path is not valid UTF-8. -/
def EPath.toStr (p : EPath) : Option String :=
  if p.utf8 then some (String.intercalate ("/") p.comps) else none

/-- A filesystem node: a directory, or a file with contents. -/
inductive Node where
  | dir : Node
  | file : String → Node
deriving DecidableEq

/-- The filesystem: entries from paths to nodes (the root always exists). -/
abbrev Fs := List (P × Node)

def lookupP (fs : Fs) (p : P) : Option Node :=
  (fs.find? (fun e => e.1 == p)).map (fun e => e.2)

def existsP (fs : Fs) (p : P) : Bool := p == [] || (lookupP fs p).isSome

/-- The nonempty prefixes of a path, shortest first. -/
def initsOf (p : P) : List P := (List.range p.length).map (fun i => p.take (i + 1))

/-- `fs::create_dir_all`: add directory entries for every missing prefix. -/
def createDirAll (fs : Fs) (p : P) : Fs :=
  fs ++ ((initsOf p).filter (fun q => !(existsP fs q))).map (fun q => (q, Node.dir))

/-- Whether an entry is a direct child of `p`. -/
def childP (p : P) (e : P × Node) : Bool :=
  e.1.length == p.length + 1 && p.isPrefixOf e.1

/-- The direct children of `p` that have an entry in the filesystem. -/
def childrenOf (fs : Fs) (p : P) : List P :=
  (fs.filter (childP p)).map (fun e => e.1)

/-- `fs_extra::remove_items`: recursively remove every listed path. -/
def removeItems (fs : Fs) (ps : List P) : Fs :=
  fs.filter (fun e => !(ps.any (fun q => q.isPrefixOf e.1)))

/-- Net effect of removing every direct child of `p` recursively. -/
def clearAt (fs : Fs) (p : P) : Fs := removeItems fs (childrenOf fs p)

/-- `fs::write` (also the builder's image-file output): create or overwrite. -/
def writeF (fs : Fs) (p : P) (content : String) : Fs :=
  (fs.filter (fun e => !(e.1 == p))) ++ [(p, Node.file content)]

/-- One recursive copy of the subtree at `src` onto `dst`, overwrite enabled. -/
def copyTree (fs : Fs) (src dst : P) : Fs :=
  (fs.filter (fun e => !(dst.isPrefixOf e.1))) ++
    (fs.filter (fun e => src.isPrefixOf e.1)).map (fun e => (dst ++ e.1.drop src.length, e.2))

/-- Errors, mirroring how the source constructs and propagates them:
`msg` for `anyhow!` messages, `io` for propagated I/O errors, `os` for
propagated OS errors (plain `?`, no added context), and `mountFailed` for the
`map_err` arms that name the filesystem type and target path. -/
inductive Err where
  | msg : String → Err
  | io : String → Err
  | os : String → Err
  | mountFailed : String → P → String → Err
deriving DecidableEq

/-- `fs_extra::copy_items` with overwrite: each source must exist and is copied
(recursively) into the destination directory under its own file name. -/
def copyItems : Fs → List P → P → Except Err Fs
  | fs, [], _ => .ok fs
  | fs, s :: rest, d =>
    match s.getLast? with
    | none => .error (Err.io ("copy item without name"))
    | some name =>
      if existsP fs s then copyItems (copyTree fs s (d ++ [name])) rest d
      else .error (Err.io (("copy source missing: ") ++ name))

/-- Ghost trace events, one per effectful step of the orchestrator.
`buildRo` records the scratch-workspace children at the moment the build
begins. -/
inductive Ev where
  | createMountPath : P → Ev
  | prepareWorkspace : P → Ev
  | mountFs : String → P → P → Ev
  | clearPath : P → Ev
  | buildRw : P → List Nat → Ev
  | stageEnv : P → Ev
  | buildRo : P → P → List Nat → List P → Ev
  | umountFs : P → Ev
  | writeKeys : P → String → Ev
deriving DecidableEq

/-- The world: filesystem, OS mount table (innermost mount first), ghost event
trace, and call counters for the random source and the layer builder. -/
structure World where
  fs : Fs
  mounts : List (String × P)
  trace : List Ev
  rcalls : Nat
  bcalls : Nat
deriving DecidableEq

/-- The effect monad of the embedding: state plus errors, where an error keeps
the state reached so far (the code performs no rollback). -/
abbrev EccM (α : Type) := EStateM Err World α

/-- External collaborators: `randByte n i` is byte `i` of the `n`-th random
draw; `encFlag n` is whether the `n`-th builder call reports its image
confidentiality-protected; `junk n` is the builder-internal temporary state the
`n`-th read-only build leaves in the scratch workspace. -/
structure Oracles where
  randByte : Nat → Nat → Nat
  encFlag : Nat → Bool
  junk : Nat → List String

/-- The key-mode descriptor returned by the builder (`FsMode` in the source):
`is_encrypted()` and the raw key material (`into_key_entry()`). -/
structure FsMode where
  is_encrypted : Bool
  key : List Nat
deriving DecidableEq

-- Fixed names and paths from the source.

def LD_LIB : String := "ld-linux-x86-64.so.2"

def ECCFS_RW_IMAGE_NAME : String := "run.rwimage"

def occlumLibs : List String :=
  ["libc.so.6", "libdl.so.2", "libm.so.6", "libpthread.so.0", "libresolv.so.2", "librt.so.1"]

def sysDirs : List String := ["dev", "etc", "host", "lib", "proc", "root", "sys", "tmp"]

/-- The scratch workspace `/eccfs_tmp`. -/
def WDp : P := ["eccfs_tmp"]

def WDe : EPath := ⟨WDp, true⟩

/-- The staging directory `/eccfs_tmp/occlum_env`. -/
def OENVp : P := ["eccfs_tmp", "occlum_env"]

/-- The key-custody mount point `/keys`. -/
def KEYSp : P := ["keys"]

/-- The published key record `/keys/key.txt`. -/
def keyTxt : P := ["keys", "key.txt"]

/-- Host location of the dynamic linker, `/lib64/ld-linux-x86-64.so.2`. -/
def ldSrc : P := ["lib64", LD_LIB]

/-- Host location of the occlum glibc libraries. -/
def occlumSrcDir : P := ["opt", "occlum", "glibc", "lib"]

-- Decimal rendering (Rust `format!` with `{:04}` width specifier).

/-- Decimal digit character. -/
def decDigit (n : Nat) : Char := Char.ofNat (48 + n)

/-- Decimal digits of `n`, most significant first (`fuel ≥ n` suffices). -/
def decCh (fuel n : Nat) : List Char :=
  match fuel with
  | 0 => []
  | f + 1 => if n < 10 then [decDigit n] else decCh f (n / 10) ++ [decDigit (n % 10)]

/-- Characters of `n` zero-padded to width 4 (the `{:04}` format). -/
def pad4Chars (n : Nat) : List Char :=
  List.replicate (4 - (decCh n n).length) '0' ++ decCh n n

def pad4 (n : Nat) : String := String.mk (pad4Chars n)

/-- File name of read-only layer image `n`: `format!("{:04}.roimage", n)`. -/
def imgName (n : Nat) : String := pad4 n ++ (".roimage")

/-- Path of read-only layer image `n` inside the mount path. -/
def imgFile (mp : P) (n : Nat) : P := mp ++ [imgName n]

-- Hex encoding (`hex::encode_upper`) and the key record line.

def hexDig (n : Nat) : Char := Char.ofNat (if n < 10 then 48 + n else 55 + n)

def hexByteChars (b : Nat) : List Char := [hexDig (b / 16), hexDig (b % 16)]

def hexChars : List Nat → List Char
  | [] => []
  | b :: r => hexByteChars b ++ hexChars r

/-- `hex::encode_upper` of a byte sequence. -/
def hexUpper (bs : List Nat) : String := String.mk (hexChars bs)

/-- `format!("{}-{}", s, hex::encode_upper(m.into_key_entry()))` for one mode. -/
def renderMode (m : FsMode) : String :=
  (if m.is_encrypted then ("enc") else ("int")) ++ ("-") ++ hexUpper m.key

/-- `Vec::join(":")`. -/
def joinColon : List String → String
  | [] => ("")
  | [s] => s
  | s :: r :: rest => s ++ (":") ++ joinColon (r :: rest)

/-- The line written to `key.txt`. -/
def modeStr (ms : List FsMode) : String := joinColon (ms.map renderMode)

-- Primitive effectful steps, mirroring the source statements.

/-- `if !mount_path.exists() { fs::create_dir_all(mount_path)? }` (lines 118-120). -/
def ensure_mount_path (p : EPath) : EccM Unit := fun w =>
  if existsP w.fs p.comps then .ok () w
  else .ok () { w with fs := createDirAll w.fs p.comps,
                       trace := w.trace ++ [Ev.createMountPath p.comps] }

/-- `mount_path.parent().ok_or(..)?.file_name().ok_or(..)?` (lines 123-127). -/
def resolve_cid (p : EPath) : EccM String := fun w =>
  match EPath.parent p with
  | none => .error (Err.msg ("parent do not exist")) w
  | some par =>
    match EPath.fileName par with
    | none => .error (Err.msg ("Unknown error: file name parse fail")) w
    | some c => .ok c w

/-- `clear_path` (lines 20-33): `to_str` check, `read_dir`, recursive removal
of each direct child. -/
def clear_path (p : EPath) : EccM Unit := fun w =>
  match EPath.toStr p with
  | none => .error (Err.msg ("mount_path does not exist")) w
  | some _ =>
    if p.comps == [] || lookupP w.fs p.comps == some Node.dir then
      .ok () { w with fs := removeItems w.fs (childrenOf w.fs p.comps),
                      trace := w.trace ++ [Ev.clearPath p.comps] }
    else .error (Err.io ("read_dir")) w

/-- `create_dir` (lines 35-41): create the tree only when absent. -/
def create_dirF (fs : Fs) (p : P) : Fs := if existsP fs p then fs else createDirAll fs p

/-- Workspace preparation (lines 130-135): create `/eccfs_tmp` if absent,
otherwise clear it. -/
def prep_workdir : EccM Unit := fun w =>
  if existsP w.fs WDp then clear_path WDe w
  else .ok () { w with fs := createDirAll w.fs WDp,
                       trace := w.trace ++ [Ev.prepareWorkspace WDp] }

/-- `nix::mount::mount` with a `map_err` arm naming the filesystem type and
target (lines 137-150 and 202-215); the target must exist. -/
def nix_mount (fsname : String) (target : P) (backing : P) : EccM Unit := fun w =>
  if existsP w.fs target then
    .ok () { w with mounts := (fsname, target) :: w.mounts,
                    trace := w.trace ++ [Ev.mountFs fsname target backing] }
  else .error (Err.mountFailed fsname target ("ENOENT")) w

def eraseMountAt : List (String × P) → P → List (String × P)
  | [], _ => []
  | m :: rest, p => if m.2 == p then rest else m :: eraseMountAt rest p

/-- `nix::mount::umount` behind a plain `?`: releases the innermost mount at
the target, or fails with the propagated OS error if none is present. -/
def nix_umount (target : P) : EccM Unit := fun w =>
  if w.mounts.any (fun m => m.2 == target) then
    .ok () { w with mounts := eraseMountAt w.mounts target,
                    trace := w.trace ++ [Ev.umountFs target] }
  else .error (Err.os ("EINVAL")) w

/-- The 16 bytes filled by the `n`-th call to the random source. -/
def keyAt (rb : Nat → Nat → Nat) (n : Nat) : List Nat :=
  (List.range 16).map (fun i => rb n i % 256)

/-- `generate_random_key` (lines 44-50): one fresh 16-byte draw per call. -/
def generate_random_key (rb : Nat → Nat → Nat) : EccM (List Nat) := fun w =>
  .ok (keyAt rb w.rcalls) { w with rcalls := w.rcalls + 1 }

/-- `fs::create_dir_all(&occlum_env)?` (line 166). -/
def mk_dir_all (p : P) : EccM Unit := fun w =>
  .ok () { w with fs := createDirAll w.fs p }

/-- Lines 57-73 of `create_environment`: create the `lib64` subdirectory and
remove any pre-existing entry (file or symlink) at `lib64/ld-linux-x86-64.so.2`
before the copy. -/
def envFs1 (fs : Fs) (env : P) : Fs :=
  let fs0 := create_dirF fs (env ++ ["lib64"])
  if existsP fs0 (env ++ ["lib64", LD_LIB]) then
    removeItems fs0 [env ++ ["lib64", LD_LIB]]
  else fs0

/-- `create_environment` (lines 52-110): stage the dynamic linker into `lib64`
(removing any pre-existing entry first), the six glibc libraries into
`opt/occlum/glibc/lib`, and the eight placeholder directories. -/
def create_environment (mount_path : P) : EccM Unit := fun w =>
  match copyItems (envFs1 w.fs mount_path) [ldSrc] (mount_path ++ ["lib64"]) with
  | .error e => .error e { w with fs := envFs1 w.fs mount_path }
  | .ok fs2 =>
    match copyItems (createDirAll fs2 (mount_path ++ ["opt", "occlum", "glibc", "lib"]))
        (occlumLibs.map (fun l => occlumSrcDir ++ [l]))
        (mount_path ++ ["opt", "occlum", "glibc", "lib"]) with
    | .error e =>
      .error e { w with fs := createDirAll fs2 (mount_path ++ ["opt", "occlum", "glibc", "lib"]) }
    | .ok fs4 =>
      .ok () { w with fs := sysDirs.foldl (fun f d => create_dirF f (mount_path ++ [d])) fs4,
                      trace := w.trace ++ [Ev.stageEnv mount_path] }

/-- Modelled from the spec: the external secure-image builder operation
`eccfs_builder::rw::create_empty` (not part of this repository).  It creates an
empty writable image file at the given path, keyed with the supplied key, and
returns a key-mode descriptor exposing whether the image is
confidentiality-protected and its raw key material. -/
def rw_create_empty (o : Oracles) (target : P) (okey : Option (List Nat)) :
    EccM FsMode := fun w =>
  let k := okey.getD []
  .ok ⟨o.encFlag w.bcalls, k⟩
    { w with fs := writeF w.fs target ("rwimage"),
             bcalls := w.bcalls + 1,
             trace := w.trace ++ [Ev.buildRw target k] }

/-- Modelled from the spec: the external secure-image builder operation
`eccfs_builder::ro::build_from_dir` (not part of this repository).  It builds a
read-only image from the source directory into `target_dir/name`, keyed with
the supplied key, may leave builder-internal temporary state in the scratch
workspace, and returns a key-mode descriptor exposing the confidentiality flag
and the raw key material.  The ghost event records the scratch-workspace
children at the moment the build begins. -/
def ro_build_from_dir (o : Oracles) (src : P) (target_dir : P) (name : String)
    (tmp_dir : P) (okey : Option (List Nat)) : EccM FsMode := fun w =>
  let k := okey.getD []
  let target := target_dir ++ [name]
  let wsCh := childrenOf w.fs tmp_dir
  let fs1 := writeF w.fs target ("roimage")
  let fs2 := (o.junk w.bcalls).foldl (fun f s => create_dirF f (tmp_dir ++ [s])) fs1
  .ok ⟨o.encFlag w.bcalls, k⟩
    { w with fs := fs2, bcalls := w.bcalls + 1,
             trace := w.trace ++ [Ev.buildRo src target k wsCh] }

/-- `std::fs::write(&keys_mount_path.join("key.txt"), &mode_str)?` (line 228). -/
def write_key_file (p : P) (s : String) : EccM Unit := fun w =>
  .ok () { w with fs := writeF w.fs p s, trace := w.trace ++ [Ev.writeKeys p s] }

/-- The returned handle (`MountPoint` in the source). -/
structure MountPoint where
  rtype : String
  mount_path : EPath
  work_dir : EPath
deriving DecidableEq

/-- The per-layer build loop (lines 179-189): for each caller-supplied layer
`i` (0-based), build it into `format!("{:04}.roimage", i+1)` with a fresh key
and clear the scratch workspace afterwards. -/
def buildLayers (o : Oracles) (mp : P) : List P → Nat → EccM (List FsMode)
  | [], _ => pure []
  | p :: rest, i => do
    let k ← generate_random_key o.randByte
    let m ← ro_build_from_dir o p mp (imgName (i + 1)) WDp (some k)
    clear_path WDe
    let ms ← buildLayers o mp rest (i + 1)
    pure (m :: ms)

/-- Lines 155-189: build the writable layer, stage and build the environment
layer, then build each caller-supplied layer, collecting the key-mode
descriptors in build order. -/
def build_all (o : Oracles) (mount_path : EPath) (layer_path : List P) :
    EccM (List FsMode) := do
  let k0 ← generate_random_key o.randByte
  let rw_mode ← rw_create_empty o (mount_path.comps ++ [ECCFS_RW_IMAGE_NAME]) (some k0)
  mk_dir_all OENVp
  create_environment OENVp
  let k1 ← generate_random_key o.randByte
  let m0 ← ro_build_from_dir o OENVp mount_path.comps (imgName 0) WDp (some k1)
  clear_path WDe
  let lms ← buildLayers o mount_path.comps layer_path 0
  pure (rw_mode :: m0 :: lms)

/-- Lines 193-229: mount the key-custody filesystem, write the serialized key
record, and unmount it. -/
def publish_keys (cid : String) (fsmodes : List FsMode) : EccM Unit := do
  nix_mount ("sefs") KEYSp (["images", cid, "keys", "sefs", "lower"])
  write_key_file keyTxt (modeStr fsmodes)
  nix_umount KEYSp

/-- Lines 137-235 of `mount`: everything after container-identity resolution
and workspace preparation. -/
def mount_tail (o : Oracles) (data_dir : EPath) (layer_path : List P)
    (mount_path : EPath) (cid : String) : EccM MountPoint := do
  nix_mount ("hostfs") mount_path.comps (["images", cid, "eccfs"])
  clear_path mount_path
  let fsmodes ← build_all o mount_path layer_path
  nix_umount mount_path.comps
  publish_keys cid fsmodes
  pure { rtype := ("eccfs"), mount_path := mount_path, work_dir := data_dir }

/-- `EccOvlFs::mount` (lines 115-236). -/
def mount (o : Oracles) (data_dir : EPath) (layer_path : List P)
    (mount_path : EPath) : EccM MountPoint := do
  ensure_mount_path mount_path
  let cid ← resolve_cid mount_path
  prep_workdir
  mount_tail o data_dir layer_path mount_path cid

/-- `EccOvlFs::unmount` (lines 238-242): a single `nix::mount::umount` behind
`?`. -/
def unmount (h : MountPoint) : EccM Unit := nix_umount h.mount_path.comps

-- Result projections (for stating facts about runs).

def resOk {α : Type} : EStateM.Result Err World α → Option (α × World)
  | .ok a w => some (a, w)
  | .error _ _ => none

def resErr {α : Type} : EStateM.Result Err World α → Option (Err × World)
  | .ok _ _ => none
  | .error e w => some (e, w)

def isOkB {α : Type} (r : EStateM.Result Err World α) : Bool := (resOk r).isSome

/-- Whether an error names a filesystem type and target path (the shape the
`map_err` arms of `nix::mount::mount` produce). -/
def errNamesMount : Err → Bool
  | .mountFailed _ _ _ => true
  | _ => false

-- Parsing the published key record back (split on `:`, split on `-`, decode
-- the mode tag and the upper-case hex of the key bytes).

/-- Split a character list at every occurrence of `c`. -/
def splitOnC (c : Char) : List Char → List (List Char)
  | [] => [[]]
  | a :: as =>
    match splitOnC c as with
    | [] => [[]]
    | h :: t => if a = c then [] :: h :: t else (a :: h) :: t

def decodeMode (m : List Char) : Option Bool :=
  if m = ("enc").data then some true
  else if m = ("int").data then some false
  else none

def hexDigVal (c : Char) : Option Nat :=
  if 48 ≤ c.toNat ∧ c.toNat ≤ 57 then some (c.toNat - 48)
  else if 65 ≤ c.toNat ∧ c.toNat ≤ 70 then some (c.toNat - 55)
  else none

def hexDecode : List Char → Option (List Nat)
  | [] => some []
  | [_] => none
  | a :: b :: r => do
    let da ← hexDigVal a
    let db ← hexDigVal b
    let rest ← hexDecode r
    pure ((16 * da + db) :: rest)

/-- Parse one `<mode>-<HEX>` token back into an `(is_encrypted, key)` pair. -/
def parseToken (t : List Char) : Option (Bool × List Nat) :=
  match splitOnC '-' t with
  | [m, h] => do
    let f ← decodeMode m
    let k ← hexDecode h
    pure (f, k)
  | _ => none

def parseTokens : List (List Char) → Option (List (Bool × List Nat))
  | [] => some []
  | t :: r => do
    let p ← parseToken t
    let rest ← parseTokens r
    pure (p :: rest)

/-- Parse a whole `key.txt` line back into its `(is_encrypted, key)` pairs. -/
def parseLine (l : List Char) : Option (List (Bool × List Nat)) :=
  parseTokens (splitOnC ':' l)

/-- A key is a byte sequence. -/
def validKey (k : List Nat) : Prop := ∀ b ∈ k, b < 256

instance (k : List Nat) : Decidable (validKey k) := by
  unfold validKey; infer_instance

/-- Decimal parse of a digit string, most significant digit first. -/
def parseDec (l : List Char) : Nat := l.foldl (fun a c => a * 10 + (c.toNat - 48)) 0

-- Closed forms for a successful `mount` run.

/-- Whether the host files the environment stager copies are all present. -/
def hostEnvOk (fs : Fs) : Bool :=
  existsP fs ldSrc && occlumLibs.all (fun l => existsP fs (occlumSrcDir ++ [l]))

/-- Net filesystem effect of a successful `create_environment` run. -/
@[irreducible] def stageEnvFs (fs : Fs) (env : P) : Fs :=
  sysDirs.foldl (fun f d => create_dirF f (env ++ [d]))
    (occlumLibs.foldl
      (fun f l => copyTree f (occlumSrcDir ++ [l]) ((env ++ ["opt", "occlum", "glibc", "lib"]) ++ [l]))
      (createDirAll (copyTree (envFs1 fs env) ldSrc ((env ++ ["lib64"]) ++ [LD_LIB]))
        (env ++ ["opt", "occlum", "glibc", "lib"])))

/-- Net filesystem effect of the per-layer build loop, starting at builder call
`b` and image index `i + 1`. -/
def loopFs (o : Oracles) (mp : P) : Nat → Nat → Fs → List P → Fs
  | _, _, fs, [] => fs
  | b, i, fs, _ :: r =>
    loopFs o mp (b + 1) (i + 1)
      (clearAt ((o.junk b).foldl (fun f s => create_dirF f (WDp ++ [s]))
        (writeF fs (imgFile mp (i + 1)) ("roimage"))) WDp) r

/-- Ghost events of the per-layer build loop. -/
def loopTrace (o : Oracles) (mp : P) : Nat → Nat → List P → List Ev
  | _, _, [] => []
  | c, i, p :: r =>
    Ev.buildRo p (imgFile mp (i + 1)) (keyAt o.randByte c) [] :: Ev.clearPath WDp ::
      loopTrace o mp (c + 1) (i + 1) r

/-- Key-mode descriptors produced by the per-layer build loop. -/
def loopModes (o : Oracles) : Nat → Nat → List P → List FsMode
  | _, _, [] => []
  | c, b, _ :: r => ⟨o.encFlag b, keyAt o.randByte c⟩ :: loopModes o (c + 1) (b + 1) r

/-- All key-mode descriptors of one `mount` call: writable layer, staged
environment, then the caller layers, with random draw `c + k` and builder call
`b + k` for the `k`-th build. -/
def mountModes (o : Oracles) (c b : Nat) (ls : List P) : List FsMode :=
  ⟨o.encFlag b, keyAt o.randByte c⟩ :: ⟨o.encFlag (b + 1), keyAt o.randByte (c + 1)⟩ ::
    loopModes o (c + 2) (b + 2) ls

/-- Net filesystem effect of a successful `build_all` run, starting at builder
call `b`. -/
@[irreducible] def buildAllFs (o : Oracles) (b : Nat) (ls : List P) (mp : P) (fs : Fs) : Fs :=
  loopFs o mp (b + 2) 0
    (clearAt ((o.junk (b + 1)).foldl (fun f s => create_dirF f (WDp ++ [s]))
      (writeF (stageEnvFs (createDirAll (writeF fs (mp ++ [ECCFS_RW_IMAGE_NAME]) ("rwimage"))
        OENVp) OENVp) (imgFile mp 0) ("roimage"))) WDp) ls

/-- Ghost events of a successful `build_all` run, starting at random draw `c`. -/
def buildAllTrace (o : Oracles) (mp : P) (c : Nat) (ls : List P) : List Ev :=
  [Ev.buildRw (mp ++ [ECCFS_RW_IMAGE_NAME]) (keyAt o.randByte c),
   Ev.stageEnv OENVp,
   Ev.buildRo OENVp (imgFile mp 0) (keyAt o.randByte (c + 1)) [OENVp],
   Ev.clearPath WDp] ++
  loopTrace o mp (c + 2) 0 ls

/-- Final filesystem of a successful `mount` run on initial filesystem `fs0`,
with `c`/`b` the initial random/builder call counters. -/
@[irreducible] def mountFinalFs (o : Oracles) (c b : Nat) (ls : List P) (mp : P) (fs0 : Fs) : Fs :=
  writeF
    (buildAllFs o b ls mp
      (clearAt (if existsP fs0 WDp then
          clearAt (if existsP fs0 mp then fs0 else createDirAll fs0 mp) WDp
        else createDirAll (if existsP fs0 mp then fs0 else createDirAll fs0 mp) WDp) mp))
    keyTxt (modeStr (mountModes o c b ls))

/-- Ghost event trace of a successful `mount` run (`created`: the mount path
was created; `cleared`: the workspace pre-existed and was cleared). -/
def mountTrace (o : Oracles) (mp : P) (cid : String) (c b : Nat) (ls : List P)
    (created cleared : Bool) : List Ev :=
  (if created then [Ev.createMountPath mp] else []) ++
  (if cleared then [Ev.clearPath WDp] else [Ev.prepareWorkspace WDp]) ++
  [Ev.mountFs ("hostfs") mp (["images", cid, "eccfs"]),
   Ev.clearPath mp] ++
  buildAllTrace o mp c ls ++
  [Ev.umountFs mp,
   Ev.mountFs ("sefs") KEYSp (["images", cid, "keys", "sefs", "lower"]),
   Ev.writeKeys keyTxt (modeStr (mountModes o c b ls)),
   Ev.umountFs KEYSp]

-- Trace projections (for stating facts about event order and content).

/-- The scratch-workspace children snapshot of a read-only-build event. -/
def roCh : Ev → Option (List P)
  | Ev.buildRo _ _ _ ch => some ch
  | _ => none

/-- Whether an event is the host-passthrough mount. -/
def evIsHostMount : Ev → Bool
  | Ev.mountFs f _ _ => f == ("hostfs")
  | _ => false

/-- Whether an event is a workspace-preparation step (creating or clearing the
scratch workspace). -/
def evIsWsPrep : Ev → Bool
  | Ev.prepareWorkspace _ => true
  | Ev.clearPath p => p == WDp
  | _ => false

/-- Whether an event is the environment-staging step. -/
def evIsStage : Ev → Bool
  | Ev.stageEnv _ => true
  | _ => false

/-- Whether an event is the writable-layer build. -/
def evIsRw : Ev → Bool
  | Ev.buildRw _ _ => true
  | _ => false

-- Concrete fixtures for witnesses and counterexamples.

/-- A deterministic oracle assignment: byte `i` of draw `n` is `n * 16 + i`,
every even-numbered builder call reports an encrypted image, and the builder
leaves no junk in the workspace. -/
def oT : Oracles :=
  { randByte := fun n i => n * 16 + i,
    encFlag := fun b => b % 2 == 0,
    junk := fun _ => [] }

/-- A concrete data directory. -/
def ddT : EPath := ⟨["var", "lib", "data"], true⟩

/-- A concrete mount path `/containers/c1/rootfs`. -/
def mpT : EPath := ⟨["containers", "c1", "rootfs"], true⟩

/-- The same mount path with a non-UTF-8 OS string. -/
def mpF : EPath := ⟨["containers", "c1", "rootfs"], false⟩

/-- A single caller-supplied layer directory. -/
def lsT : List P := [["layers", "l1"]]

/-- A concrete host filesystem holding the staging sources, the key-custody
mount point, and a pre-existing mount-path directory with one stale entry. -/
def hostFs0 : Fs :=
  [(ldSrc, Node.file ("ld.so")),
   (occlumSrcDir ++ ["libc.so.6"], Node.file ("libc")),
   (occlumSrcDir ++ ["libdl.so.2"], Node.file ("libdl")),
   (occlumSrcDir ++ ["libm.so.6"], Node.file ("libm")),
   (occlumSrcDir ++ ["libpthread.so.0"], Node.file ("libpthread")),
   (occlumSrcDir ++ ["libresolv.so.2"], Node.file ("libresolv")),
   (occlumSrcDir ++ ["librt.so.1"], Node.file ("librt")),
   (KEYSp, Node.dir),
   (["containers", "c1", "rootfs"], Node.dir),
   (["containers", "c1", "rootfs", "stale.txt"], Node.file ("old"))]

/-- The initial test world. -/
def wT : World := { fs := hostFs0, mounts := [], trace := [], rcalls := 0, bcalls := 0 }

/-- The same world without the dynamic linker on the host. -/
def wNoLd : World := { wT with fs := hostFs0.filter (fun e => !(e.1 == ldSrc)) }

/-- The same world with the dynamic linker present but one C-runtime library
missing on the host. -/
def wNoLib : World :=
  { wT with fs := hostFs0.filter (fun e => !(e.1 == occlumSrcDir ++ ["libm.so.6"])) }

/-- A handle and a world with that handle's path mounted, for exercising
`unmount`. -/
def hT : MountPoint := { rtype := ("eccfs"), mount_path := mpT, work_dir := ddT }

def wM : World :=
  { fs := [], mounts := [(("eccfs"), mpT.comps)], trace := [], rcalls := 0, bcalls := 0 }

/-- A world with nothing mounted. -/
def wU : World := { fs := [], mounts := [], trace := [], rcalls := 0, bcalls := 0 }

/-- The world after releasing `hT`'s mount from `wM`. -/
def wMOut : World :=
  { wM with mounts := eraseMountAt wM.mounts mpT.comps,
            trace := wM.trace ++ [Ev.umountFs mpT.comps] }

-- Monad-step lemmas for reasoning about `EccM` runs.

theorem bindOk {α β : Type} {x : EccM α} {f : α → EccM β} {w w2 : World} {a : α}
    (h : x w = .ok a w2) : (x >>= f) w = f a w2 := by
  show EStateM.bind x f w = f a w2
  simp [EStateM.bind, h]

theorem bindErr {α β : Type} {x : EccM α} {f : α → EccM β} {w w2 : World} {e : Err}
    (h : x w = .error e w2) : (x >>= f) w = .error e w2 := by
  show EStateM.bind x f w = .error e w2
  simp [EStateM.bind, h]

theorem pureEq {α : Type} (a : α) (w : World) : (pure a : EccM α) w = .ok a w := rfl

-- Serialization round-trip lemmas.

theorem data_mk (l : List Char) : (String.mk l).data = l := rfl

theorem hexDigVal_hexDig : ∀ d, d < 16 → hexDigVal (hexDig d) = some d := by decide

theorem hexDig_sep : ∀ d, d < 16 → hexDig d ≠ ':' ∧ hexDig d ≠ '-' := by decide

theorem validKey_keyAt (rb : Nat → Nat → Nat) (n : Nat) : validKey (keyAt rb n) := by
  intro b hb
  simp only [keyAt, List.mem_map] at hb
  obtain ⟨i, _, hi⟩ := hb
  omega

theorem validKey_cons {b : Nat} {r : List Nat} (h : validKey (b :: r)) :
    b < 256 ∧ validKey r :=
  ⟨h b (by simp), fun x hx => h x (by simp [hx])⟩

theorem mem_hexChars_sep {k : List Nat} (hk : validKey k) {c : Char}
    (hc : c ∈ hexChars k) : c ≠ ':' ∧ c ≠ '-' := by
  induction k with
  | nil => simp [hexChars] at hc
  | cons b r ih =>
    obtain ⟨hb, hr⟩ := validKey_cons hk
    have h1 : b / 16 < 16 := by omega
    have h2 : b % 16 < 16 := by omega
    simp only [hexChars, hexByteChars, List.cons_append, List.nil_append,
      List.mem_cons] at hc
    rcases hc with h | h | h
    · exact h ▸ hexDig_sep _ h1
    · exact h ▸ hexDig_sep _ h2
    · exact ih hr h

theorem hexDecode_hexChars {k : List Nat} (hk : validKey k) :
    hexDecode (hexChars k) = some k := by
  induction k with
  | nil => rfl
  | cons b r ih =>
    obtain ⟨hb, hr⟩ := validKey_cons hk
    have h1 : b / 16 < 16 := by omega
    have h2 : b % 16 < 16 := by omega
    show hexDecode (hexDig (b / 16) :: hexDig (b % 16) :: hexChars r) = some (b :: r)
    simp [hexDecode, hexDigVal_hexDig _ h1, hexDigVal_hexDig _ h2, ih hr]
    omega

theorem splitOnC_ne_nil (c : Char) (l : List Char) : splitOnC c l ≠ [] := by
  cases l with
  | nil => simp [splitOnC]
  | cons a as =>
    simp only [splitOnC]
    cases splitOnC c as with
    | nil => simp
    | cons h t =>
      by_cases hac : a = c <;> simp [hac]

theorem splitOnC_not_mem {c : Char} : ∀ {l : List Char}, c ∉ l → splitOnC c l = [l] := by
  intro l
  induction l with
  | nil => intro _; rfl
  | cons a as ih =>
    intro h
    have ha : ¬ a = c := fun hh => h (by simp [hh])
    have has : c ∉ as := fun hh => h (by simp [hh])
    simp only [splitOnC, ih has, ha, if_false]

theorem splitOnC_append {c : Char} :
    ∀ {l1 l2 : List Char}, c ∉ l1 → splitOnC c (l1 ++ c :: l2) = l1 :: splitOnC c l2 := by
  intro l1
  induction l1 with
  | nil =>
    intro l2 _
    show splitOnC c (c :: l2) = [] :: splitOnC c l2
    simp only [splitOnC]
    cases hs : splitOnC c l2 with
    | nil => exact absurd hs (splitOnC_ne_nil c l2)
    | cons h t => simp
  | cons a l1 ih =>
    intro l2 h
    have ha : ¬ a = c := fun hh => h (by simp [hh])
    have h1 : c ∉ l1 := fun hh => h (by simp [hh])
    show splitOnC c (a :: (l1 ++ c :: l2)) = (a :: l1) :: splitOnC c l2
    simp only [splitOnC, ih h1, ha, if_false]

theorem renderMode_data (m : FsMode) :
    (renderMode m).data =
      (if m.is_encrypted then ("enc").data else ("int").data) ++ '-' :: hexChars m.key := by
  cases m with
  | mk f k =>
    cases f <;>
      simp [renderMode, hexUpper, String.data_append, data_mk, List.append_assoc]

theorem sep_not_mem_tag (f : Bool) :
    '-' ∉ (if f then ("enc").data else ("int").data) ∧
      ':' ∉ (if f then ("enc").data else ("int").data) := by
  cases f <;> exact ⟨by decide, by decide⟩

theorem dash_not_mem_hex {k : List Nat} (hk : validKey k) : '-' ∉ hexChars k :=
  fun h => (mem_hexChars_sep hk h).2 rfl

theorem parseToken_renderMode (m : FsMode) (hk : validKey m.key) :
    parseToken ((renderMode m).data) = some (m.is_encrypted, m.key) := by
  have hs : splitOnC '-' ((renderMode m).data) =
      [(if m.is_encrypted then ("enc").data else ("int").data), hexChars m.key] := by
    rw [renderMode_data,
      splitOnC_append (sep_not_mem_tag m.is_encrypted).1,
      splitOnC_not_mem (dash_not_mem_hex hk)]
  cases hm : m.is_encrypted <;>
    simp [parseToken, hs, hm, decodeMode, hexDecode_hexChars hk]

theorem modeStr_one (m : FsMode) : modeStr [m] = renderMode m := rfl

theorem modeStr_cons (m m2 : FsMode) (rest : List FsMode) :
    modeStr (m :: m2 :: rest) = renderMode m ++ (":") ++ modeStr (m2 :: rest) := by
  simp [modeStr, joinColon]

theorem colon_not_mem_render (m : FsMode) (hk : validKey m.key) :
    ':' ∉ (renderMode m).data := by
  rw [renderMode_data]
  intro h
  rcases List.mem_append.mp h with h | h
  · exact (sep_not_mem_tag m.is_encrypted).2 h
  · rcases List.mem_cons.mp h with h | h
    · exact absurd h.symm (by decide)
    · exact (mem_hexChars_sep hk h).1 rfl

theorem parseLine_modeStr :
    ∀ (ms : List FsMode), ms ≠ [] → (∀ m ∈ ms, validKey m.key) →
      parseLine ((modeStr ms).data) = some (ms.map fun m => (m.is_encrypted, m.key)) := by
  intro ms
  induction ms with
  | nil => intro h; exact absurd rfl h
  | cons m rest ih =>
    intro _ hv
    have hm : validKey m.key := hv m (by simp)
    cases rest with
    | nil =>
      rw [modeStr_one]
      unfold parseLine
      rw [splitOnC_not_mem (colon_not_mem_render m hm)]
      simp [parseTokens, parseToken_renderMode m hm]
    | cons m2 rest2 =>
      have hv2 : ∀ x ∈ m2 :: rest2, validKey x.key := fun x hx => hv x (by simp [hx])
      have hdata : (modeStr (m :: m2 :: rest2)).data =
          (renderMode m).data ++ ':' :: (modeStr (m2 :: rest2)).data := by
        rw [modeStr_cons]
        simp [String.data_append, List.append_assoc]
      unfold parseLine
      rw [hdata, splitOnC_append (colon_not_mem_render m hm)]
      have ihr := ih (by simp) hv2
      unfold parseLine at ihr
      simp [parseTokens, parseToken_renderMode m hm, ihr]

-- Decimal rendering lemmas.

theorem decDigit_toNat : ∀ d, d < 10 → (decDigit d).toNat = 48 + d := by decide

theorem parseDec_decCh :
    ∀ (f : Nat) {n : Nat}, 1 ≤ n → n ≤ f →
      List.foldl (fun a c => a * 10 + (c.toNat - 48)) 0 (decCh f n) = n := by
  intro f
  induction f with
  | zero => intro n h1 h2; omega
  | succ f ih =>
    intro n h1 h2
    by_cases hn : n < 10
    · simp [decCh, hn, decDigit_toNat n hn]
    · have hd1 : 1 ≤ n / 10 := by omega
      have hd2 : n / 10 ≤ f := by omega
      simp only [decCh, hn, if_false, List.foldl_append, ih hd1 hd2]
      have hm : n % 10 < 10 := by omega
      simp [List.foldl, decDigit_toNat _ hm]
      omega

theorem parseDec_pad4 (n : Nat) : parseDec (pad4Chars n) = n := by
  unfold parseDec pad4Chars
  rw [List.foldl_append]
  have hz : ∀ (k : Nat),
      List.foldl (fun a c => a * 10 + (c.toNat - 48)) 0 (List.replicate k '0') = 0 := by
    intro k
    induction k with
    | zero => rfl
    | succ k ih => simpa [List.replicate_succ] using ih
  rw [hz]
  by_cases hn : n = 0
  · subst hn; rfl
  · exact parseDec_decCh n (by omega) le_rfl

theorem pad4_inj {a b : Nat} (h : pad4 a = pad4 b) : a = b := by
  have hd : pad4Chars a = pad4Chars b := congrArg String.data h
  have := congrArg parseDec hd
  rwa [parseDec_pad4, parseDec_pad4] at this

theorem pad4Chars_length (n : Nat) : 4 ≤ (pad4Chars n).length := by
  simp [pad4Chars]
  omega

theorem imgName_length (n : Nat) : 12 ≤ (imgName n).length := by
  have h1 : (imgName n).length = (pad4Chars n).length + 8 := by
    simp [imgName, String.length_append, pad4]
    rfl
  have := pad4Chars_length n
  omega

theorem imgName_inj {a b : Nat} (h : imgName a = imgName b) : a = b := by
  have hd := congrArg String.data h
  simp only [imgName, String.data_append, pad4, data_mk] at hd
  exact pad4_inj (congrArg String.mk (List.append_cancel_right hd))

theorem imgName_ne_rw (n : Nat) : imgName n ≠ ECCFS_RW_IMAGE_NAME := by
  intro h
  have := congrArg String.length h
  have h12 := imgName_length n
  rw [this] at h12
  revert h12
  decide

-- Filesystem lemma kit: lookups.

theorem lookupP_isSome_iff {fs : Fs} {q : P} :
    (lookupP fs q).isSome = true ↔ ∃ n, (q, n) ∈ fs := by
  unfold lookupP
  cases hf : fs.find? (fun e => e.1 == q) with
  | none =>
    simp only [Option.map_none', Option.isSome_none, Bool.false_eq_true, false_iff]
    rintro ⟨n, hm⟩
    have := List.find?_eq_none.mp hf _ hm
    simp at this
  | some e =>
    simp only [Option.map_some', Option.isSome_some, true_iff]
    have h1 : e.1 = q := by simpa using List.find?_some hf
    have h2 := List.mem_of_find?_eq_some hf
    exact ⟨e.2, by rw [← h1]; exact h2⟩

theorem existsP_iff {fs : Fs} {q : P} :
    existsP fs q = true ↔ q = [] ∨ ∃ n, (q, n) ∈ fs := by
  simp only [existsP, Bool.or_eq_true, beq_iff_eq]
  exact or_congr Iff.rfl lookupP_isSome_iff

theorem find?_key_filter {fs : Fs} {q : P} {keep : P × Node → Bool}
    (hk : ∀ e : P × Node, e.1 = q → keep e = true) :
    (fs.filter keep).find? (fun e => e.1 == q) = fs.find? (fun e => e.1 == q) := by
  induction fs with
  | nil => rfl
  | cons e fs ih =>
    by_cases he : e.1 = q
    · have hkeep : keep e = true := hk e he
      have hbe : (e.1 == q) = true := by simpa using he
      simp [List.filter_cons, hkeep, List.find?_cons_of_pos, hbe]
    · have hbe : (e.1 == q) = false := by simpa using he
      by_cases hke : keep e = true
      · simp [List.filter_cons, hke, List.find?_cons_of_neg, hbe, ih]
      · have hke2 : keep e = false := by simpa using hke
        rw [List.filter_cons, if_neg (by simp [hke2]), ih]
        exact (List.find?_cons_of_neg _ (by simp [hbe])).symm

theorem lookupP_filter {fs : Fs} {q : P} {keep : P × Node → Bool}
    (hk : ∀ e : P × Node, e.1 = q → keep e = true) :
    lookupP (fs.filter keep) q = lookupP fs q := by
  unfold lookupP
  rw [find?_key_filter hk]

theorem lookupP_append_left {fs g : Fs} {q : P} {n : Node} (h : lookupP fs q = some n) :
    lookupP (fs ++ g) q = some n := by
  unfold lookupP at h ⊢
  rw [List.find?_append]
  cases hf : fs.find? (fun e => e.1 == q) with
  | none => simp [hf] at h
  | some e => simpa [hf, Option.or] using h

theorem lookupP_append_right {fs g : Fs} {q : P} (h : lookupP fs q = none) :
    lookupP (fs ++ g) q = lookupP g q := by
  unfold lookupP at h ⊢
  rw [List.find?_append]
  cases hf : fs.find? (fun e => e.1 == q) with
  | none => simp [Option.or]
  | some e => simp [hf] at h

theorem lookupP_eq_none_of {fs : Fs} {q : P} (h : ∀ e ∈ fs, e.1 ≠ q) :
    lookupP fs q = none := by
  unfold lookupP
  rw [List.find?_eq_none.mpr (fun e he => by simpa using h e he)]
  rfl

theorem lookupP_append_keys_ne {fs g : Fs} {q : P} (h : ∀ e ∈ g, e.1 ≠ q) :
    lookupP (fs ++ g) q = lookupP fs q := by
  cases hf : lookupP fs q with
  | none => rw [lookupP_append_right hf]; exact lookupP_eq_none_of h
  | some n => rw [lookupP_append_left hf]

-- Filesystem lemma kit: children.

theorem childrenOf_cons (e : P × Node) (fs : Fs) (q : P) :
    childrenOf (e :: fs) q =
      if childP q e = true then e.1 :: childrenOf fs q else childrenOf fs q := by
  simp only [childrenOf, List.filter_cons]
  split <;> simp

theorem childrenOf_append (fs g : Fs) (p : P) :
    childrenOf (fs ++ g) p = childrenOf fs p ++ childrenOf g p := by
  simp [childrenOf, List.filter_append]

theorem mem_childrenOf {fs : Fs} {p q : P} :
    q ∈ childrenOf fs p ↔
      ∃ n, (q, n) ∈ fs ∧ q.length = p.length + 1 ∧ p <+: q := by
  simp only [childrenOf, List.mem_map, List.mem_filter]
  constructor
  · rintro ⟨⟨q1, n⟩, ⟨hm, hc⟩, hq⟩
    simp only at hq
    subst hq
    have hc2 := hc
    simp only [childP, Bool.and_eq_true, beq_iff_eq, List.isPrefixOf_iff_prefix] at hc2
    exact ⟨n, hm, hc2.1, hc2.2⟩
  · rintro ⟨n, hm, hl, hp⟩
    refine ⟨(q, n), ⟨hm, ?_⟩, rfl⟩
    simp [childP, hl, List.isPrefixOf_iff_prefix, hp]

theorem childrenOf_filter {fs : Fs} {p : P} {keep : P × Node → Bool}
    (h : ∀ e ∈ fs, keep e = false → childP p e = false) :
    childrenOf (fs.filter keep) p = childrenOf fs p := by
  unfold childrenOf
  rw [List.filter_filter]
  congr 1
  apply List.filter_congr
  intro e he
  cases hke : keep e with
  | true => simp
  | false => simp [h e he hke]

theorem head?_of_pref {p r : P} (h : p <+: r) (hp : p ≠ []) : r.head? = p.head? := by
  obtain ⟨t, rfl⟩ := h
  cases p with
  | nil => exact absurd rfl hp
  | cons a p2 => rfl

theorem childP_prop {p : P} {e : P × Node} (h : childP p e = true) :
    e.1.length = p.length + 1 ∧ p <+: e.1 := by
  simp only [childP, Bool.and_eq_true, beq_iff_eq, List.isPrefixOf_iff_prefix] at h
  exact h

theorem clearAt_keep_of {fs : Fs} {p : P} {r : P}
    (h : ∀ c ∈ childrenOf fs p, ¬ c <+: r) :
    ∀ e : P × Node, e.1 = r →
      (!((childrenOf fs p).any (fun q => q.isPrefixOf e.1))) = true := by
  intro e he
  rw [he]
  simp only [Bool.not_eq_true']
  rw [List.any_eq_false]
  intro c hc
  simp [List.isPrefixOf_iff_prefix, h c hc]

theorem lookupP_clearAt_of_not_pref {fs : Fs} {p q : P} (h : ¬ p <+: q) :
    lookupP (clearAt fs p) q = lookupP fs q := by
  unfold clearAt removeItems
  apply lookupP_filter
  apply clearAt_keep_of
  intro c hc hcq
  obtain ⟨n, _, _, hcp⟩ := mem_childrenOf.mp hc
  exact h (hcp.trans hcq)

theorem lookupP_clearAt_self (fs : Fs) (p : P) :
    lookupP (clearAt fs p) p = lookupP fs p := by
  unfold clearAt removeItems
  apply lookupP_filter
  apply clearAt_keep_of
  intro c hc hcq
  obtain ⟨n, _, hl, _⟩ := mem_childrenOf.mp hc
  have := hcq.length_le
  omega

theorem childrenOf_clearAt_self (fs : Fs) (p : P) : childrenOf (clearAt fs p) p = [] := by
  unfold childrenOf
  have h : (clearAt fs p).filter (childP p) = [] := by
    rw [List.filter_eq_nil_iff]
    rintro e he hce
    have hem := List.mem_filter.mp he
    obtain ⟨hl, hp⟩ := childP_prop hce
    have hmem : e.1 ∈ childrenOf fs p :=
      mem_childrenOf.mpr ⟨e.2, by cases e; exact hem.1, hl, hp⟩
    have hany : ((childrenOf fs p).any (fun q => q.isPrefixOf e.1)) = true :=
      List.any_eq_true.mpr ⟨e.1, hmem, by simp [List.isPrefixOf_iff_prefix]⟩
    have := hem.2
    simp only [hany] at this
    exact absurd this (by simp)
  rw [h]
  rfl

theorem childrenOf_clearAt_of_head_ne {fs : Fs} {p q : P} (hp : p ≠ []) (hq : q ≠ [])
    (h : p.head? ≠ q.head?) : childrenOf (clearAt fs p) q = childrenOf fs q := by
  unfold clearAt removeItems
  apply childrenOf_filter
  intro e he hke
  by_contra hcq
  have hcq2 : childP q e = true := by simpa using hcq
  obtain ⟨_, hq2⟩ := childP_prop hcq2
  have hke2 : ((childrenOf fs p).any (fun q => q.isPrefixOf e.1)) = true := by
    cases hx : (childrenOf fs p).any (fun q => q.isPrefixOf e.1) with
    | true => rfl
    | false => rw [hx] at hke; simp at hke
  obtain ⟨c, hc, hcp⟩ := List.any_eq_true.mp hke2
  obtain ⟨n, _, _, hpc⟩ := mem_childrenOf.mp hc
  rw [List.isPrefixOf_iff_prefix] at hcp
  have h1 : e.1.head? = p.head? := head?_of_pref (hpc.trans hcp) hp
  have h2 : e.1.head? = q.head? := head?_of_pref hq2 hq
  exact h (h1 ▸ h2)

theorem isPrefixOf_false_of {a b : P} (h : ¬ a <+: b) : a.isPrefixOf b = false := by
  cases hx : a.isPrefixOf b with
  | false => rfl
  | true => exact absurd (List.isPrefixOf_iff_prefix.mp hx) h

-- Filesystem lemma kit: writes.

theorem lookupP_writeF_self (fs : Fs) (p : P) (c : String) :
    lookupP (writeF fs p c) p = some (Node.file c) := by
  unfold writeF
  rw [lookupP_append_right]
  · simp [lookupP]
  · apply lookupP_eq_none_of
    intro e he
    have h2 := (List.mem_filter.mp he).2
    simpa using h2

theorem lookupP_writeF_ne {fs : Fs} {p q : P} (c : String) (h : q ≠ p) :
    lookupP (writeF fs p c) q = lookupP fs q := by
  unfold writeF
  have h1 : lookupP ((fs.filter (fun e => !(e.1 == p))) ++ [(p, Node.file c)]) q
      = lookupP (fs.filter (fun e => !(e.1 == p))) q := by
    apply lookupP_append_keys_ne
    intro e he
    simp only [List.mem_singleton] at he
    rw [he]
    exact fun hh => h hh.symm
  rw [h1]
  apply lookupP_filter
  intro e he
  rw [he]
  simp [h]

theorem filter_key_children (fs : Fs) (q t : P) :
    childrenOf (fs.filter (fun e => !(e.1 == t))) q =
      (childrenOf fs q).filter (fun r => !(r == t)) := by
  induction fs with
  | nil => rfl
  | cons e fs ih =>
    by_cases het : e.1 = t
    · rw [List.filter_cons, if_neg (by simp [het]), childrenOf_cons]
      by_cases hc : childP q e = true
      · rw [if_pos hc, List.filter_cons, if_neg (by simp [het]), ih]
      · rw [if_neg hc, ih]
    · rw [List.filter_cons, if_pos (by simp [het]), childrenOf_cons, childrenOf_cons]
      by_cases hc : childP q e = true
      · rw [if_pos hc, if_pos hc, List.filter_cons, if_pos (by simp [het]), ih]
      · rw [if_neg hc, if_neg hc, ih]

theorem childrenOf_writeF (fs : Fs) (t : P) (c : String) (q : P) :
    childrenOf (writeF fs t c) q =
      (childrenOf fs q).filter (fun r => !(r == t)) ++
        (if childP q (t, Node.file c) = true then [t] else []) := by
  unfold writeF
  rw [childrenOf_append, filter_key_children]
  congr 1
  rw [childrenOf_cons]
  split <;> simp [childrenOf]

theorem childrenOf_writeF_of_child (fs : Fs) (q : P) (s : String) (c : String)
    (hfresh : (q ++ [s]) ∉ childrenOf fs q) :
    childrenOf (writeF fs (q ++ [s]) c) q = childrenOf fs q ++ [q ++ [s]] := by
  rw [childrenOf_writeF]
  have hc : childP q (q ++ [s], Node.file c) = true := by
    simp [childP, List.isPrefixOf_iff_prefix]
  rw [if_pos hc]
  congr 1
  apply List.filter_eq_self.mpr
  intro r hr
  have : r ≠ q ++ [s] := fun hh => hfresh (hh ▸ hr)
  simp [this]

theorem childrenOf_writeF_of_not_child (fs : Fs) {q t : P} (c : String)
    (hns : childP q (t, Node.file c) = false) :
    childrenOf (writeF fs t c) q = childrenOf fs q := by
  have hnm : t ∉ childrenOf fs q := by
    intro hm
    obtain ⟨n, _, hl, hp⟩ := mem_childrenOf.mp hm
    have : childP q (t, Node.file c) = true := by
      simp [childP, hl, List.isPrefixOf_iff_prefix, hp]
    rw [this] at hns
    cases hns
  rw [childrenOf_writeF, hns]
  simp only [Bool.false_eq_true, if_false, List.append_nil]
  apply List.filter_eq_self.mpr
  intro r hr
  have : r ≠ t := fun hh => hnm (hh ▸ hr)
  simp [this]

-- Filesystem lemma kit: directory creation.

theorem initsOf_head {p q : P} (hq : q ∈ initsOf p) : q ≠ [] ∧ q.head? = p.head? := by
  simp only [initsOf, List.mem_map, List.mem_range] at hq
  obtain ⟨i, hi, rfl⟩ := hq
  cases p with
  | nil => simp at hi
  | cons a p2 => exact ⟨by simp [List.take_succ_cons], by simp [List.take_succ_cons]⟩

theorem not_mem_initsOf_of_head {p q : P} (h : q.head? ≠ p.head?) : q ∉ initsOf p :=
  fun hm => h ((initsOf_head hm).2)

theorem lookupP_createDirAll_of_some {fs : Fs} {p q : P} {n : Node}
    (h : lookupP fs q = some n) : lookupP (createDirAll fs p) q = some n :=
  lookupP_append_left h

theorem existsP_createDirAll_of {fs : Fs} {p q : P} (h : existsP fs q = true) :
    existsP (createDirAll fs p) q = true := by
  rcases existsP_iff.mp h with h0 | ⟨n, hm⟩
  · exact existsP_iff.mpr (Or.inl h0)
  · exact existsP_iff.mpr (Or.inr ⟨n, List.mem_append_left _ hm⟩)

theorem existsP_createDirAll_self (fs : Fs) (p : P) :
    existsP (createDirAll fs p) p = true := by
  by_cases hp : p = []
  · subst hp
    simp [existsP]
  · by_cases he : existsP fs p = true
    · exact existsP_createDirAll_of he
    · have he2 : existsP fs p = false := by simpa using he
      apply existsP_iff.mpr
      refine Or.inr ⟨Node.dir, List.mem_append_right _ ?_⟩
      apply List.mem_map.mpr
      refine ⟨p, List.mem_filter.mpr ⟨?_, by simp [he2]⟩, rfl⟩
      simp only [initsOf, List.mem_map, List.mem_range]
      have hl : 1 ≤ p.length := by
        cases p with
        | nil => exact absurd rfl hp
        | cons a p2 => simp
      refine ⟨p.length - 1, by omega, ?_⟩
      rw [Nat.sub_add_cancel hl, List.take_length]

theorem lookupP_createDirAll_none {fs : Fs} {p q : P}
    (hq : lookupP fs q = none) (hni : q ∉ initsOf p) :
    lookupP (createDirAll fs p) q = none := by
  unfold createDirAll
  rw [lookupP_append_right hq]
  apply lookupP_eq_none_of
  intro e he
  simp only [List.mem_map, List.mem_filter] at he
  obtain ⟨r, ⟨hr, _⟩, rfl⟩ := he
  exact fun hh => hni (hh ▸ hr)

theorem childrenOf_createDirAll_of_head {fs : Fs} {p2 q : P} (hq : q ≠ [])
    (h : p2.head? ≠ q.head?) : childrenOf (createDirAll fs p2) q = childrenOf fs q := by
  unfold createDirAll
  rw [childrenOf_append]
  have hnil : childrenOf (((initsOf p2).filter (fun r => !(existsP fs r))).map
      (fun r => (r, Node.dir))) q = [] := by
    unfold childrenOf
    rw [List.filter_eq_nil_iff.mpr]
    · rfl
    · intro e he hce
      simp only [List.mem_map, List.mem_filter] at he
      obtain ⟨r, ⟨hr, _⟩, rfl⟩ := he
      obtain ⟨_, hqr⟩ := childP_prop hce
      have h1 : r.head? = q.head? := head?_of_pref hqr hq
      have h2 := (initsOf_head hr).2
      exact h (h2 ▸ h1)
  rw [hnil, List.append_nil]

theorem createDirAll_oenv {fs : Fs} (hwd : existsP fs WDp = true)
    (hoe : lookupP fs OENVp = none) :
    createDirAll fs OENVp = fs ++ [(OENVp, Node.dir)] := by
  unfold createDirAll
  congr 1
  have hi : initsOf OENVp = [WDp, OENVp] := by rfl
  rw [hi]
  have ho : existsP fs OENVp = false := by
    unfold existsP
    rw [hoe]
    rfl
  rw [List.filter_cons, if_neg (by simp [hwd]), List.filter_cons, if_pos (by simp [ho]),
    List.filter_nil]
  rfl

-- Filesystem lemma kit: copying.

theorem lookupP_copyTree_of_not_pref {fs : Fs} {s dst q : P} (h : ¬ dst <+: q) :
    lookupP (copyTree fs s dst) q = lookupP fs q := by
  unfold copyTree
  have h1 : ∀ e ∈ (fs.filter (fun e => s.isPrefixOf e.1)).map
      (fun e => (dst ++ e.1.drop s.length, e.2)), e.1 ≠ q := by
    intro e he
    simp only [List.mem_map] at he
    obtain ⟨e2, _, rfl⟩ := he
    exact fun hh => h (hh ▸ ⟨e2.1.drop s.length, rfl⟩)
  rw [lookupP_append_keys_ne h1]
  apply lookupP_filter
  intro e he
  rw [he, isPrefixOf_false_of h]
  rfl

theorem existsP_copyTree_of_not_pref {fs : Fs} {s dst q : P} (h : ¬ dst <+: q) :
    existsP (copyTree fs s dst) q = existsP fs q := by
  unfold existsP
  rw [lookupP_copyTree_of_not_pref h]

theorem lookupP_rebased {s dst : P} :
    ∀ {fs : Fs} {n : Node}, lookupP fs s = some n →
      lookupP ((fs.filter (fun e => s.isPrefixOf e.1)).map
        (fun e => (dst ++ e.1.drop s.length, e.2))) dst = some n := by
  intro fs
  induction fs with
  | nil =>
    intro n h
    simp [lookupP] at h
  | cons e fs ih =>
    intro n h
    by_cases hes : e.1 = s
    · have hn : e.2 = n := by
        unfold lookupP at h
        rw [List.find?_cons_of_pos _ (by simp [hes])] at h
        simpa using h
      rw [List.filter_cons,
        if_pos (by rw [hes]; exact (List.isPrefixOf_iff_prefix).mpr (List.prefix_refl s))]
      simp only [List.map_cons]
      unfold lookupP
      rw [List.find?_cons_of_pos _ (by simp [hes, List.drop_length])]
      simpa using hn
    · have h2 : lookupP fs s = some n := by
        unfold lookupP at h ⊢
        rwa [List.find?_cons_of_neg _ (by simp [hes])] at h
      by_cases hp : s.isPrefixOf e.1 = true
      · rw [List.filter_cons, if_pos (by simp [hp])]
        simp only [List.map_cons]
        have hlt : s.length < e.1.length := by
          have hpre := List.isPrefixOf_iff_prefix.mp hp
          rcases Nat.lt_or_ge s.length e.1.length with hh | hh
          · exact hh
          · exact absurd (List.IsPrefix.eq_of_length_le hpre hh).symm hes
        have hkey : ((dst ++ e.1.drop s.length, e.2).1 == dst) = false := by
          simp only [beq_eq_false_iff_ne, ne_eq]
          intro hh
          have := congrArg List.length hh
          simp only [List.length_append, List.length_drop] at this
          omega
        unfold lookupP
        rw [List.find?_cons_of_neg _ (by simp [hkey])]
        exact ih h2
      · rw [List.filter_cons, if_neg (by simp [hp])]
        exact ih h2

theorem lookupP_copyTree_dst {fs : Fs} {s dst : P} {n : Node}
    (hs : lookupP fs s = some n) :
    lookupP (copyTree fs s dst) dst = some n := by
  unfold copyTree
  rw [lookupP_append_right]
  · exact lookupP_rebased hs
  · apply lookupP_eq_none_of
    intro e he
    have h2 := (List.mem_filter.mp he).2
    intro hh
    rw [hh] at h2
    have h3 : dst.isPrefixOf dst = true :=
      (List.isPrefixOf_iff_prefix).mpr (List.prefix_refl dst)
    rw [h3] at h2
    cases h2

-- Filesystem lemma kit: removal and copying, preservation.

theorem lookupP_filter_none {fs : Fs} {q : P} (keep : P × Node → Bool)
    (h : lookupP fs q = none) : lookupP (fs.filter keep) q = none := by
  apply lookupP_eq_none_of
  intro e he hh
  have hm : e ∈ fs := List.mem_filter.mp he |>.1
  have : (lookupP fs q).isSome = true :=
    lookupP_isSome_iff.mpr ⟨e.2, by rw [← hh]; cases e; exact hm⟩
  rw [h] at this
  cases this

theorem lookupP_removeItems_of {fs : Fs} {ps : List P} {q : P}
    (h : ∀ r ∈ ps, ¬ r <+: q) :
    lookupP (removeItems fs ps) q = lookupP fs q := by
  unfold removeItems
  apply lookupP_filter
  intro e he
  rw [he]
  simp only [Bool.not_eq_true']
  rw [List.any_eq_false]
  intro r hr
  simp [List.isPrefixOf_iff_prefix, h r hr]

theorem childrenOf_removeItems_head {fs : Fs} {ps : List P} {q : P} (hq : q ≠ [])
    (h : ∀ r ∈ ps, r ≠ [] ∧ r.head? ≠ q.head?) :
    childrenOf (removeItems fs ps) q = childrenOf fs q := by
  unfold removeItems
  apply childrenOf_filter
  intro e he hke
  by_contra hcq
  have hcq2 : childP q e = true := by simpa using hcq
  obtain ⟨_, hq2⟩ := childP_prop hcq2
  have hke2 : (ps.any (fun r => r.isPrefixOf e.1)) = true := by
    cases hx : ps.any (fun r => r.isPrefixOf e.1) with
    | true => rfl
    | false => rw [hx] at hke; simp at hke
  obtain ⟨r, hr, hrp⟩ := List.any_eq_true.mp hke2
  rw [List.isPrefixOf_iff_prefix] at hrp
  obtain ⟨hrne, hrh⟩ := h r hr
  have h1 : e.1.head? = r.head? := head?_of_pref hrp hrne
  have h2 : e.1.head? = q.head? := head?_of_pref hq2 hq
  exact hrh (h1 ▸ h2)

theorem childrenOf_removeItems_len {fs : Fs} {ps : List P} {q : P}
    (h : ∀ r ∈ ps, q.length + 2 ≤ r.length) :
    childrenOf (removeItems fs ps) q = childrenOf fs q := by
  unfold removeItems
  apply childrenOf_filter
  intro e he hke
  by_contra hcq
  have hcq2 : childP q e = true := by simpa using hcq
  obtain ⟨hl, _⟩ := childP_prop hcq2
  have hke2 : (ps.any (fun r => r.isPrefixOf e.1)) = true := by
    cases hx : ps.any (fun r => r.isPrefixOf e.1) with
    | true => rfl
    | false => rw [hx] at hke; simp at hke
  obtain ⟨r, hr, hrp⟩ := List.any_eq_true.mp hke2
  rw [List.isPrefixOf_iff_prefix] at hrp
  have := hrp.length_le
  have := h r hr
  omega

theorem childrenOf_copyTree_of (fs : Fs) {s dst q : P}
    (h : ∀ r : P, dst <+: r → r.length = q.length + 1 → q <+: r → False) :
    childrenOf (copyTree fs s dst) q = childrenOf fs q := by
  unfold copyTree
  rw [childrenOf_append]
  have h2 : childrenOf ((fs.filter (fun e => s.isPrefixOf e.1)).map
      (fun e => (dst ++ e.1.drop s.length, e.2))) q = [] := by
    unfold childrenOf
    rw [List.filter_eq_nil_iff.mpr]
    · rfl
    · intro e he hce
      simp only [List.mem_map] at he
      obtain ⟨e2, _, rfl⟩ := he
      obtain ⟨hl, hq2⟩ := childP_prop hce
      exact h _ ⟨e2.1.drop s.length, rfl⟩ hl hq2
  rw [h2, List.append_nil]
  apply childrenOf_filter
  intro e he hke
  by_cases hcq : childP q e = true
  · obtain ⟨hl, hq2⟩ := childP_prop hcq
    have hdp : dst.isPrefixOf e.1 = true := by
      cases hx : dst.isPrefixOf e.1 with
      | true => rfl
      | false => rw [hx] at hke; simp at hke
    exact absurd (h e.1 (List.isPrefixOf_iff_prefix.mp hdp) hl hq2) (fun a => a)
  · simpa using hcq

theorem childrenOf_copyTree_len (fs : Fs) {s dst q : P}
    (h : q.length + 2 ≤ dst.length) :
    childrenOf (copyTree fs s dst) q = childrenOf fs q := by
  apply childrenOf_copyTree_of
  intro r hdr hl _
  have := hdr.length_le
  omega

theorem childrenOf_copyTree_head (fs : Fs) {s dst q : P} (hq : q ≠ []) (hd : dst ≠ [])
    (h : dst.head? ≠ q.head?) :
    childrenOf (copyTree fs s dst) q = childrenOf fs q := by
  apply childrenOf_copyTree_of
  intro r hdr _ hqr
  exact h ((head?_of_pref hdr hd) ▸ (head?_of_pref hqr hq))

theorem childrenOf_createDirAll_of_exists {fs : Fs} {p2 q : P}
    (h : ∀ r ∈ initsOf p2, r.length = q.length + 1 → q <+: r → existsP fs r = true) :
    childrenOf (createDirAll fs p2) q = childrenOf fs q := by
  unfold createDirAll
  rw [childrenOf_append]
  have hnil : childrenOf (((initsOf p2).filter (fun r => !(existsP fs r))).map
      (fun r => (r, Node.dir))) q = [] := by
    unfold childrenOf
    rw [List.filter_eq_nil_iff.mpr]
    · rfl
    · intro e he hce
      simp only [List.mem_map, List.mem_filter] at he
      obtain ⟨r, ⟨hr, hre⟩, rfl⟩ := he
      obtain ⟨hl, hqr⟩ := childP_prop hce
      have := h r hr hl hqr
      rw [this] at hre
      simp at hre
  rw [hnil, List.append_nil]

-- Fold preservation lemmas.

theorem lookupP_create_dirF_of_some {fs : Fs} {p q : P} {n : Node}
    (h : lookupP fs q = some n) : lookupP (create_dirF fs p) q = some n := by
  unfold create_dirF
  split
  · exact h
  · exact lookupP_createDirAll_of_some h

theorem existsP_create_dirF_of {fs : Fs} {p q : P} (h : existsP fs q = true) :
    existsP (create_dirF fs p) q = true := by
  unfold create_dirF
  split
  · exact h
  · exact existsP_createDirAll_of h

theorem existsP_create_dirF_self (fs : Fs) (p : P) :
    existsP (create_dirF fs p) p = true := by
  unfold create_dirF
  split
  · assumption
  · exact existsP_createDirAll_self fs p

theorem lookupP_foldl_create_of_some {base : P} {q : P} {n : Node} :
    ∀ (names : List String) {fs : Fs}, lookupP fs q = some n →
      lookupP (names.foldl (fun f s => create_dirF f (base ++ [s])) fs) q = some n := by
  intro names
  induction names with
  | nil => intro fs h; exact h
  | cons a names ih =>
    intro fs h
    simp only [List.foldl_cons]
    exact ih (lookupP_create_dirF_of_some h)

theorem existsP_foldl_create_of {base : P} {q : P} :
    ∀ (names : List String) {fs : Fs}, existsP fs q = true →
      existsP (names.foldl (fun f s => create_dirF f (base ++ [s])) fs) q = true := by
  intro names
  induction names with
  | nil => intro fs h; exact h
  | cons a names ih =>
    intro fs h
    simp only [List.foldl_cons]
    exact ih (existsP_create_dirF_of h)

theorem head?_append_of_ne_nil {a : P} (b : List String) (h : a ≠ []) :
    (a ++ b).head? = a.head? := by
  cases a with
  | nil => exact absurd rfl h
  | cons x a2 => rfl

theorem childrenOf_create_dirF_of_head {fs : Fs} {p2 q : P} (hq : q ≠ [])
    (h : p2.head? ≠ q.head?) : childrenOf (create_dirF fs p2) q = childrenOf fs q := by
  unfold create_dirF
  split
  · rfl
  · exact childrenOf_createDirAll_of_head hq h

theorem childrenOf_foldl_create_of_head {base : P} {q : P} (hq : q ≠ []) (hb : base ≠ [])
    (h : base.head? ≠ q.head?) :
    ∀ (names : List String) {fs : Fs},
      childrenOf (names.foldl (fun f s => create_dirF f (base ++ [s])) fs) q
        = childrenOf fs q := by
  intro names
  induction names with
  | nil => intro fs; rfl
  | cons a names ih =>
    intro fs
    simp only [List.foldl_cons]
    rw [ih, childrenOf_create_dirF_of_head hq (by rw [head?_append_of_ne_nil _ hb]; exact h)]

theorem lookupP_createDirAll_eq {fs : Fs} {p q : P} (hni : q ∉ initsOf p) :
    lookupP (createDirAll fs p) q = lookupP fs q := by
  cases hl : lookupP fs q with
  | none => exact lookupP_createDirAll_none hl hni
  | some n => exact lookupP_createDirAll_of_some hl

theorem lookupP_create_dirF_eq {fs : Fs} {p q : P} (hni : q ∉ initsOf p) :
    lookupP (create_dirF fs p) q = lookupP fs q := by
  unfold create_dirF
  split
  · rfl
  · exact lookupP_createDirAll_eq hni

theorem existsP_eq_of_lookupP_eq {fs g : Fs} {q : P}
    (h : lookupP g q = lookupP fs q) : existsP g q = existsP fs q := by
  unfold existsP
  rw [h]

-- Step equations for the primitive operations.

theorem ensure_exists {p : EPath} {w : World} (h : existsP w.fs p.comps = true) :
    ensure_mount_path p w = .ok () w := by
  unfold ensure_mount_path
  rw [if_pos h]

theorem ensure_create {p : EPath} {w : World} (h : existsP w.fs p.comps = false) :
    ensure_mount_path p w = .ok ()
      { w with fs := createDirAll w.fs p.comps,
               trace := w.trace ++ [Ev.createMountPath p.comps] } := by
  unfold ensure_mount_path
  rw [if_neg (by simp [h])]

theorem resolve_cid_ok {p : EPath} {cid : String}
    (h : p.comps.dropLast.getLast? = some cid) (w : World) :
    resolve_cid p w = .ok cid w := by
  unfold resolve_cid EPath.parent EPath.fileName
  cases hp : p.comps with
  | nil => rw [hp] at h; simp at h
  | cons a rest =>
    rw [hp] at h
    simp [hp, h]

theorem clear_path_ok {p : EPath} {w : World} (hu : p.utf8 = true)
    (hd : p.comps = [] ∨ lookupP w.fs p.comps = some Node.dir) :
    clear_path p w = .ok () { w with fs := clearAt w.fs p.comps,
                                     trace := w.trace ++ [Ev.clearPath p.comps] } := by
  unfold clear_path EPath.toStr
  rw [if_pos hu]
  have hcond : (p.comps == [] || lookupP w.fs p.comps == some Node.dir) = true := by
    rcases hd with h | h <;> simp [h]
  rw [if_pos hcond]
  rfl

theorem clear_path_err_utf8 {p : EPath} {w : World} (hu : p.utf8 = false) :
    clear_path p w = .error (Err.msg ("mount_path does not exist")) w := by
  unfold clear_path EPath.toStr
  rw [if_neg (by simp [hu])]

theorem prep_workdir_create {w : World} (h : existsP w.fs WDp = false) :
    prep_workdir w = .ok () { w with fs := createDirAll w.fs WDp,
                                     trace := w.trace ++ [Ev.prepareWorkspace WDp] } := by
  unfold prep_workdir
  rw [if_neg (by simp [h])]

theorem prep_workdir_clear {w : World} (h : existsP w.fs WDp = true)
    (hd : lookupP w.fs WDp = some Node.dir) :
    prep_workdir w = .ok () { w with fs := clearAt w.fs WDp,
                                     trace := w.trace ++ [Ev.clearPath WDp] } := by
  unfold prep_workdir
  rw [if_pos h]
  exact clear_path_ok rfl (Or.inr hd)

theorem nix_mount_ok {fsname : String} {target backing : P} {w : World}
    (h : existsP w.fs target = true) :
    nix_mount fsname target backing w = .ok ()
      { w with mounts := (fsname, target) :: w.mounts,
               trace := w.trace ++ [Ev.mountFs fsname target backing] } := by
  unfold nix_mount
  rw [if_pos h]

theorem nix_umount_ok {target : P} {w : World}
    (h : w.mounts.any (fun m => m.2 == target) = true) :
    nix_umount target w = .ok ()
      { w with mounts := eraseMountAt w.mounts target,
               trace := w.trace ++ [Ev.umountFs target] } := by
  unfold nix_umount
  rw [if_pos h]

theorem grk_eq (rb : Nat → Nat → Nat) (w : World) :
    generate_random_key rb w = .ok (keyAt rb w.rcalls) { w with rcalls := w.rcalls + 1 } := rfl

theorem rw_create_eq (o : Oracles) (t : P) (k : List Nat) (w : World) :
    rw_create_empty o t (some k) w = .ok ⟨o.encFlag w.bcalls, k⟩
      { w with fs := writeF w.fs t ("rwimage"), bcalls := w.bcalls + 1,
               trace := w.trace ++ [Ev.buildRw t k] } := rfl

theorem mk_dir_all_eq (p : P) (w : World) :
    mk_dir_all p w = .ok () { w with fs := createDirAll w.fs p } := rfl

theorem ro_build_eq (o : Oracles) (src tdir : P) (name : String) (tmp : P)
    (k : List Nat) (w : World) :
    ro_build_from_dir o src tdir name tmp (some k) w = .ok ⟨o.encFlag w.bcalls, k⟩
      { w with fs := (o.junk w.bcalls).foldl (fun f s => create_dirF f (tmp ++ [s]))
                 (writeF w.fs (tdir ++ [name]) ("roimage")),
               bcalls := w.bcalls + 1,
               trace := w.trace ++ [Ev.buildRo src (tdir ++ [name]) k (childrenOf w.fs tmp)] } := rfl

theorem write_key_eq (p : P) (s : String) (w : World) :
    write_key_file p s w = .ok () { w with fs := writeF w.fs p s,
                                           trace := w.trace ++ [Ev.writeKeys p s] } := rfl

-- `copyItems` equations.

theorem copyItems_cons_ok {fs : Fs} {s : P} {name : String} (rest : List P) (d : P)
    (hn : s.getLast? = some name) (he : existsP fs s = true) :
    copyItems fs (s :: rest) d = copyItems (copyTree fs s (d ++ [name])) rest d := by
  simp [copyItems, hn, he]

theorem copyItems_cons_err {fs : Fs} {s : P} {name : String} (rest : List P) (d : P)
    (hn : s.getLast? = some name) (he : existsP fs s = false) :
    copyItems fs (s :: rest) d = .error (Err.io (("copy source missing: ") ++ name)) := by
  simp [copyItems, hn, he]

theorem copyItems_libs_ok {env : P} (henv : env ≠ []) (hopt : env.head? ≠ some ("opt")) :
    ∀ (libs : List String) {fs : Fs},
      (∀ l ∈ libs, existsP fs (occlumSrcDir ++ [l]) = true) →
      copyItems fs (libs.map (fun l => occlumSrcDir ++ [l]))
          (env ++ ["opt", "occlum", "glibc", "lib"]) =
        .ok (libs.foldl (fun f l =>
          copyTree f (occlumSrcDir ++ [l]) ((env ++ ["opt", "occlum", "glibc", "lib"]) ++ [l])) fs) := by
  intro libs
  induction libs with
  | nil => intro fs _; rfl
  | cons l libs ih =>
    intro fs h
    simp only [List.map_cons, List.foldl_cons]
    rw [copyItems_cons_ok _ _ (by rw [List.getLast?_concat]) (h l (by simp))]
    apply ih
    intro l2 hl2
    rw [existsP_copyTree_of_not_pref]
    · exact h l2 (by simp [hl2])
    · intro hpre
      have h1 := head?_of_pref hpre (by simp)
      rw [head?_append_of_ne_nil (a := env ++ ["opt", "occlum", "glibc", "lib"]) [l] (by simp),
        head?_append_of_ne_nil (a := env) ["opt", "occlum", "glibc", "lib"] henv] at h1
      have h2 : (occlumSrcDir ++ [l2]).head? = some ("opt") := rfl
      rw [h2] at h1
      exact hopt h1.symm

-- `create_environment`: run equations.

theorem not_prefix_of_head_ne {a b : P} (ha : a ≠ []) (_hb : b ≠ [])
    (h : a.head? ≠ b.head?) : ¬ a <+: b :=
  fun hp => h ((head?_of_pref hp ha).symm ▸ rfl)

theorem existsP_envFs1_eq {fs : Fs} {env q : P} (henv : env ≠ []) (hq : q ≠ [])
    (h : env.head? ≠ q.head?) : existsP (envFs1 fs env) q = existsP fs q := by
  simp only [envFs1]
  have h0 : lookupP (create_dirF fs (env ++ ["lib64"])) q = lookupP fs q := by
    apply lookupP_create_dirF_eq
    apply not_mem_initsOf_of_head
    rw [head?_append_of_ne_nil _ henv]
    exact fun hh => h hh.symm
  split
  · apply existsP_eq_of_lookupP_eq
    rw [lookupP_removeItems_of, h0]
    intro r hr
    simp only [List.mem_singleton] at hr
    subst hr
    apply not_prefix_of_head_ne (by simp [henv]) hq
    rw [head?_append_of_ne_nil _ henv]
    exact h
  · exact existsP_eq_of_lookupP_eq h0

theorem create_environment_ok {env : P} {w : World}
    (henv : env ≠ []) (h64 : env.head? ≠ some ("lib64")) (hopt : env.head? ≠ some ("opt"))
    (hld : existsP w.fs ldSrc = true)
    (hlibs : ∀ l ∈ occlumLibs, existsP w.fs (occlumSrcDir ++ [l]) = true) :
    create_environment env w = .ok ()
      { w with fs := stageEnvFs w.fs env, trace := w.trace ++ [Ev.stageEnv env] } := by
  unfold create_environment
  have hld1 : existsP (envFs1 w.fs env) ldSrc = true := by
    rw [existsP_envFs1_eq henv (by simp [ldSrc]) (by simp [ldSrc]; exact fun hh => h64 (by simp [hh]))]
    exact hld
  have h1 : copyItems (envFs1 w.fs env) [ldSrc] (env ++ ["lib64"]) =
      .ok (copyTree (envFs1 w.fs env) ldSrc ((env ++ ["lib64"]) ++ [LD_LIB])) := by
    rw [copyItems_cons_ok _ _ (by rfl) hld1]
    rfl
  rw [h1]
  dsimp only
  have hlibs2 : ∀ l ∈ occlumLibs,
      existsP (createDirAll (copyTree (envFs1 w.fs env) ldSrc ((env ++ ["lib64"]) ++ [LD_LIB]))
        (env ++ ["opt", "occlum", "glibc", "lib"])) (occlumSrcDir ++ [l]) = true := by
    intro l hl
    have e0 : existsP (envFs1 w.fs env) (occlumSrcDir ++ [l]) = true := by
      rw [existsP_envFs1_eq henv (by simp [occlumSrcDir])
        (by simp [occlumSrcDir]; exact fun hh => hopt (by simp [hh]))]
      exact hlibs l hl
    have e1 : existsP (copyTree (envFs1 w.fs env) ldSrc ((env ++ ["lib64"]) ++ [LD_LIB]))
        (occlumSrcDir ++ [l]) = true := by
      rw [existsP_copyTree_of_not_pref]
      · exact e0
      · apply not_prefix_of_head_ne (by simp [henv]) (by simp [occlumSrcDir])
        rw [head?_append_of_ne_nil _ (by simp [henv]), head?_append_of_ne_nil _ henv]
        simp [occlumSrcDir]
        exact fun hh => hopt (by simp [hh])
    exact existsP_createDirAll_of e1
  rw [copyItems_libs_ok henv hopt occlumLibs hlibs2]
  dsimp only
  rw [stageEnvFs]

-- The per-layer build loop: run equation.

theorem wdp_ne_img (mp : P) (n : Nat) : WDp ≠ mp ++ [imgName n] := by
  intro h
  have hlen := congrArg List.length h
  simp only [WDp, List.length_append, List.length_cons, List.length_nil] at hlen
  have hmp : mp = [] := by
    cases mp with
    | nil => rfl
    | cons a t => simp at hlen
  subst hmp
  simp only [List.nil_append, WDp] at h
  have h2 : ("eccfs_tmp") = imgName n := by simpa using h
  have h3 := congrArg String.length h2
  have h12 := imgName_length n
  rw [← h3] at h12
  exact absurd h12 (by decide)

theorem not_prefix_of_length {a b : P} (h : b.length < a.length) : ¬ a <+: b :=
  fun hp => absurd hp.length_le (by omega)

theorem append_singleton_ne {mp : P} {a : String} {r : P}
    (hne : r.getLast? ≠ some a) : mp ++ [a] ≠ r := by
  intro h
  exact hne (h ▸ List.getLast?_concat mp)

theorem wdp_not_pref {mp : P} (hmp : mp.head? ≠ some ("eccfs_tmp")) (a : String)
    (ha : a ≠ ("eccfs_tmp")) : ¬ WDp <+: mp ++ [a] := by
  intro h
  have h1 := head?_of_pref h (by simp [WDp])
  cases mp with
  | nil =>
    simp [WDp] at h1
    exact ha h1
  | cons x t =>
    simp [WDp] at h1
    exact hmp (by simp [h1])

theorem childP_wdp_false {q : P} {n : Node} (h : ¬ WDp <+: q) :
    childP WDp (q, n) = false := by
  unfold childP
  rw [isPrefixOf_false_of h]
  simp

theorem lookupP_none_of_children_nil {fs : Fs} {p q : P} (hch : childrenOf fs p = [])
    (hl : q.length = p.length + 1) (hp : p <+: q) : lookupP fs q = none := by
  cases hq : lookupP fs q with
  | none => rfl
  | some n =>
    have hs : (lookupP fs q).isSome = true := by rw [hq]; rfl
    obtain ⟨n2, hm⟩ := lookupP_isSome_iff.mp hs
    have hc : q ∈ childrenOf fs p := mem_childrenOf.mpr ⟨n2, hm, hl, hp⟩
    rw [hch] at hc
    simp at hc

theorem childrenOf_createDirAll_oenv_app {fs : Fs} (hoe : existsP fs OENVp = true)
    (xs : List String) :
    childrenOf (createDirAll fs (OENVp ++ xs)) WDp = childrenOf fs WDp := by
  apply childrenOf_createDirAll_of_exists
  intro r hr hlen _
  have hr2 : r = OENVp := by
    simp only [initsOf, List.mem_map, List.mem_range] at hr
    obtain ⟨i, hi, rfl⟩ := hr
    rw [List.length_take] at hlen
    have hi1 : i = 1 := by
      simp only [WDp, List.length_cons, List.length_nil] at hlen
      omega
    subst hi1
    rw [show (1 + 1 : Nat) = OENVp.length from rfl, List.take_left]
  rw [hr2]
  exact hoe

theorem childrenOf_create_dirF_oenv_app {fs : Fs} (hoe : existsP fs OENVp = true)
    (xs : List String) :
    childrenOf (create_dirF fs (OENVp ++ xs)) WDp = childrenOf fs WDp := by
  unfold create_dirF
  split
  · rfl
  · exact childrenOf_createDirAll_oenv_app hoe xs

theorem childrenOf_libfold_wd (libs : List String) :
    ∀ (fs : Fs), childrenOf (libs.foldl (fun f l => copyTree f (occlumSrcDir ++ [l])
      ((OENVp ++ ["opt", "occlum", "glibc", "lib"]) ++ [l])) fs) WDp
        = childrenOf fs WDp := by
  induction libs with
  | nil => intro fs; rfl
  | cons l libs ih =>
    intro fs
    simp only [List.foldl_cons]
    rw [ih, childrenOf_copyTree_len]
    simp [WDp, OENVp]

theorem lookupP_libfold_wd (libs : List String) :
    ∀ (fs : Fs) {n : Node}, lookupP fs WDp = some n →
      lookupP (libs.foldl (fun f l => copyTree f (occlumSrcDir ++ [l])
        ((OENVp ++ ["opt", "occlum", "glibc", "lib"]) ++ [l])) fs) WDp = some n := by
  induction libs with
  | nil => intro fs n h; exact h
  | cons l libs ih =>
    intro fs n h
    simp only [List.foldl_cons]
    apply ih
    rw [lookupP_copyTree_of_not_pref (not_prefix_of_length (by simp [WDp, OENVp]))]
    exact h

theorem existsP_libfold_oenv (libs : List String) :
    ∀ (fs : Fs), existsP fs OENVp = true →
      existsP (libs.foldl (fun f l => copyTree f (occlumSrcDir ++ [l])
        ((OENVp ++ ["opt", "occlum", "glibc", "lib"]) ++ [l])) fs) OENVp = true := by
  induction libs with
  | nil => intro fs h; exact h
  | cons l libs ih =>
    intro fs h
    simp only [List.foldl_cons]
    apply ih
    rw [existsP_copyTree_of_not_pref (not_prefix_of_length (by simp [OENVp]))]
    exact h

theorem sysfold_facts (names : List String) :
    ∀ (fs : Fs), existsP fs OENVp = true →
      childrenOf (names.foldl (fun f d => create_dirF f (OENVp ++ [d])) fs) WDp
          = childrenOf fs WDp ∧
        existsP (names.foldl (fun f d => create_dirF f (OENVp ++ [d])) fs) OENVp = true := by
  induction names with
  | nil => intro fs h; exact ⟨rfl, h⟩
  | cons d names ih =>
    intro fs h
    simp only [List.foldl_cons]
    have hex : existsP (create_dirF fs (OENVp ++ [d])) OENVp = true := existsP_create_dirF_of h
    obtain ⟨c1, e1⟩ := ih _ hex
    exact ⟨by rw [c1, childrenOf_create_dirF_oenv_app h [d]], e1⟩

theorem existsP_envFs1_oenv {fs : Fs} (hoe : existsP fs OENVp = true) :
    existsP (envFs1 fs OENVp) OENVp = true := by
  simp only [envFs1]
  have h0 : existsP (create_dirF fs (OENVp ++ ["lib64"])) OENVp = true :=
    existsP_create_dirF_of hoe
  split
  · rw [existsP_eq_of_lookupP_eq (lookupP_removeItems_of (by
      intro r hr
      simp only [List.mem_singleton] at hr
      subst hr
      exact not_prefix_of_length (by simp [OENVp])))]
    exact h0
  · exact h0

theorem childrenOf_envFs1_wd {fs : Fs} (hoe : existsP fs OENVp = true) :
    childrenOf (envFs1 fs OENVp) WDp = childrenOf fs WDp := by
  simp only [envFs1]
  have h0 : childrenOf (create_dirF fs (OENVp ++ ["lib64"])) WDp = childrenOf fs WDp :=
    childrenOf_create_dirF_oenv_app hoe ["lib64"]
  split
  · rw [childrenOf_removeItems_len (by
      intro r hr
      simp only [List.mem_singleton] at hr
      subst hr
      simp [WDp, OENVp])]
    exact h0
  · exact h0

theorem lookupP_envFs1_wd {fs : Fs} {n : Node} (h : lookupP fs WDp = some n) :
    lookupP (envFs1 fs OENVp) WDp = some n := by
  simp only [envFs1]
  have h0 : lookupP (create_dirF fs (OENVp ++ ["lib64"])) WDp = some n :=
    lookupP_create_dirF_of_some h
  split
  · rw [lookupP_removeItems_of (by
      intro r hr
      simp only [List.mem_singleton] at hr
      subst hr
      exact not_prefix_of_length (by simp [WDp, OENVp]))]
    exact h0
  · exact h0

theorem stageEnvFs_wd_children {fs : Fs} (hoe : existsP fs OENVp = true) :
    childrenOf (stageEnvFs fs OENVp) WDp = childrenOf fs WDp := by
  unfold stageEnvFs
  have e1 : existsP (envFs1 fs OENVp) OENVp = true := existsP_envFs1_oenv hoe
  have e2 : existsP (copyTree (envFs1 fs OENVp) ldSrc ((OENVp ++ ["lib64"]) ++ [LD_LIB]))
      OENVp = true := by
    rw [existsP_copyTree_of_not_pref (not_prefix_of_length (by simp [OENVp]))]
    exact e1
  have e3 : existsP (createDirAll
      (copyTree (envFs1 fs OENVp) ldSrc ((OENVp ++ ["lib64"]) ++ [LD_LIB]))
      (OENVp ++ ["opt", "occlum", "glibc", "lib"])) OENVp = true :=
    existsP_createDirAll_of e2
  have e4 := existsP_libfold_oenv occlumLibs _ e3
  obtain ⟨c5, _⟩ := sysfold_facts sysDirs _ e4
  rw [c5, childrenOf_libfold_wd,
    childrenOf_createDirAll_oenv_app e2 ["opt", "occlum", "glibc", "lib"]]
  rw [childrenOf_copyTree_len _ (by simp [WDp, OENVp])]
  exact childrenOf_envFs1_wd hoe

theorem stageEnvFs_wd_lookup {fs : Fs} {n : Node}
    (h : lookupP fs WDp = some n) : lookupP (stageEnvFs fs OENVp) WDp = some n := by
  unfold stageEnvFs
  apply lookupP_foldl_create_of_some
  apply lookupP_libfold_wd
  apply lookupP_createDirAll_of_some
  rw [lookupP_copyTree_of_not_pref (not_prefix_of_length (by simp [WDp, OENVp]))]
  exact lookupP_envFs1_wd h

theorem wdp_ne_append {mp : P} {a : String} (ha : a ≠ ("eccfs_tmp")) :
    WDp ≠ mp ++ [a] := by
  intro h
  have hlen := congrArg List.length h
  simp only [WDp, List.length_append, List.length_cons, List.length_nil] at hlen
  have hmp : mp = [] := by
    cases mp with
    | nil => rfl
    | cons x t => simp at hlen
  subst hmp
  simp only [List.nil_append, WDp] at h
  exact ha (by simpa using h.symm)

theorem buildLayers_eq (o : Oracles) (mp : P) :
    ∀ (ls : List P) (i : Nat) (w : World),
      lookupP w.fs WDp = some Node.dir →
      childrenOf w.fs WDp = [] →
      buildLayers o mp ls i w = .ok (loopModes o w.rcalls w.bcalls ls)
        { fs := loopFs o mp w.bcalls i w.fs ls, mounts := w.mounts,
          trace := w.trace ++ loopTrace o mp w.rcalls i ls,
          rcalls := w.rcalls + ls.length, bcalls := w.bcalls + ls.length } := by
  intro ls
  induction ls with
  | nil =>
    intro i w _ _
    show (pure [] : EccM (List FsMode)) w = _
    rw [pureEq]
    simp [loopModes, loopFs, loopTrace]
  | cons p rest ih =>
    intro i w hd hch
    simp only [buildLayers]
    set k0 := keyAt o.randByte w.rcalls with hk0
    set w1 : World := { w with rcalls := w.rcalls + 1 } with hw1
    have s1 : generate_random_key o.randByte w = .ok k0 w1 := rfl
    rw [bindOk s1]
    set img := mp ++ [imgName (i + 1)] with himg
    set w2 : World := { w1 with
      fs := (o.junk w1.bcalls).foldl (fun f s => create_dirF f (WDp ++ [s]))
        (writeF w1.fs img ("roimage")),
      bcalls := w1.bcalls + 1,
      trace := w1.trace ++ [Ev.buildRo p img k0 (childrenOf w1.fs WDp)] } with hw2
    have s2 : ro_build_from_dir o p mp (imgName (i + 1)) WDp (some k0) w1 =
        .ok ⟨o.encFlag w1.bcalls, k0⟩ w2 := rfl
    rw [bindOk s2]
    have hd1 : lookupP w2.fs WDp = some Node.dir := by
      rw [hw2]
      dsimp only
      apply lookupP_foldl_create_of_some
      rw [lookupP_writeF_ne _ (by rw [himg]; exact wdp_ne_img mp (i + 1))]
      exact hd
    set w3 : World := { w2 with fs := clearAt w2.fs WDp,
                                trace := w2.trace ++ [Ev.clearPath WDp] } with hw3
    have s3 : clear_path WDe w2 = .ok () w3 := clear_path_ok rfl (Or.inr hd1)
    rw [bindOk s3]
    have hd3 : lookupP w3.fs WDp = some Node.dir := by
      rw [hw3]
      dsimp only
      rw [lookupP_clearAt_self]
      exact hd1
    have hch3 : childrenOf w3.fs WDp = [] := by
      rw [hw3]
      dsimp only
      exact childrenOf_clearAt_self _ _
    rw [bindOk (ih (i + 1) w3 hd3 hch3)]
    rw [pureEq]
    rw [hw3, hw2, hw1]
    dsimp only
    rw [hch]
    simp only [loopModes, loopFs, loopTrace, himg, hk0, imgFile]
    simp [List.append_assoc, Nat.add_assoc, Nat.add_comm 1 rest.length]

set_option maxHeartbeats 1000000 in
theorem build_all_eq (o : Oracles) {mpE : EPath}
    (hmp : mpE.comps.head? ≠ some ("eccfs_tmp"))
    (ls : List P) (w : World)
    (hd : lookupP w.fs WDp = some Node.dir)
    (hch : childrenOf w.fs WDp = [])
    (hld : existsP w.fs ldSrc = true)
    (hlibs : ∀ l ∈ occlumLibs, existsP w.fs (occlumSrcDir ++ [l]) = true) :
    build_all o mpE ls w = .ok (mountModes o w.rcalls w.bcalls ls)
      { fs := buildAllFs o w.bcalls ls mpE.comps w.fs, mounts := w.mounts,
        trace := w.trace ++ buildAllTrace o mpE.comps w.rcalls ls,
        rcalls := w.rcalls + (ls.length + 2), bcalls := w.bcalls + (ls.length + 2) } := by
  simp only [build_all]
  set mp := mpE.comps with hmpc
  set w1 : World := { w with rcalls := w.rcalls + 1 } with hw1
  have s1 : generate_random_key o.randByte w = .ok (keyAt o.randByte w.rcalls) w1 := by rfl
  rw [bindOk s1]
  set w2 : World := { w1 with
    fs := writeF w1.fs (mp ++ [ECCFS_RW_IMAGE_NAME]) ("rwimage"),
    bcalls := w1.bcalls + 1,
    trace := w1.trace ++ [Ev.buildRw (mp ++ [ECCFS_RW_IMAGE_NAME]) (keyAt o.randByte w.rcalls)] }
    with hw2
  have s2 : rw_create_empty o (mp ++ [ECCFS_RW_IMAGE_NAME])
      (some (keyAt o.randByte w.rcalls)) w1 =
        .ok ⟨o.encFlag w.bcalls, keyAt o.randByte w.rcalls⟩ w2 := by rfl
  rw [bindOk s2]
  set w3 : World := { w2 with fs := createDirAll w2.fs OENVp } with hw3
  have s3 : mk_dir_all OENVp w2 = .ok () w3 := by rfl
  rw [bindOk s3]
  -- facts about the filesystem reached so far
  have hoe0 : lookupP w.fs OENVp = none :=
    lookupP_none_of_children_nil hch rfl ⟨["occlum_env"], rfl⟩
  have hoe2 : lookupP w2.fs OENVp = none := by
    show lookupP (writeF w.fs (mp ++ [ECCFS_RW_IMAGE_NAME]) ("rwimage")) OENVp = none
    rw [lookupP_writeF_ne _ (Ne.symm (append_singleton_ne (by decide)))]
    exact hoe0
  have hwd2 : lookupP w2.fs WDp = some Node.dir := by
    show lookupP (writeF w.fs (mp ++ [ECCFS_RW_IMAGE_NAME]) ("rwimage")) WDp = some Node.dir
    rw [lookupP_writeF_ne _ (wdp_ne_append (by decide))]
    exact hd
  have hch2 : childrenOf w2.fs WDp = [] := by
    show childrenOf (writeF w.fs (mp ++ [ECCFS_RW_IMAGE_NAME]) ("rwimage")) WDp = []
    rw [childrenOf_writeF_of_not_child _ _
      (childP_wdp_false (wdp_not_pref hmp ECCFS_RW_IMAGE_NAME (by decide)))]
    exact hch
  have hw3fs : w3.fs = w2.fs ++ [(OENVp, Node.dir)] := by
    show createDirAll w2.fs OENVp = w2.fs ++ [(OENVp, Node.dir)]
    exact createDirAll_oenv (by simp [existsP, hwd2]) hoe2
  have hch3 : childrenOf w3.fs WDp = [OENVp] := by
    rw [hw3fs, childrenOf_append, hch2]
    rfl
  have hoe3 : existsP w3.fs OENVp = true := by
    show existsP (createDirAll w2.fs OENVp) OENVp = true
    exact existsP_createDirAll_self _ _
  have hld3 : existsP w3.fs ldSrc = true := by
    show existsP (createDirAll (writeF w.fs (mp ++ [ECCFS_RW_IMAGE_NAME]) ("rwimage")) OENVp)
      ldSrc = true
    apply existsP_createDirAll_of
    rw [existsP_eq_of_lookupP_eq (lookupP_writeF_ne _ (Ne.symm (append_singleton_ne (by decide))))]
    exact hld
  have hlibs3 : ∀ l ∈ occlumLibs, existsP w3.fs (occlumSrcDir ++ [l]) = true := by
    intro l hl
    have hlr : l ≠ ECCFS_RW_IMAGE_NAME := by
      simp only [occlumLibs, List.mem_cons, List.not_mem_nil, or_false] at hl
      rcases hl with rfl | rfl | rfl | rfl | rfl | rfl <;> decide
    show existsP (createDirAll (writeF w.fs (mp ++ [ECCFS_RW_IMAGE_NAME]) ("rwimage")) OENVp)
      (occlumSrcDir ++ [l]) = true
    apply existsP_createDirAll_of
    have hne : (occlumSrcDir ++ [l]).getLast? ≠ some ECCFS_RW_IMAGE_NAME := by
      rw [List.getLast?_concat]
      simpa using hlr
    rw [existsP_eq_of_lookupP_eq (lookupP_writeF_ne _ (Ne.symm (append_singleton_ne hne)))]
    exact hlibs l hl
  set w4 : World := { w3 with fs := stageEnvFs w3.fs OENVp,
                              trace := w3.trace ++ [Ev.stageEnv OENVp] } with hw4
  have s4 : create_environment OENVp w3 = .ok () w4 :=
    create_environment_ok (by decide) (by decide) (by decide) hld3 hlibs3
  rw [bindOk s4]
  set w5 : World := { w4 with rcalls := w4.rcalls + 1 } with hw5
  have s5 : generate_random_key o.randByte w4 =
      .ok (keyAt o.randByte (w.rcalls + 1)) w5 := by rfl
  rw [bindOk s5]
  have hw5fs : w5.fs = stageEnvFs w3.fs OENVp := rfl
  have hsnap : childrenOf w5.fs WDp = [OENVp] := by
    rw [hw5fs, stageEnvFs_wd_children hoe3]
    exact hch3
  set w6 : World := { w5 with
    fs := (o.junk w5.bcalls).foldl (fun f s => create_dirF f (WDp ++ [s]))
      (writeF w5.fs (mp ++ [imgName 0]) ("roimage")),
    bcalls := w5.bcalls + 1,
    trace := w5.trace ++
      [Ev.buildRo OENVp (mp ++ [imgName 0]) (keyAt o.randByte (w.rcalls + 1)) [OENVp]] }
    with hw6
  have s6 : ro_build_from_dir o OENVp mp (imgName 0) WDp
      (some (keyAt o.randByte (w.rcalls + 1))) w5 =
        .ok ⟨o.encFlag (w.bcalls + 1), keyAt o.randByte (w.rcalls + 1)⟩ w6 := by
    rw [ro_build_eq]
    rw [show childrenOf w5.fs WDp = [OENVp] from hsnap]
  rw [bindOk s6]
  have hw3fs2 : w3.fs = createDirAll w2.fs OENVp := rfl
  have hwd5 : lookupP w5.fs WDp = some Node.dir := by
    rw [hw5fs]
    apply stageEnvFs_wd_lookup
    rw [hw3fs2]
    exact lookupP_createDirAll_of_some hwd2
  have hw6fs : w6.fs = (o.junk w5.bcalls).foldl (fun f s => create_dirF f (WDp ++ [s]))
      (writeF w5.fs (mp ++ [imgName 0]) ("roimage")) := rfl
  have hwd6 : lookupP w6.fs WDp = some Node.dir := by
    rw [hw6fs]
    apply lookupP_foldl_create_of_some
    rw [lookupP_writeF_ne _ (wdp_ne_img mp 0)]
    exact hwd5
  set w7 : World := { w6 with fs := clearAt w6.fs WDp,
                              trace := w6.trace ++ [Ev.clearPath WDp] } with hw7
  have s7 : clear_path WDe w6 = .ok () w7 := clear_path_ok rfl (Or.inr hwd6)
  rw [bindOk s7]
  have hw7fs : w7.fs = clearAt w6.fs WDp := rfl
  have hwd7 : lookupP w7.fs WDp = some Node.dir := by
    rw [hw7fs, lookupP_clearAt_self]
    exact hwd6
  have hch7 : childrenOf w7.fs WDp = [] := by
    rw [hw7fs]
    exact childrenOf_clearAt_self _ _
  rw [bindOk (buildLayers_eq o mp ls 0 w7 hwd7 hch7)]
  rw [pureEq]
  rw [hw7, hw6, hw5, hw4, hw3, hw2, hw1]
  dsimp only
  simp only [mountModes, buildAllFs, buildAllTrace, imgFile]
  simp [List.append_assoc, Nat.add_assoc, Nat.add_comm, Nat.add_left_comm]

-- Preservation of paths outside the workspace and mount path.

theorem imgName_ne_keys (n : Nat) : imgName n ≠ ("keys") := by
  intro h
  have h3 := congrArg String.length h
  have h12 := imgName_length n
  rw [h3] at h12
  exact absurd h12 (by decide)

theorem lookupP_foldl_create_eq {base q : P} (hb : base ≠ []) (hq : base.head? ≠ q.head?) :
    ∀ (names : List String) (fs : Fs),
      lookupP (names.foldl (fun f s => create_dirF f (base ++ [s])) fs) q = lookupP fs q := by
  intro names
  induction names with
  | nil => intro fs; rfl
  | cons s names ih =>
    intro fs
    simp only [List.foldl_cons]
    rw [ih]
    apply lookupP_create_dirF_eq
    apply not_mem_initsOf_of_head
    rw [head?_append_of_ne_nil _ hb]
    exact fun h => hq h.symm

theorem envFs1_lookup_other {fs : Fs} {q : P} (hqn : q ≠ [])
    (hq : q.head? ≠ some ("eccfs_tmp")) :
    lookupP (envFs1 fs OENVp) q = lookupP fs q := by
  have hOE : OENVp.head? = some ("eccfs_tmp") := rfl
  simp only [envFs1]
  have h0 : lookupP (create_dirF fs (OENVp ++ ["lib64"])) q = lookupP fs q := by
    apply lookupP_create_dirF_eq
    apply not_mem_initsOf_of_head
    rw [head?_append_of_ne_nil _ (by decide : OENVp ≠ []), hOE]
    exact hq
  split
  · rw [lookupP_removeItems_of (by
      intro r hr
      simp only [List.mem_singleton] at hr
      subst hr
      apply not_prefix_of_head_ne (by decide) hqn
      rw [head?_append_of_ne_nil _ (by decide : OENVp ≠ []), hOE]
      exact fun h => hq h.symm)]
    exact h0
  · exact h0

theorem lookupP_libfold_other {q : P} (hqn : q ≠ [])
    (hq : q.head? ≠ some ("eccfs_tmp")) (libs : List String) :
    ∀ (fs : Fs), lookupP (libs.foldl (fun f l => copyTree f (occlumSrcDir ++ [l])
      ((OENVp ++ ["opt", "occlum", "glibc", "lib"]) ++ [l])) fs) q = lookupP fs q := by
  induction libs with
  | nil => intro fs; rfl
  | cons l libs ih =>
    intro fs
    simp only [List.foldl_cons]
    rw [ih]
    apply lookupP_copyTree_of_not_pref
    apply not_prefix_of_head_ne (by simp) hqn
    rw [head?_append_of_ne_nil _ (by simp : OENVp ++ ["opt", "occlum", "glibc", "lib"] ≠ []),
      head?_append_of_ne_nil _ (by decide : OENVp ≠ [])]
    have hOE : OENVp.head? = some ("eccfs_tmp") := rfl
    rw [hOE]
    exact fun h => hq h.symm

theorem stageEnvFs_lookup_other {fs : Fs} {q : P} (hqn : q ≠ [])
    (hq : q.head? ≠ some ("eccfs_tmp")) :
    lookupP (stageEnvFs fs OENVp) q = lookupP fs q := by
  have hOE : OENVp.head? = some ("eccfs_tmp") := rfl
  unfold stageEnvFs
  rw [lookupP_foldl_create_eq (by decide) (by rw [hOE]; exact fun h => hq h.symm)]
  rw [lookupP_libfold_other hqn hq occlumLibs]
  rw [lookupP_createDirAll_eq (not_mem_initsOf_of_head (by
    rw [head?_append_of_ne_nil _ (by decide : OENVp ≠ []), hOE]
    exact hq))]
  rw [lookupP_copyTree_of_not_pref (not_prefix_of_head_ne (by simp) hqn (by
    rw [head?_append_of_ne_nil _ (by simp : OENVp ++ ["lib64"] ≠ []),
      head?_append_of_ne_nil _ (by decide : OENVp ≠ []), hOE]
    exact fun h => hq h.symm))]
  exact envFs1_lookup_other hqn hq

theorem lookupP_loopFs_other (o : Oracles) (mp : P) {q : P} (hqn : q ≠ [])
    (hq : q.head? ≠ some ("eccfs_tmp")) (himg : ∀ n, q ≠ imgFile mp n) :
    ∀ (ls : List P) (b i : Nat) (fs : Fs),
      lookupP (loopFs o mp b i fs ls) q = lookupP fs q := by
  have hWD : WDp.head? = some ("eccfs_tmp") := rfl
  intro ls
  induction ls with
  | nil => intro b i fs; rfl
  | cons p rest ih =>
    intro b i fs
    simp only [loopFs]
    rw [ih]
    rw [lookupP_clearAt_of_not_pref (not_prefix_of_head_ne (by decide) hqn (by
      rw [hWD]; exact fun h => hq h.symm))]
    rw [lookupP_foldl_create_eq (by decide) (by rw [hWD]; exact fun h => hq h.symm)]
    exact lookupP_writeF_ne _ (himg (i + 1))

theorem lookupP_buildAllFs_other (o : Oracles) {mp q : P} (hqn : q ≠ [])
    (hq : q.head? ≠ some ("eccfs_tmp")) (hrw : q ≠ mp ++ [ECCFS_RW_IMAGE_NAME])
    (himg : ∀ n, q ≠ imgFile mp n) (b : Nat) (ls : List P) (fs : Fs) :
    lookupP (buildAllFs o b ls mp fs) q = lookupP fs q := by
  have hWD : WDp.head? = some ("eccfs_tmp") := rfl
  have hOE : OENVp.head? = some ("eccfs_tmp") := rfl
  unfold buildAllFs
  rw [lookupP_loopFs_other o mp hqn hq himg]
  rw [lookupP_clearAt_of_not_pref (not_prefix_of_head_ne (by decide) hqn (by
    rw [hWD]; exact fun h => hq h.symm))]
  rw [lookupP_foldl_create_eq (by decide) (by rw [hWD]; exact fun h => hq h.symm)]
  rw [lookupP_writeF_ne _ (himg 0)]
  rw [stageEnvFs_lookup_other hqn hq]
  rw [lookupP_createDirAll_eq (not_mem_initsOf_of_head (by rw [hOE]; exact hq))]
  exact lookupP_writeF_ne _ hrw

theorem lookupP_createDirAll_self_none {fs : Fs} {p : P} (hn : lookupP fs p = none)
    (hp : p ≠ []) : lookupP (createDirAll fs p) p = some Node.dir := by
  unfold createDirAll
  rw [lookupP_append_right hn]
  set g := ((initsOf p).filter (fun q => !(existsP fs q))).map (fun q => (q, Node.dir)) with hg
  have hs : (lookupP g p).isSome = true := by
    apply lookupP_isSome_iff.mpr
    refine ⟨Node.dir, ?_⟩
    rw [hg]
    apply List.mem_map.mpr
    refine ⟨p, List.mem_filter.mpr ⟨?_, ?_⟩, rfl⟩
    · simp only [initsOf, List.mem_map, List.mem_range]
      have hl : 1 ≤ p.length := by
        cases p with
        | nil => exact absurd rfl hp
        | cons a p2 => simp
      exact ⟨p.length - 1, by omega, by rw [Nat.sub_add_cancel hl, List.take_length]⟩
    · simp [existsP, hn, hp]
  cases hf : (g.find? (fun e => e.1 == p)) with
  | none =>
    rw [lookupP, hf] at hs
    simp at hs
  | some e =>
    have he : e ∈ g := List.mem_of_find?_eq_some hf
    have he2 : e.2 = Node.dir := by
      rw [hg] at he
      obtain ⟨r, _, rfl⟩ := List.mem_map.mp he
      rfl
    rw [lookupP, hf]
    simp [he2]

theorem childrenOf_createDirAll_wd_self (fs : Fs) :
    childrenOf (createDirAll fs WDp) WDp = childrenOf fs WDp := by
  apply childrenOf_createDirAll_of_exists
  intro r hr hlen _
  have hi : initsOf WDp = [WDp] := rfl
  rw [hi] at hr
  simp only [List.mem_singleton] at hr
  subst hr
  simp [WDp] at hlen

-- Key publication and the tail of `mount`: run equations.

theorem publish_keys_eq (cid : String) (ms : List FsMode) (w : World)
    (hkeys : existsP w.fs KEYSp = true) :
    publish_keys cid ms w = .ok ()
      { w with fs := writeF w.fs keyTxt (modeStr ms),
               trace := w.trace ++
                 [Ev.mountFs ("sefs") KEYSp (["images", cid, "keys", "sefs", "lower"]),
                  Ev.writeKeys keyTxt (modeStr ms), Ev.umountFs KEYSp] } := by
  simp only [publish_keys]
  set w1 : World := { w with
    mounts := (("sefs"), KEYSp) :: w.mounts,
    trace := w.trace ++ [Ev.mountFs ("sefs") KEYSp (["images", cid, "keys", "sefs", "lower"])] }
    with hw1
  have s1 : nix_mount ("sefs") KEYSp (["images", cid, "keys", "sefs", "lower"]) w =
      .ok () w1 := nix_mount_ok hkeys
  rw [bindOk s1]
  set w2 : World := { w1 with
    fs := writeF w1.fs keyTxt (modeStr ms),
    trace := w1.trace ++ [Ev.writeKeys keyTxt (modeStr ms)] } with hw2
  have s2 : write_key_file keyTxt (modeStr ms) w1 = .ok () w2 := rfl
  rw [bindOk s2]
  have hany : w2.mounts.any (fun m => m.2 == KEYSp) = true := by
    show ((("sefs"), KEYSp) :: w.mounts).any (fun m => m.2 == KEYSp) = true
    simp
  rw [nix_umount_ok hany]
  rw [hw2, hw1]
  dsimp only
  simp [eraseMountAt, List.append_assoc]

set_option maxHeartbeats 1000000 in
theorem mount_tail_eq (o : Oracles) (dd : EPath) (ls : List P) {mpE : EPath}
    (cid : String) (w : World)
    (hu : mpE.utf8 = true)
    (hlen : 2 ≤ mpE.comps.length)
    (h1 : mpE.comps.head? ≠ some ("eccfs_tmp"))
    (h2 : mpE.comps.head? ≠ some ("keys"))
    (h3 : mpE.comps.head? ≠ some ("opt"))
    (h4 : mpE.comps.head? ≠ some ("lib64"))
    (ha : lookupP w.fs mpE.comps = some Node.dir)
    (hb : lookupP w.fs WDp = some Node.dir)
    (hc : childrenOf w.fs WDp = [])
    (hld : existsP w.fs ldSrc = true)
    (hlibs : ∀ l ∈ occlumLibs, existsP w.fs (occlumSrcDir ++ [l]) = true)
    (hkeys : existsP w.fs KEYSp = true) :
    mount_tail o dd ls mpE cid w = .ok ⟨("eccfs"), mpE, dd⟩
      { fs := writeF (buildAllFs o w.bcalls ls mpE.comps (clearAt w.fs mpE.comps))
                keyTxt (modeStr (mountModes o w.rcalls w.bcalls ls)),
        mounts := w.mounts,
        trace := w.trace ++
          ([Ev.mountFs ("hostfs") mpE.comps (["images", cid, "eccfs"]),
            Ev.clearPath mpE.comps] ++
           buildAllTrace o mpE.comps w.rcalls ls ++
           [Ev.umountFs mpE.comps,
            Ev.mountFs ("sefs") KEYSp (["images", cid, "keys", "sefs", "lower"]),
            Ev.writeKeys keyTxt (modeStr (mountModes o w.rcalls w.bcalls ls)),
            Ev.umountFs KEYSp]),
        rcalls := w.rcalls + (ls.length + 2),
        bcalls := w.bcalls + (ls.length + 2) } := by
  have hWD : WDp.head? = some ("eccfs_tmp") := rfl
  have hKY : KEYSp.head? = some ("keys") := rfl
  simp only [mount_tail]
  set mp := mpE.comps with hmpc
  have hmpn : mp ≠ [] := by
    intro h
    rw [h] at hlen
    simp at hlen
  set w1 : World := { w with
    mounts := (("hostfs"), mp) :: w.mounts,
    trace := w.trace ++ [Ev.mountFs ("hostfs") mp (["images", cid, "eccfs"])] } with hw1
  have s1 : nix_mount ("hostfs") mp (["images", cid, "eccfs"]) w = .ok () w1 :=
    nix_mount_ok (by simp [existsP, ha])
  rw [bindOk s1]
  set w2 : World := { w1 with
    fs := clearAt w1.fs mp,
    trace := w1.trace ++ [Ev.clearPath mp] } with hw2
  have s2 : clear_path mpE w1 = .ok () w2 := clear_path_ok hu (Or.inr ha)
  rw [bindOk s2]
  have hw2fs : w2.fs = clearAt w.fs mp := rfl
  have hnpwd : ¬ mp <+: WDp := not_prefix_of_head_ne hmpn (by decide) (by
    rw [hWD]; exact h1)
  have hb2 : lookupP w2.fs WDp = some Node.dir := by
    rw [hw2fs, lookupP_clearAt_of_not_pref hnpwd]
    exact hb
  have hc2 : childrenOf w2.fs WDp = [] := by
    rw [hw2fs, childrenOf_clearAt_of_head_ne hmpn (by decide) (by rw [hWD]; exact h1)]
    exact hc
  have hld2 : existsP w2.fs ldSrc = true := by
    have hnld : ¬ mp <+: ldSrc := not_prefix_of_head_ne hmpn (by decide) (by
      have : ldSrc.head? = some ("lib64") := rfl
      rw [this]; exact h4)
    rw [hw2fs, existsP_eq_of_lookupP_eq (lookupP_clearAt_of_not_pref hnld)]
    exact hld
  have hlibs2 : ∀ l ∈ occlumLibs, existsP w2.fs (occlumSrcDir ++ [l]) = true := by
    intro l hl
    have hnl : ¬ mp <+: occlumSrcDir ++ [l] := not_prefix_of_head_ne hmpn (by simp) (by
      have : (occlumSrcDir ++ [l]).head? = some ("opt") := rfl
      rw [this]; exact h3)
    rw [hw2fs, existsP_eq_of_lookupP_eq (lookupP_clearAt_of_not_pref hnl)]
    exact hlibs l hl
  set w3 : World := { w2 with
    fs := buildAllFs o w2.bcalls ls mp w2.fs,
    trace := w2.trace ++ buildAllTrace o mp w2.rcalls ls,
    rcalls := w2.rcalls + (ls.length + 2),
    bcalls := w2.bcalls + (ls.length + 2) } with hw3
  have s3 : build_all o mpE ls w2 = .ok (mountModes o w2.rcalls w2.bcalls ls) w3 :=
    build_all_eq o h1 ls w2 hb2 hc2 hld2 hlibs2
  rw [bindOk s3]
  set w4 : World := { w3 with
    mounts := w.mounts,
    trace := w3.trace ++ [Ev.umountFs mp] } with hw4
  have s4 : nix_umount mp w3 = .ok () w4 := by
    have hany : w3.mounts.any (fun m => m.2 == mp) = true := by
      show ((("hostfs"), mp) :: w.mounts).any (fun m => m.2 == mp) = true
      simp
    rw [nix_umount_ok hany]
    have her : eraseMountAt w3.mounts mp = w.mounts := by
      show eraseMountAt ((("hostfs"), mp) :: w.mounts) mp = w.mounts
      simp [eraseMountAt]
    rw [hw4, her]
  rw [bindOk s4]
  have hkeys4 : existsP w4.fs KEYSp = true := by
    have hkq : lookupP (buildAllFs o w2.bcalls ls mp w2.fs) KEYSp = lookupP w2.fs KEYSp :=
      lookupP_buildAllFs_other o (by decide) (by decide)
        (Ne.symm (append_singleton_ne (by decide)))
        (fun n => Ne.symm (append_singleton_ne (show KEYSp.getLast? ≠ some (imgName n) by
          intro h
          have hh : ("keys") = imgName n := by simpa [KEYSp] using h
          exact imgName_ne_keys n hh.symm)))
        w2.bcalls ls w2.fs
    have hnk : ¬ mp <+: KEYSp := not_prefix_of_head_ne hmpn (by decide) (by
      rw [hKY]; exact h2)
    have hw4fs : w4.fs = buildAllFs o w2.bcalls ls mp w2.fs := rfl
    rw [hw4fs, existsP_eq_of_lookupP_eq hkq, hw2fs,
      existsP_eq_of_lookupP_eq (lookupP_clearAt_of_not_pref hnk)]
    exact hkeys
  set w5 : World := { w4 with
    fs := writeF w4.fs keyTxt (modeStr (mountModes o w2.rcalls w2.bcalls ls)),
    trace := w4.trace ++
      [Ev.mountFs ("sefs") KEYSp (["images", cid, "keys", "sefs", "lower"]),
       Ev.writeKeys keyTxt (modeStr (mountModes o w2.rcalls w2.bcalls ls)),
       Ev.umountFs KEYSp] } with hw5
  have s5 : publish_keys cid (mountModes o w2.rcalls w2.bcalls ls) w4 = .ok () w5 :=
    publish_keys_eq cid _ w4 hkeys4
  rw [bindOk s5]
  rw [pureEq]
  rw [hw5, hw4, hw3, hw2, hw1]
  dsimp only
  simp [List.append_assoc]

set_option maxHeartbeats 1000000 in
theorem mount_run (o : Oracles) (dd : EPath) (ls : List P) {mpE : EPath} {cid : String}
    (w0 : World)
    (hu : mpE.utf8 = true)
    (hcid : mpE.comps.dropLast.getLast? = some cid)
    (h1 : mpE.comps.head? ≠ some ("eccfs_tmp"))
    (h2 : mpE.comps.head? ≠ some ("keys"))
    (h3 : mpE.comps.head? ≠ some ("opt"))
    (h4 : mpE.comps.head? ≠ some ("lib64"))
    (hmp : lookupP w0.fs mpE.comps = none ∨ lookupP w0.fs mpE.comps = some Node.dir)
    (hwd : lookupP w0.fs WDp = none ∨ lookupP w0.fs WDp = some Node.dir)
    (horph : lookupP w0.fs WDp = none → childrenOf w0.fs WDp = [])
    (hkeys : existsP w0.fs KEYSp = true)
    (hld : existsP w0.fs ldSrc = true)
    (hlibs : ∀ l ∈ occlumLibs, existsP w0.fs (occlumSrcDir ++ [l]) = true) :
    mount o dd ls mpE w0 = .ok ⟨("eccfs"), mpE, dd⟩
      { fs := mountFinalFs o w0.rcalls w0.bcalls ls mpE.comps w0.fs,
        mounts := w0.mounts,
        trace := w0.trace ++ mountTrace o mpE.comps cid w0.rcalls w0.bcalls ls
          (!(existsP w0.fs mpE.comps)) (existsP w0.fs WDp),
        rcalls := w0.rcalls + (ls.length + 2),
        bcalls := w0.bcalls + (ls.length + 2) } := by
  have hWD : WDp.head? = some ("eccfs_tmp") := rfl
  have hKY : KEYSp.head? = some ("keys") := rfl
  simp only [mount]
  set mp := mpE.comps with hmpc
  have hlen : 2 ≤ mp.length := by
    have hne : mp.dropLast ≠ [] := by
      intro h
      rw [h] at hcid
      simp at hcid
    have hpos := List.length_pos.mpr hne
    rw [List.length_dropLast] at hpos
    omega
  have hmpn : mp ≠ [] := by
    intro h
    rw [h] at hlen
    simp at hlen
  -- phase one: ensure the mount path exists
  set f1 : Fs := if existsP w0.fs mp then w0.fs else createDirAll w0.fs mp with hf1
  set t1 : List Ev := if existsP w0.fs mp then [] else [Ev.createMountPath mp] with ht1
  set wA : World := { w0 with fs := f1, trace := w0.trace ++ t1 } with hwA
  have sA : ensure_mount_path mpE w0 = .ok () wA := by
    rcases hmp with hmp | hmp
    · have hex : existsP w0.fs mp = false := by simp [existsP, hmp, hmpn]
      rw [ensure_create hex, hwA, hf1, ht1, hex]
      simp
    · have hex : existsP w0.fs mp = true := by simp [existsP, hmp]
      rw [ensure_exists hex, hwA, hf1, ht1, hex]
      simp
  rw [bindOk sA]
  rw [bindOk (resolve_cid_ok hcid wA)]
  -- facts about the filesystem after phase one
  have hfa : lookupP f1 mp = some Node.dir := by
    rw [hf1]
    rcases hmp with hmp | hmp
    · rw [if_neg (by simp [existsP, hmp, hmpn])]
      exact lookupP_createDirAll_self_none hmp hmpn
    · rw [if_pos (by simp [existsP, hmp])]
      exact hmp
  have hniwd : WDp ∉ initsOf mp :=
    not_mem_initsOf_of_head (by rw [hWD]; exact fun h => h1 h.symm)
  have hfwd_l : lookupP f1 WDp = lookupP w0.fs WDp := by
    rw [hf1]
    split
    · rfl
    · exact lookupP_createDirAll_eq hniwd
  have hfwd_ch : childrenOf f1 WDp = childrenOf w0.fs WDp := by
    rw [hf1]
    split
    · rfl
    · exact childrenOf_createDirAll_of_head (by decide) (by rw [hWD]; exact h1)
  have hfq : ∀ (q : P), q.head? ≠ mp.head? → existsP f1 q = existsP w0.fs q := by
    intro q hq
    rw [hf1]
    split
    · rfl
    · exact existsP_eq_of_lookupP_eq (lookupP_createDirAll_eq (not_mem_initsOf_of_head hq))
  -- phase two: prepare the workspace
  set f2 : Fs := if existsP w0.fs WDp then clearAt f1 WDp else createDirAll f1 WDp with hf2
  set t2 : List Ev :=
    if existsP w0.fs WDp then [Ev.clearPath WDp] else [Ev.prepareWorkspace WDp] with ht2
  set wB : World := { wA with fs := f2, trace := wA.trace ++ t2 } with hwB
  have hexw : existsP wA.fs WDp = existsP w0.fs WDp := by
    show existsP f1 WDp = existsP w0.fs WDp
    exact existsP_eq_of_lookupP_eq hfwd_l
  have sB : prep_workdir wA = .ok () wB := by
    rcases hwd with hwd | hwd
    · have hex : existsP w0.fs WDp = false := by simp [existsP, hwd]; decide
      rw [prep_workdir_create (hexw.trans hex), hwB, hf2, ht2, hex]
      have hfe : wA.fs = f1 := rfl
      rw [hfe]
      simp
    · have hex : existsP w0.fs WDp = true := by simp [existsP, hwd]
      rw [prep_workdir_clear (hexw.trans hex)
        (show lookupP wA.fs WDp = some Node.dir from hfwd_l.trans hwd)]
      rw [hwB, hf2, ht2, hex]
      have hfe : wA.fs = f1 := rfl
      rw [hfe]
      simp
  rw [bindOk sB]
  -- facts about the filesystem after phase two
  have hnpwd : ¬ WDp <+: mp := not_prefix_of_head_ne (by decide) hmpn (by
    rw [hWD]; exact fun h => h1 h.symm)
  have haB : lookupP wB.fs mp = some Node.dir := by
    show lookupP f2 mp = some Node.dir
    rw [hf2]
    split
    · rw [lookupP_clearAt_of_not_pref hnpwd]
      exact hfa
    · rw [lookupP_createDirAll_eq (not_mem_initsOf_of_head (by
        have hiw : initsOf WDp = [WDp] := rfl
        rw [hWD] at *
        exact h1))]
      exact hfa
  have hbB : lookupP wB.fs WDp = some Node.dir := by
    show lookupP f2 WDp = some Node.dir
    rw [hf2]
    rcases hwd with hwd | hwd
    · rw [if_neg (by simp [existsP, hwd]; decide)]
      exact lookupP_createDirAll_self_none (hfwd_l.trans hwd) (by decide)
    · rw [if_pos (by simp [existsP, hwd])]
      rw [lookupP_clearAt_self]
      exact hfwd_l.trans hwd
  have hcB : childrenOf wB.fs WDp = [] := by
    show childrenOf f2 WDp = []
    rw [hf2]
    rcases hwd with hwd | hwd
    · rw [if_neg (by simp [existsP, hwd]; decide)]
      rw [childrenOf_createDirAll_wd_self, hfwd_ch]
      exact horph hwd
    · rw [if_pos (by simp [existsP, hwd])]
      exact childrenOf_clearAt_self _ _
  have hfq2 : ∀ (q : P), q ≠ [] → q.head? ≠ mp.head? → q.head? ≠ some ("eccfs_tmp") →
      existsP f2 q = existsP w0.fs q := by
    intro q hqn hq hqw
    rw [hf2]
    have hstep : existsP f1 q = existsP w0.fs q := hfq q hq
    split
    · rw [existsP_eq_of_lookupP_eq (lookupP_clearAt_of_not_pref
        (not_prefix_of_head_ne (by decide) hqn (by rw [hWD]; exact fun h => hqw h.symm)))]
      exact hstep
    · rw [existsP_eq_of_lookupP_eq (lookupP_createDirAll_eq (not_mem_initsOf_of_head
        (by rw [hWD]; exact hqw)))]
      exact hstep
  have hldB : existsP wB.fs ldSrc = true := by
    show existsP f2 ldSrc = true
    rw [hfq2 ldSrc (by decide) (by
      have : ldSrc.head? = some ("lib64") := rfl
      rw [this]; exact fun h => h4 h.symm) (by decide)]
    exact hld
  have hlibsB : ∀ l ∈ occlumLibs, existsP wB.fs (occlumSrcDir ++ [l]) = true := by
    intro l hl
    show existsP f2 (occlumSrcDir ++ [l]) = true
    rw [hfq2 _ (by simp) (by
      have : (occlumSrcDir ++ [l]).head? = some ("opt") := rfl
      rw [this]; exact fun h => h3 h.symm) (by
      have : (occlumSrcDir ++ [l]).head? = some ("opt") := rfl
      rw [this]; decide)]
    exact hlibs l hl
  have hkeysB : existsP wB.fs KEYSp = true := by
    show existsP f2 KEYSp = true
    rw [hfq2 KEYSp (by decide) (by rw [hKY]; exact fun h => h2 h.symm) (by decide)]
    exact hkeys
  -- phase three: the tail
  rw [mount_tail_eq o dd ls cid wB hu hlen h1 h2 h3 h4 haB hbB hcB hldB hlibsB hkeysB]
  rw [hwB, hwA]
  dsimp only
  rw [mountFinalFs]
  simp only [mountTrace]
  rw [ht2, ht1, hf2, hf1]
  cases hE : existsP w0.fs mp <;> cases hW : existsP w0.fs WDp <;>
    simp [List.append_assoc]

-- The direct children of the mount path after a successful run.

theorem initsOf_length_le {p r : P} (h : r ∈ initsOf p) : r.length ≤ p.length := by
  simp only [initsOf, List.mem_map, List.mem_range] at h
  obtain ⟨i, hi, rfl⟩ := h
  simp [List.length_take]

theorem not_mem_initsOf_of_length {p r : P} (h : p.length < r.length) : r ∉ initsOf p :=
  fun hm => absurd (initsOf_length_le hm) (by omega)

theorem childrenOf_createDirAll_self_eq (fs : Fs) (p : P) :
    childrenOf (createDirAll fs p) p = childrenOf fs p := by
  apply childrenOf_createDirAll_of_exists
  intro r hr hlen _
  have := initsOf_length_le hr
  omega

theorem childrenOf_libfold_head {q : P} (hqn : q ≠ [])
    (hq : q.head? ≠ some ("eccfs_tmp")) (libs : List String) :
    ∀ (fs : Fs), childrenOf (libs.foldl (fun f l => copyTree f (occlumSrcDir ++ [l])
      ((OENVp ++ ["opt", "occlum", "glibc", "lib"]) ++ [l])) fs) q = childrenOf fs q := by
  induction libs with
  | nil => intro fs; rfl
  | cons l libs ih =>
    intro fs
    simp only [List.foldl_cons]
    rw [ih]
    apply childrenOf_copyTree_head _ hqn (by simp)
    rw [head?_append_of_ne_nil _ (by simp : OENVp ++ ["opt", "occlum", "glibc", "lib"] ≠ []),
      head?_append_of_ne_nil _ (by decide : OENVp ≠ [])]
    have hOE : OENVp.head? = some ("eccfs_tmp") := rfl
    rw [hOE]
    exact fun h => hq h.symm

theorem stageEnvFs_children_other {fs : Fs} {q : P} (hqn : q ≠ [])
    (hq : q.head? ≠ some ("eccfs_tmp")) :
    childrenOf (stageEnvFs fs OENVp) q = childrenOf fs q := by
  have hOE : OENVp.head? = some ("eccfs_tmp") := rfl
  unfold stageEnvFs
  rw [childrenOf_foldl_create_of_head hqn (by decide)
    (by rw [hOE]; exact fun h => hq h.symm)]
  rw [childrenOf_libfold_head hqn hq occlumLibs]
  rw [childrenOf_createDirAll_of_head hqn (by
    rw [head?_append_of_ne_nil _ (by decide : OENVp ≠ []), hOE]
    exact fun h => hq h.symm)]
  rw [childrenOf_copyTree_head _ hqn (by simp) (by
    rw [head?_append_of_ne_nil _ (by simp : OENVp ++ ["lib64"] ≠ []),
      head?_append_of_ne_nil _ (by decide : OENVp ≠ []), hOE]
    exact fun h => hq h.symm)]
  simp only [envFs1]
  have h0 : childrenOf (create_dirF fs (OENVp ++ ["lib64"])) q = childrenOf fs q := by
    apply childrenOf_create_dirF_of_head hqn
    rw [head?_append_of_ne_nil _ (by decide : OENVp ≠ []), hOE]
    exact fun h => hq h.symm
  split
  · rw [childrenOf_removeItems_head hqn (by
      intro r hr
      simp only [List.mem_singleton] at hr
      subst hr
      refine ⟨by decide, ?_⟩
      rw [head?_append_of_ne_nil _ (by decide : OENVp ≠ []), hOE]
      exact fun h => hq h.symm)]
    exact h0
  · exact h0

theorem append_singleton_inj {u : P} {a b : String} (h : u ++ [a] = u ++ [b]) : a = b := by
  have := List.append_cancel_left h
  simpa using this

theorem childrenOf_loopFs_mp (o : Oracles) {mp : P} (hmp : mp.head? ≠ some ("eccfs_tmp"))
    (hmpn : mp ≠ []) :
    ∀ (ls : List P) (b i : Nat) (fs : Fs),
      (∀ k, i + 1 ≤ k → (mp ++ [imgName k]) ∉ childrenOf fs mp) →
      childrenOf (loopFs o mp b i fs ls) mp
        = childrenOf fs mp ++ (List.range ls.length).map (fun k => imgFile mp (i + 1 + k)) := by
  have hWD : WDp.head? = some ("eccfs_tmp") := rfl
  intro ls
  induction ls with
  | nil =>
    intro b i fs _
    simp [loopFs]
  | cons p rest ih =>
    intro b i fs hfresh
    simp only [loopFs, imgFile]
    have h1 : childrenOf (writeF fs (mp ++ [imgName (i + 1)]) ("roimage")) mp
        = childrenOf fs mp ++ [mp ++ [imgName (i + 1)]] :=
      childrenOf_writeF_of_child fs mp (imgName (i + 1)) ("roimage")
        (hfresh (i + 1) (by omega))
    have h2 : childrenOf ((o.junk b).foldl (fun f s => create_dirF f (WDp ++ [s]))
        (writeF fs (mp ++ [imgName (i + 1)]) ("roimage"))) mp
        = childrenOf fs mp ++ [mp ++ [imgName (i + 1)]] := by
      rw [childrenOf_foldl_create_of_head hmpn (by decide)
        (by rw [hWD]; exact fun h => hmp h.symm)]
      exact h1
    have h3 : childrenOf (clearAt ((o.junk b).foldl (fun f s => create_dirF f (WDp ++ [s]))
        (writeF fs (mp ++ [imgName (i + 1)]) ("roimage"))) WDp) mp
        = childrenOf fs mp ++ [mp ++ [imgName (i + 1)]] := by
      rw [childrenOf_clearAt_of_head_ne (by decide) hmpn
        (by rw [hWD]; exact fun h => hmp h.symm)]
      exact h2
    rw [ih (b + 1) (i + 1) _ (by
      intro k hk
      rw [h3]
      intro hm
      rcases List.mem_append.mp hm with hm | hm
      · exact hfresh k (by omega) hm
      · simp only [List.mem_singleton] at hm
        have := imgName_inj (append_singleton_inj hm)
        omega)]
    rw [h3]
    rw [List.append_assoc]
    congr 1
    simp only [List.length_cons]
    have hr : List.range (rest.length + 1) = 0 :: (List.range rest.length).map Nat.succ :=
      List.range_succ_eq_map rest.length
    rw [hr]
    simp only [List.map_cons, List.map_map, List.singleton_append, imgFile]
    congr 1
    apply List.map_congr_left
    intro k _
    simp only [Function.comp, Nat.succ_eq_add_one]
    have he : i + 1 + 1 + k = i + 1 + (k + 1) := by omega
    rw [he]

theorem childrenOf_buildAllFs_mp (o : Oracles) {mp : P}
    (hmp : mp.head? ≠ some ("eccfs_tmp")) (hmpn : mp ≠ [])
    (b : Nat) (ls : List P) {fs : Fs} (hch : childrenOf fs mp = []) :
    childrenOf (buildAllFs o b ls mp fs) mp =
      (mp ++ [ECCFS_RW_IMAGE_NAME]) ::
        (List.range (ls.length + 1)).map (fun i => imgFile mp i) := by
  have hWD : WDp.head? = some ("eccfs_tmp") := rfl
  have hOE : OENVp.head? = some ("eccfs_tmp") := rfl
  unfold buildAllFs
  have h1 : childrenOf (writeF fs (mp ++ [ECCFS_RW_IMAGE_NAME]) ("rwimage")) mp
      = [mp ++ [ECCFS_RW_IMAGE_NAME]] := by
    rw [childrenOf_writeF_of_child fs mp ECCFS_RW_IMAGE_NAME ("rwimage") (by rw [hch]; simp),
      hch, List.nil_append]
  have h2 : childrenOf (stageEnvFs (createDirAll
      (writeF fs (mp ++ [ECCFS_RW_IMAGE_NAME]) ("rwimage")) OENVp) OENVp) mp
      = [mp ++ [ECCFS_RW_IMAGE_NAME]] := by
    rw [stageEnvFs_children_other hmpn hmp,
      childrenOf_createDirAll_of_head hmpn (by rw [hOE]; exact fun h => hmp h.symm)]
    exact h1
  have h3 : childrenOf (writeF (stageEnvFs (createDirAll
      (writeF fs (mp ++ [ECCFS_RW_IMAGE_NAME]) ("rwimage")) OENVp) OENVp)
        (imgFile mp 0) ("roimage")) mp
      = [mp ++ [ECCFS_RW_IMAGE_NAME], imgFile mp 0] := by
    simp only [imgFile]
    rw [childrenOf_writeF_of_child _ mp (imgName 0) ("roimage") (by
      rw [h2]
      intro hm
      simp only [List.mem_singleton] at hm
      exact imgName_ne_rw 0 (append_singleton_inj hm))]
    rw [h2]
    rfl
  have h4 : childrenOf (clearAt ((o.junk (b + 1)).foldl
      (fun f s => create_dirF f (WDp ++ [s]))
      (writeF (stageEnvFs (createDirAll
        (writeF fs (mp ++ [ECCFS_RW_IMAGE_NAME]) ("rwimage")) OENVp) OENVp)
          (imgFile mp 0) ("roimage"))) WDp) mp
      = [mp ++ [ECCFS_RW_IMAGE_NAME], imgFile mp 0] := by
    rw [childrenOf_clearAt_of_head_ne (by decide) hmpn
        (by rw [hWD]; exact fun h => hmp h.symm),
      childrenOf_foldl_create_of_head hmpn (by decide)
        (by rw [hWD]; exact fun h => hmp h.symm)]
    exact h3
  rw [childrenOf_loopFs_mp o hmp hmpn ls (b + 2) 0 _ (by
    intro k hk
    rw [h4]
    intro hm
    rcases List.mem_cons.mp hm with hm | hm
    · exact imgName_ne_rw k (append_singleton_inj hm)
    · simp only [List.mem_singleton, imgFile] at hm
      have := imgName_inj (append_singleton_inj hm)
      omega)]
  rw [h4]
  have hr : List.range (ls.length + 1) = 0 :: (List.range ls.length).map Nat.succ :=
    List.range_succ_eq_map ls.length
  rw [hr]
  simp only [List.map_cons, List.map_map]
  rw [List.cons_append, List.singleton_append]
  congr 2
  apply List.map_congr_left
  intro k _
  simp only [Function.comp]
  congr 1
  omega

theorem childP_keyTxt_false {mp : P} (hmpn : mp ≠ [])
    (hmpk : mp.head? ≠ some ("keys")) (n : Node) : childP mp (keyTxt, n) = false := by
  have hnp : ¬ mp <+: keyTxt := by
    apply not_prefix_of_head_ne hmpn
    · decide
    · have hk : keyTxt.head? = some ("keys") := rfl
      rw [hk]; exact hmpk
  simp [childP, isPrefixOf_false_of hnp]

theorem childrenOf_mountFinalFs (o : Oracles) (c b : Nat) (ls : List P) {mp : P}
    (hmp1 : mp.head? ≠ some ("eccfs_tmp")) (hmpk : mp.head? ≠ some ("keys"))
    (hmpn : mp ≠ []) (fs0 : Fs) :
    childrenOf (mountFinalFs o c b ls mp fs0) mp =
      (mp ++ [ECCFS_RW_IMAGE_NAME]) ::
        (List.range (ls.length + 1)).map (fun i => imgFile mp i) := by
  rw [mountFinalFs]
  rw [childrenOf_writeF_of_not_child _ _ (childP_keyTxt_false hmpn hmpk _)]
  exact childrenOf_buildAllFs_mp o hmp1 hmpn b ls (childrenOf_clearAt_self _ _)

-- Key-mode descriptors: shape, validity, distinctness.

theorem keyAt_length (rb : Nat → Nat → Nat) (n : Nat) : (keyAt rb n).length = 16 := by
  simp [keyAt]

theorem hexUpper_inj {k1 k2 : List Nat} (h1 : validKey k1) (h2 : validKey k2)
    (h : hexUpper k1 = hexUpper k2) : k1 = k2 := by
  have hd : hexChars k1 = hexChars k2 := congrArg String.data h
  have e1 := hexDecode_hexChars h1
  have e2 := hexDecode_hexChars h2
  rw [hd, e2] at e1
  exact ((Option.some.injEq _ _).mp e1).symm

theorem loopModes_key_mem (o : Oracles) :
    ∀ (ls : List P) (c b : Nat) (m : FsMode), m ∈ loopModes o c b ls →
      ∃ j, m.key = keyAt o.randByte j := by
  intro ls
  induction ls with
  | nil => intro c b m hm; simp [loopModes] at hm
  | cons p rest ih =>
    intro c b m hm
    simp only [loopModes, List.mem_cons] at hm
    rcases hm with rfl | hm
    · exact ⟨c, rfl⟩
    · exact ih (c + 1) (b + 1) m hm

theorem mountModes_valid (o : Oracles) (c b : Nat) (ls : List P) :
    ∀ m ∈ mountModes o c b ls, validKey m.key := by
  intro m hm
  simp only [mountModes, List.mem_cons] at hm
  rcases hm with rfl | rfl | hm
  · exact validKey_keyAt _ _
  · exact validKey_keyAt _ _
  · obtain ⟨j, hj⟩ := loopModes_key_mem o ls (c + 2) (b + 2) m hm
    rw [hj]
    exact validKey_keyAt _ _

theorem loopModes_length (o : Oracles) :
    ∀ (ls : List P) (c b : Nat), (loopModes o c b ls).length = ls.length := by
  intro ls
  induction ls with
  | nil => intro c b; rfl
  | cons p rest ih =>
    intro c b
    simp only [loopModes, List.length_cons, ih]

theorem mountModes_length (o : Oracles) (c b : Nat) (ls : List P) :
    (mountModes o c b ls).length = ls.length + 2 := by
  simp [mountModes, loopModes_length]

theorem loopModes_key_map (o : Oracles) :
    ∀ (ls : List P) (c b : Nat), (loopModes o c b ls).map (fun m => m.key)
      = (List.range ls.length).map (fun k => keyAt o.randByte (c + k)) := by
  intro ls
  induction ls with
  | nil => intro c b; rfl
  | cons p rest ih =>
    intro c b
    simp only [loopModes, List.map_cons, List.length_cons]
    rw [ih (c + 1) (b + 1)]
    rw [List.range_succ_eq_map]
    simp only [List.map_cons, List.map_map]
    congr 1
    apply List.map_congr_left
    intro k _
    simp only [Function.comp, Nat.succ_eq_add_one]
    congr 1
    omega

theorem mountModes_key_map (o : Oracles) (c b : Nat) (ls : List P) :
    (mountModes o c b ls).map (fun m => m.key)
      = (List.range (ls.length + 2)).map (fun k => keyAt o.randByte (c + k)) := by
  simp only [mountModes, List.map_cons]
  rw [loopModes_key_map o ls (c + 2) (b + 2)]
  rw [List.range_succ_eq_map, List.range_succ_eq_map]
  simp only [List.map_cons, List.map_map]
  congr 2
  apply List.map_congr_left
  intro k _
  simp only [Function.comp, Nat.succ_eq_add_one]
  congr 1
  omega

-- Trace projections: every read-only build's workspace snapshot.

theorem loopTrace_roCh (o : Oracles) (mp : P) :
    ∀ (ls : List P) (c i : Nat),
      (loopTrace o mp c i ls).filterMap roCh = List.replicate ls.length [] := by
  intro ls
  induction ls with
  | nil => intro c i; rfl
  | cons p rest ih =>
    intro c i
    simp only [loopTrace, List.filterMap_cons, roCh, List.length_cons]
    rw [ih (c + 1) (i + 1)]
    rfl

theorem buildAllTrace_roCh (o : Oracles) (mp : P) (c : Nat) (ls : List P) :
    (buildAllTrace o mp c ls).filterMap roCh
      = [OENVp] :: List.replicate ls.length [] := by
  simp only [buildAllTrace, List.filterMap_append, List.filterMap_cons, roCh,
    List.filterMap_nil]
  rw [loopTrace_roCh o mp ls (c + 2) 0]
  rfl

theorem mountTrace_roCh (o : Oracles) (mp : P) (cid : String) (c b : Nat) (ls : List P)
    (created cleared : Bool) :
    (mountTrace o mp cid c b ls created cleared).filterMap roCh
      = [OENVp] :: List.replicate ls.length [] := by
  cases created <;> cases cleared <;>
    simp [mountTrace, List.filterMap_append, roCh, buildAllTrace_roCh]

-- Removal of the mount path's pre-existing children.

theorem lookupP_clearAt_of_child {fs : Fs} {p q : P} (h : q ∈ childrenOf fs p) :
    lookupP (clearAt fs p) q = none := by
  unfold clearAt removeItems
  apply lookupP_eq_none_of
  intro e he hh
  obtain ⟨_, hkeep⟩ := List.mem_filter.mp he
  have hany : (childrenOf fs p).any (fun r => r.isPrefixOf e.1) = true :=
    List.any_eq_true.mpr ⟨q, h, by
      rw [hh]
      exact List.isPrefixOf_iff_prefix.mpr (List.prefix_refl q)⟩
  rw [hany] at hkeep
  simp at hkeep

theorem lookupP_some_of_existsP {fs : Fs} {q : P} (h : existsP fs q = true)
    (hq : q ≠ []) : ∃ n, lookupP fs q = some n := by
  unfold existsP at h
  rcases Bool.or_eq_true_iff.mp h with h | h
  · exact absurd (by simpa using h) hq
  · exact Option.isSome_iff_exists.mp h

-- Error paths: identity resolution, non-UTF-8 mount path, missing staging source.

theorem resolve_cid_err {p : EPath} (h : p.comps.dropLast.getLast? = none) (w : World) :
    ∃ s, resolve_cid p w = .error (Err.msg s) w ∧
      (s = ("parent do not exist") ∨ s = ("Unknown error: file name parse fail")) := by
  unfold resolve_cid EPath.parent EPath.fileName
  cases hp : p.comps with
  | nil => exact ⟨_, rfl, Or.inl rfl⟩
  | cons a rest =>
    rw [hp] at h
    refine ⟨_, ?_, Or.inr rfl⟩
    simp [h]

/-- C2: when the mount path's parent has no resolvable final component, `mount`
fails with one of the two identity-resolution error messages; the mount table,
counters and everything else are untouched, except that the mount-path
directory has already been created when it was absent (the creation at lines
118-120 precedes identity resolution), which corrects the claim's "no
filesystem side effects". -/
theorem C2_identity_error (o : Oracles) (dd : EPath) (ls : List P) (mpE : EPath)
    (w0 : World) (hnone : mpE.comps.dropLast.getLast? = none) :
    ∃ s, (s = ("parent do not exist") ∨ s = ("Unknown error: file name parse fail")) ∧
      mount o dd ls mpE w0 = .error (Err.msg s)
        { w0 with
          fs := if existsP w0.fs mpE.comps then w0.fs else createDirAll w0.fs mpE.comps,
          trace := w0.trace ++
            (if existsP w0.fs mpE.comps then [] else [Ev.createMountPath mpE.comps]) } := by
  simp only [mount]
  set mp := mpE.comps with hmpc
  set f1 : Fs := if existsP w0.fs mp then w0.fs else createDirAll w0.fs mp with hf1
  set t1 : List Ev := if existsP w0.fs mp then [] else [Ev.createMountPath mp] with ht1
  set wA : World := { w0 with fs := f1, trace := w0.trace ++ t1 } with hwA
  have sA : ensure_mount_path mpE w0 = .ok () wA := by
    cases hex : existsP w0.fs mp
    · rw [ensure_create hex, hwA, hf1, ht1, hex]
      simp
    · rw [ensure_exists hex, hwA, hf1, ht1, hex]
      simp
  rw [bindOk sA]
  obtain ⟨s, hs, hor⟩ := resolve_cid_err hnone wA
  refine ⟨s, hor, ?_⟩
  rw [bindErr hs]

/-- C10: when the mount path exists (a directory entry is present) but its OS
string is not valid UTF-8, `mount` fails at the target-clearing step with the
misleading message "mount_path does not exist", and this happens after the host
passthrough was mounted, which is left in the mount table (no rollback). -/
theorem C10_utf8_error (o : Oracles) (dd : EPath) (ls : List P) {mpE : EPath}
    {cid : String} (w0 : World)
    (hu : mpE.utf8 = false)
    (hcid : mpE.comps.dropLast.getLast? = some cid)
    (h1 : mpE.comps.head? ≠ some ("eccfs_tmp"))
    (hex : lookupP w0.fs mpE.comps = some Node.dir)
    (hwd : lookupP w0.fs WDp = none ∨ lookupP w0.fs WDp = some Node.dir) :
    ∃ w1, mount o dd ls mpE w0 = .error (Err.msg ("mount_path does not exist")) w1 ∧
      w1.mounts = (("hostfs"), mpE.comps) :: w0.mounts ∧
      existsP w1.fs mpE.comps = true := by
  have hWD : WDp.head? = some ("eccfs_tmp") := rfl
  simp only [mount]
  set mp := mpE.comps with hmpc
  have hmpn : mp ≠ [] := by
    intro h
    rw [h] at hcid
    simp at hcid
  have hexb : existsP w0.fs mp = true := by simp [existsP, hex]
  have sA : ensure_mount_path mpE w0 = .ok () w0 := ensure_exists hexb
  rw [bindOk sA]
  rw [bindOk (resolve_cid_ok hcid w0)]
  set f2 : Fs := if existsP w0.fs WDp then clearAt w0.fs WDp
    else createDirAll w0.fs WDp with hf2
  set t2 : List Ev := if existsP w0.fs WDp then [Ev.clearPath WDp]
    else [Ev.prepareWorkspace WDp] with ht2
  set wB : World := { w0 with fs := f2, trace := w0.trace ++ t2 } with hwB
  have sB : prep_workdir w0 = .ok () wB := by
    rcases hwd with hwd | hwd
    · have hexw : existsP w0.fs WDp = false := by simp [existsP, hwd]; decide
      rw [prep_workdir_create hexw, hwB, hf2, ht2, hexw]
      simp
    · have hexw : existsP w0.fs WDp = true := by simp [existsP, hwd]
      rw [prep_workdir_clear hexw hwd, hwB, hf2, ht2, hexw]
      simp
  rw [bindOk sB]
  simp only [mount_tail]
  have haB : lookupP wB.fs mp = some Node.dir := by
    show lookupP f2 mp = some Node.dir
    rw [hf2]
    split
    · rw [lookupP_clearAt_of_not_pref (not_prefix_of_head_ne (by decide) hmpn
        (by rw [hWD]; exact fun h => h1 h.symm))]
      exact hex
    · rw [lookupP_createDirAll_eq (not_mem_initsOf_of_head (by rw [hWD]; exact h1))]
      exact hex
  have hexB : existsP wB.fs mp = true := by simp [existsP, haB]
  set wC : World := { wB with
    mounts := (("hostfs"), mp) :: wB.mounts,
    trace := wB.trace ++ [Ev.mountFs ("hostfs") mp (["images", cid, "eccfs"])] } with hwC
  have sC : nix_mount ("hostfs") mp (["images", cid, "eccfs"]) wB = .ok () wC :=
    nix_mount_ok hexB
  rw [bindOk sC]
  rw [bindErr (clear_path_err_utf8 hu)]
  exact ⟨wC, rfl, rfl, hexB⟩

theorem create_environment_err_ld {env : P} {w : World} (henv : env ≠ [])
    (h64 : env.head? ≠ some ("lib64"))
    (hld : existsP w.fs ldSrc = false) :
    create_environment env w = .error (Err.io (("copy source missing: ") ++ LD_LIB))
      { w with fs := envFs1 w.fs env } := by
  unfold create_environment
  have hld1 : existsP (envFs1 w.fs env) ldSrc = false := by
    rw [existsP_envFs1_eq henv (by decide) (by
      have hl : ldSrc.head? = some ("lib64") := rfl
      rw [hl]; exact h64)]
    exact hld
  rw [copyItems_cons_err [] (env ++ ["lib64"]) (show ldSrc.getLast? = some LD_LIB from rfl)
    hld1]

theorem build_all_err_ld (o : Oracles) {mpE : EPath} (ls : List P) (w : World)
    (hld : existsP w.fs ldSrc = false) :
    build_all o mpE ls w = .error (Err.io (("copy source missing: ") ++ LD_LIB))
      { w with
        fs := envFs1 (createDirAll (writeF w.fs (mpE.comps ++ [ECCFS_RW_IMAGE_NAME])
          ("rwimage")) OENVp) OENVp,
        rcalls := w.rcalls + 1, bcalls := w.bcalls + 1,
        trace := w.trace ++
          [Ev.buildRw (mpE.comps ++ [ECCFS_RW_IMAGE_NAME]) (keyAt o.randByte w.rcalls)] } := by
  simp only [build_all]
  set mp := mpE.comps with hmpc
  set wE : World := { w with rcalls := w.rcalls + 1 } with hwE
  have sE : generate_random_key o.randByte w = .ok (keyAt o.randByte w.rcalls) wE := rfl
  rw [bindOk sE]
  set wF : World := { wE with
    fs := writeF wE.fs (mp ++ [ECCFS_RW_IMAGE_NAME]) ("rwimage"),
    bcalls := wE.bcalls + 1,
    trace := wE.trace ++ [Ev.buildRw (mp ++ [ECCFS_RW_IMAGE_NAME]) (keyAt o.randByte w.rcalls)] }
    with hwF
  have sF : rw_create_empty o (mp ++ [ECCFS_RW_IMAGE_NAME])
      (some (keyAt o.randByte w.rcalls)) wE =
        .ok ⟨o.encFlag wE.bcalls, keyAt o.randByte w.rcalls⟩ wF := rfl
  rw [bindOk sF]
  set wG : World := { wF with fs := createDirAll wF.fs OENVp } with hwG
  have sG : mk_dir_all OENVp wF = .ok () wG := rfl
  rw [bindOk sG]
  have hldG : existsP wG.fs ldSrc = false := by
    have hl : ldSrc.head? = some ("lib64") := rfl
    show existsP (createDirAll (writeF w.fs (mp ++ [ECCFS_RW_IMAGE_NAME])
      ("rwimage")) OENVp) ldSrc = false
    rw [existsP_eq_of_lookupP_eq (lookupP_createDirAll_eq (not_mem_initsOf_of_head (by
      have hOE : OENVp.head? = some ("eccfs_tmp") := rfl
      rw [hOE, hl]; decide)))]
    rw [existsP_eq_of_lookupP_eq (lookupP_writeF_ne _ (Ne.symm (append_singleton_ne
      (by decide))))]
    exact hld
  rw [bindErr (create_environment_err_ld (by decide) (by decide) hldG)]

set_option maxHeartbeats 1000000 in
theorem mount_err_ld (o : Oracles) (dd : EPath) (ls : List P) {mpE : EPath}
    {cid : String} (w0 : World)
    (hu : mpE.utf8 = true)
    (hcid : mpE.comps.dropLast.getLast? = some cid)
    (h1 : mpE.comps.head? ≠ some ("eccfs_tmp"))
    (h4 : mpE.comps.head? ≠ some ("lib64"))
    (hmp : lookupP w0.fs mpE.comps = none ∨ lookupP w0.fs mpE.comps = some Node.dir)
    (hwd : lookupP w0.fs WDp = none ∨ lookupP w0.fs WDp = some Node.dir)
    (hldF : existsP w0.fs ldSrc = false) :
    ∃ w1, mount o dd ls mpE w0 = .error (Err.io (("copy source missing: ") ++ LD_LIB)) w1 ∧
      w1.trace.filter evIsStage = w0.trace.filter evIsStage := by
  have hWD : WDp.head? = some ("eccfs_tmp") := rfl
  simp only [mount]
  set mp := mpE.comps with hmpc
  have hmpn : mp ≠ [] := by
    intro h
    rw [h] at hcid
    simp at hcid
  set f1 : Fs := if existsP w0.fs mp then w0.fs else createDirAll w0.fs mp with hf1
  set t1 : List Ev := if existsP w0.fs mp then [] else [Ev.createMountPath mp] with ht1
  set wA : World := { w0 with fs := f1, trace := w0.trace ++ t1 } with hwA
  have sA : ensure_mount_path mpE w0 = .ok () wA := by
    cases hex : existsP w0.fs mp
    · rw [ensure_create hex, hwA, hf1, ht1, hex]
      simp
    · rw [ensure_exists hex, hwA, hf1, ht1, hex]
      simp
  rw [bindOk sA]
  rw [bindOk (resolve_cid_ok hcid wA)]
  have hfa : lookupP f1 mp = some Node.dir := by
    rw [hf1]
    rcases hmp with hmp | hmp
    · rw [if_neg (by simp [existsP, hmp, hmpn])]
      exact lookupP_createDirAll_self_none hmp hmpn
    · rw [if_pos (by simp [existsP, hmp])]
      exact hmp
  have hfwd_l : lookupP f1 WDp = lookupP w0.fs WDp := by
    rw [hf1]
    split
    · rfl
    · exact lookupP_createDirAll_eq (not_mem_initsOf_of_head
        (by rw [hWD]; exact fun h => h1 h.symm))
  have hfld : existsP f1 ldSrc = existsP w0.fs ldSrc := by
    rw [hf1]
    split
    · rfl
    · exact existsP_eq_of_lookupP_eq (lookupP_createDirAll_eq (not_mem_initsOf_of_head (by
        have hl : ldSrc.head? = some ("lib64") := rfl
        rw [hl]; exact fun h => h4 h.symm)))
  set f2 : Fs := if existsP w0.fs WDp then clearAt f1 WDp else createDirAll f1 WDp with hf2
  set t2 : List Ev := if existsP w0.fs WDp then [Ev.clearPath WDp]
    else [Ev.prepareWorkspace WDp] with ht2
  set wB : World := { wA with fs := f2, trace := wA.trace ++ t2 } with hwB
  have hexw : existsP wA.fs WDp = existsP w0.fs WDp := by
    show existsP f1 WDp = existsP w0.fs WDp
    exact existsP_eq_of_lookupP_eq hfwd_l
  have sB : prep_workdir wA = .ok () wB := by
    rcases hwd with hwd | hwd
    · have hexb : existsP w0.fs WDp = false := by simp [existsP, hwd]; decide
      rw [prep_workdir_create (hexw.trans hexb), hwB, hf2, ht2, hexb]
      have hfe : wA.fs = f1 := rfl
      rw [hfe]
      simp
    · have hexb : existsP w0.fs WDp = true := by simp [existsP, hwd]
      rw [prep_workdir_clear (hexw.trans hexb)
        (show lookupP wA.fs WDp = some Node.dir from hfwd_l.trans hwd)]
      rw [hwB, hf2, ht2, hexb]
      have hfe : wA.fs = f1 := rfl
      rw [hfe]
      simp
  rw [bindOk sB]
  simp only [mount_tail]
  have haB : lookupP wB.fs mp = some Node.dir := by
    show lookupP f2 mp = some Node.dir
    rw [hf2]
    split
    · rw [lookupP_clearAt_of_not_pref (not_prefix_of_head_ne (by decide) hmpn
        (by rw [hWD]; exact fun h => h1 h.symm))]
      exact hfa
    · rw [lookupP_createDirAll_eq (not_mem_initsOf_of_head (by rw [hWD]; exact h1))]
      exact hfa
  have hldB : existsP wB.fs ldSrc = false := by
    show existsP f2 ldSrc = false
    rw [hf2]
    have hl : ldSrc.head? = some ("lib64") := rfl
    split
    · rw [existsP_eq_of_lookupP_eq (lookupP_clearAt_of_not_pref
        (not_prefix_of_head_ne (by decide) (by decide) (by rw [hWD, hl]; decide)))]
      rw [hfld]
      exact hldF
    · rw [existsP_eq_of_lookupP_eq (lookupP_createDirAll_eq (not_mem_initsOf_of_head
        (by rw [hWD, hl]; decide)))]
      rw [hfld]
      exact hldF
  set wC : World := { wB with
    mounts := (("hostfs"), mp) :: wB.mounts,
    trace := wB.trace ++ [Ev.mountFs ("hostfs") mp (["images", cid, "eccfs"])] } with hwC
  have sC : nix_mount ("hostfs") mp (["images", cid, "eccfs"]) wB = .ok () wC :=
    nix_mount_ok (by simp [existsP, haB])
  rw [bindOk sC]
  set wD : World := { wC with
    fs := clearAt wC.fs mp,
    trace := wC.trace ++ [Ev.clearPath mp] } with hwD
  have sD : clear_path mpE wC = .ok () wD := clear_path_ok hu (Or.inr haB)
  rw [bindOk sD]
  have hldD : existsP wD.fs ldSrc = false := by
    have hl : ldSrc.head? = some ("lib64") := rfl
    show existsP (clearAt wC.fs mp) ldSrc = false
    rw [existsP_eq_of_lookupP_eq (lookupP_clearAt_of_not_pref
      (not_prefix_of_head_ne hmpn (by decide) (by rw [hl]; exact h4)))]
    exact hldB
  rw [bindErr (build_all_err_ld o ls wD hldD)]
  refine ⟨_, rfl, ?_⟩
  rw [hwD, hwC, hwB, hwA]
  dsimp only
  rw [ht2, ht1]
  cases hE : existsP w0.fs mp <;> cases hW : existsP w0.fs WDp <;>
    simp [List.filter_append, evIsStage]

-- Error path: a missing C-runtime library in the second copy, after the
-- dynamic linker has already been staged.

theorem copyItems_libs_err {env : P} (henv : env ≠ []) (hopt : env.head? ≠ some ("opt")) :
    ∀ (libs : List String) {fs : Fs},
      (∃ l ∈ libs, existsP fs (occlumSrcDir ++ [l]) = false) →
      ∃ name, name ∈ libs ∧
        copyItems fs (libs.map (fun l => occlumSrcDir ++ [l]))
            (env ++ ["opt", "occlum", "glibc", "lib"]) =
          .error (Err.io (("copy source missing: ") ++ name)) := by
  intro libs
  induction libs with
  | nil =>
    intro fs hm
    obtain ⟨l, hl, _⟩ := hm
    simp at hl
  | cons a libs ih =>
    intro fs hm
    simp only [List.map_cons]
    cases hexa : existsP fs (occlumSrcDir ++ [a]) with
    | false =>
      refine ⟨a, by simp, ?_⟩
      rw [copyItems_cons_err _ _ (by rw [List.getLast?_concat]) hexa]
    | true =>
      rw [copyItems_cons_ok _ _ (by rw [List.getLast?_concat]) hexa]
      have hm2 : ∃ l ∈ libs, existsP (copyTree fs (occlumSrcDir ++ [a])
          ((env ++ ["opt", "occlum", "glibc", "lib"]) ++ [a]))
          (occlumSrcDir ++ [l]) = false := by
        obtain ⟨l, hl, hmf⟩ := hm
        have hla : l ∈ libs := by
          rcases List.mem_cons.mp hl with rfl | h
          · rw [hexa] at hmf
            simp at hmf
          · exact h
        refine ⟨l, hla, ?_⟩
        rw [existsP_copyTree_of_not_pref (not_prefix_of_head_ne (by simp) (by simp) (by
          rw [head?_append_of_ne_nil _
              (by simp : env ++ ["opt", "occlum", "glibc", "lib"] ≠ []),
            head?_append_of_ne_nil _ henv]
          have ho : (occlumSrcDir ++ [l]).head? = some ("opt") := rfl
          rw [ho]
          exact hopt))]
        exact hmf
      obtain ⟨name, hnm, herr⟩ := ih hm2
      exact ⟨name, by simp [hnm], herr⟩

theorem create_environment_err_lib {env : P} {w : World} (henv : env ≠ [])
    (h64 : env.head? ≠ some ("lib64")) (hopt : env.head? ≠ some ("opt"))
    (hld : existsP w.fs ldSrc = true)
    (hmiss : ∃ l ∈ occlumLibs, existsP w.fs (occlumSrcDir ++ [l]) = false) :
    ∃ name, name ∈ occlumLibs ∧
      create_environment env w = .error (Err.io (("copy source missing: ") ++ name))
        { w with
          fs := createDirAll
            (copyTree (envFs1 w.fs env) ldSrc ((env ++ ["lib64"]) ++ [LD_LIB]))
            (env ++ ["opt", "occlum", "glibc", "lib"]) } := by
  unfold create_environment
  have hld1 : existsP (envFs1 w.fs env) ldSrc = true := by
    rw [existsP_envFs1_eq henv (by decide) (by
      have hl : ldSrc.head? = some ("lib64") := rfl
      rw [hl]; exact h64)]
    exact hld
  have h1 : copyItems (envFs1 w.fs env) [ldSrc] (env ++ ["lib64"]) =
      .ok (copyTree (envFs1 w.fs env) ldSrc ((env ++ ["lib64"]) ++ [LD_LIB])) := by
    rw [copyItems_cons_ok [] (env ++ ["lib64"])
      (show ldSrc.getLast? = some LD_LIB from rfl) hld1]
    rfl
  rw [h1]
  dsimp only
  set fs3 := createDirAll
    (copyTree (envFs1 w.fs env) ldSrc ((env ++ ["lib64"]) ++ [LD_LIB]))
    (env ++ ["opt", "occlum", "glibc", "lib"]) with hfs3
  have hmiss3 : ∃ l ∈ occlumLibs, existsP fs3 (occlumSrcDir ++ [l]) = false := by
    obtain ⟨l, hl, hm⟩ := hmiss
    refine ⟨l, hl, ?_⟩
    have ho : (occlumSrcDir ++ [l]).head? = some ("opt") := rfl
    rw [hfs3]
    rw [existsP_eq_of_lookupP_eq (lookupP_createDirAll_eq (not_mem_initsOf_of_head (by
      rw [head?_append_of_ne_nil _ henv, ho]
      exact fun h => hopt h.symm)))]
    rw [existsP_copyTree_of_not_pref (not_prefix_of_head_ne (by simp) (by simp) (by
      rw [head?_append_of_ne_nil _ (by simp : env ++ ["lib64"] ≠ []),
        head?_append_of_ne_nil _ henv, ho]
      exact hopt))]
    rw [existsP_envFs1_eq henv (by simp) (by rw [ho]; exact hopt)]
    exact hm
  obtain ⟨name, hnm, herr⟩ := copyItems_libs_err henv hopt occlumLibs hmiss3
  refine ⟨name, hnm, ?_⟩
  rw [herr]

theorem build_all_err_lib (o : Oracles) {mpE : EPath} (ls : List P) (w : World)
    (hld : existsP w.fs ldSrc = true)
    (hmiss : ∃ l ∈ occlumLibs, existsP w.fs (occlumSrcDir ++ [l]) = false) :
    ∃ name w1, name ∈ occlumLibs ∧
      build_all o mpE ls w = .error (Err.io (("copy source missing: ") ++ name)) w1 ∧
      w1.trace = w.trace ++
        [Ev.buildRw (mpE.comps ++ [ECCFS_RW_IMAGE_NAME]) (keyAt o.randByte w.rcalls)] := by
  simp only [build_all]
  set mp := mpE.comps with hmpc
  set wE : World := { w with rcalls := w.rcalls + 1 } with hwE
  have sE : generate_random_key o.randByte w = .ok (keyAt o.randByte w.rcalls) wE := rfl
  rw [bindOk sE]
  set wF : World := { wE with
    fs := writeF wE.fs (mp ++ [ECCFS_RW_IMAGE_NAME]) ("rwimage"),
    bcalls := wE.bcalls + 1,
    trace := wE.trace ++ [Ev.buildRw (mp ++ [ECCFS_RW_IMAGE_NAME]) (keyAt o.randByte w.rcalls)] }
    with hwF
  have sF : rw_create_empty o (mp ++ [ECCFS_RW_IMAGE_NAME])
      (some (keyAt o.randByte w.rcalls)) wE =
        .ok ⟨o.encFlag wE.bcalls, keyAt o.randByte w.rcalls⟩ wF := rfl
  rw [bindOk sF]
  set wG : World := { wF with fs := createDirAll wF.fs OENVp } with hwG
  have sG : mk_dir_all OENVp wF = .ok () wG := rfl
  rw [bindOk sG]
  have hldG : existsP wG.fs ldSrc = true := by
    show existsP (createDirAll (writeF w.fs (mp ++ [ECCFS_RW_IMAGE_NAME])
      ("rwimage")) OENVp) ldSrc = true
    apply existsP_createDirAll_of
    rw [existsP_eq_of_lookupP_eq (lookupP_writeF_ne _ (Ne.symm (append_singleton_ne
      (by decide))))]
    exact hld
  have hmissG : ∃ l ∈ occlumLibs, existsP wG.fs (occlumSrcDir ++ [l]) = false := by
    obtain ⟨l, hl, hm⟩ := hmiss
    refine ⟨l, hl, ?_⟩
    have hlr : l ≠ ECCFS_RW_IMAGE_NAME := by
      simp only [occlumLibs, List.mem_cons, List.not_mem_nil, or_false] at hl
      rcases hl with rfl | rfl | rfl | rfl | rfl | rfl <;> decide
    show existsP (createDirAll (writeF w.fs (mp ++ [ECCFS_RW_IMAGE_NAME])
      ("rwimage")) OENVp) (occlumSrcDir ++ [l]) = false
    rw [existsP_eq_of_lookupP_eq (lookupP_createDirAll_eq (not_mem_initsOf_of_head (by
      have hOE : OENVp.head? = some ("eccfs_tmp") := rfl
      have ho : (occlumSrcDir ++ [l]).head? = some ("opt") := rfl
      rw [hOE, ho]
      decide)))]
    have hne : (occlumSrcDir ++ [l]).getLast? ≠ some ECCFS_RW_IMAGE_NAME := by
      rw [List.getLast?_concat]
      simpa using hlr
    rw [existsP_eq_of_lookupP_eq (lookupP_writeF_ne _ (Ne.symm (append_singleton_ne hne)))]
    exact hm
  obtain ⟨name, hnm, herr⟩ :=
    create_environment_err_lib (show OENVp ≠ [] by decide) (by decide) (by decide)
      hldG hmissG
  rw [bindErr herr]
  exact ⟨name, _, hnm, rfl, rfl⟩

set_option maxHeartbeats 1000000 in
theorem mount_err_lib (o : Oracles) (dd : EPath) (ls : List P) {mpE : EPath}
    {cid : String} (w0 : World)
    (hu : mpE.utf8 = true)
    (hcid : mpE.comps.dropLast.getLast? = some cid)
    (h1 : mpE.comps.head? ≠ some ("eccfs_tmp"))
    (h3 : mpE.comps.head? ≠ some ("opt"))
    (h4 : mpE.comps.head? ≠ some ("lib64"))
    (hmp : lookupP w0.fs mpE.comps = none ∨ lookupP w0.fs mpE.comps = some Node.dir)
    (hwd : lookupP w0.fs WDp = none ∨ lookupP w0.fs WDp = some Node.dir)
    (hld : existsP w0.fs ldSrc = true)
    (hmiss : ∃ l ∈ occlumLibs, existsP w0.fs (occlumSrcDir ++ [l]) = false) :
    ∃ name w1, name ∈ occlumLibs ∧
      mount o dd ls mpE w0 = .error (Err.io (("copy source missing: ") ++ name)) w1 ∧
      w1.trace.filter evIsStage = w0.trace.filter evIsStage := by
  have hWD : WDp.head? = some ("eccfs_tmp") := rfl
  simp only [mount]
  set mp := mpE.comps with hmpc
  have hmpn : mp ≠ [] := by
    intro h
    rw [h] at hcid
    simp at hcid
  set f1 : Fs := if existsP w0.fs mp then w0.fs else createDirAll w0.fs mp with hf1
  set t1 : List Ev := if existsP w0.fs mp then [] else [Ev.createMountPath mp] with ht1
  set wA : World := { w0 with fs := f1, trace := w0.trace ++ t1 } with hwA
  have sA : ensure_mount_path mpE w0 = .ok () wA := by
    cases hex : existsP w0.fs mp
    · rw [ensure_create hex, hwA, hf1, ht1, hex]
      simp
    · rw [ensure_exists hex, hwA, hf1, ht1, hex]
      simp
  rw [bindOk sA]
  rw [bindOk (resolve_cid_ok hcid wA)]
  have hfa : lookupP f1 mp = some Node.dir := by
    rw [hf1]
    rcases hmp with hmp | hmp
    · rw [if_neg (by simp [existsP, hmp, hmpn])]
      exact lookupP_createDirAll_self_none hmp hmpn
    · rw [if_pos (by simp [existsP, hmp])]
      exact hmp
  have hfwd_l : lookupP f1 WDp = lookupP w0.fs WDp := by
    rw [hf1]
    split
    · rfl
    · exact lookupP_createDirAll_eq (not_mem_initsOf_of_head
        (by rw [hWD]; exact fun h => h1 h.symm))
  have hfld : existsP f1 ldSrc = existsP w0.fs ldSrc := by
    rw [hf1]
    split
    · rfl
    · exact existsP_eq_of_lookupP_eq (lookupP_createDirAll_eq (not_mem_initsOf_of_head (by
        have hl : ldSrc.head? = some ("lib64") := rfl
        rw [hl]; exact fun h => h4 h.symm)))
  have hflib : ∀ l ∈ occlumLibs,
      existsP f1 (occlumSrcDir ++ [l]) = existsP w0.fs (occlumSrcDir ++ [l]) := by
    intro l hl
    rw [hf1]
    split
    · rfl
    · exact existsP_eq_of_lookupP_eq (lookupP_createDirAll_eq (not_mem_initsOf_of_head (by
        have ho : (occlumSrcDir ++ [l]).head? = some ("opt") := rfl
        rw [ho]; exact fun h => h3 h.symm)))
  set f2 : Fs := if existsP w0.fs WDp then clearAt f1 WDp else createDirAll f1 WDp with hf2
  set t2 : List Ev := if existsP w0.fs WDp then [Ev.clearPath WDp]
    else [Ev.prepareWorkspace WDp] with ht2
  set wB : World := { wA with fs := f2, trace := wA.trace ++ t2 } with hwB
  have hexw : existsP wA.fs WDp = existsP w0.fs WDp := by
    show existsP f1 WDp = existsP w0.fs WDp
    exact existsP_eq_of_lookupP_eq hfwd_l
  have sB : prep_workdir wA = .ok () wB := by
    rcases hwd with hwd | hwd
    · have hexb : existsP w0.fs WDp = false := by simp [existsP, hwd]; decide
      rw [prep_workdir_create (hexw.trans hexb), hwB, hf2, ht2, hexb]
      have hfe : wA.fs = f1 := rfl
      rw [hfe]
      simp
    · have hexb : existsP w0.fs WDp = true := by simp [existsP, hwd]
      rw [prep_workdir_clear (hexw.trans hexb)
        (show lookupP wA.fs WDp = some Node.dir from hfwd_l.trans hwd)]
      rw [hwB, hf2, ht2, hexb]
      have hfe : wA.fs = f1 := rfl
      rw [hfe]
      simp
  rw [bindOk sB]
  simp only [mount_tail]
  have haB : lookupP wB.fs mp = some Node.dir := by
    show lookupP f2 mp = some Node.dir
    rw [hf2]
    split
    · rw [lookupP_clearAt_of_not_pref (not_prefix_of_head_ne (by decide) hmpn
        (by rw [hWD]; exact fun h => h1 h.symm))]
      exact hfa
    · rw [lookupP_createDirAll_eq (not_mem_initsOf_of_head (by rw [hWD]; exact h1))]
      exact hfa
  have hf2q : ∀ (q : P), q ≠ [] → q.head? ≠ some ("eccfs_tmp") →
      existsP f2 q = existsP f1 q := by
    intro q hqn hqw
    rw [hf2]
    split
    · exact existsP_eq_of_lookupP_eq (lookupP_clearAt_of_not_pref
        (not_prefix_of_head_ne (by decide) hqn (by rw [hWD]; exact fun h => hqw h.symm)))
    · exact existsP_eq_of_lookupP_eq (lookupP_createDirAll_eq (not_mem_initsOf_of_head
        (by rw [hWD]; exact hqw)))
  have hldB : existsP wB.fs ldSrc = true := by
    show existsP f2 ldSrc = true
    rw [hf2q ldSrc (by decide) (by decide), hfld]
    exact hld
  have hmissB : ∃ l ∈ occlumLibs, existsP wB.fs (occlumSrcDir ++ [l]) = false := by
    obtain ⟨l, hl, hm⟩ := hmiss
    refine ⟨l, hl, ?_⟩
    show existsP f2 (occlumSrcDir ++ [l]) = false
    rw [hf2q _ (by simp) (by
      have ho : (occlumSrcDir ++ [l]).head? = some ("opt") := rfl
      rw [ho]; decide), hflib l hl]
    exact hm
  set wC : World := { wB with
    mounts := (("hostfs"), mp) :: wB.mounts,
    trace := wB.trace ++ [Ev.mountFs ("hostfs") mp (["images", cid, "eccfs"])] } with hwC
  have sC : nix_mount ("hostfs") mp (["images", cid, "eccfs"]) wB = .ok () wC :=
    nix_mount_ok (by simp [existsP, haB])
  rw [bindOk sC]
  set wD : World := { wC with
    fs := clearAt wC.fs mp,
    trace := wC.trace ++ [Ev.clearPath mp] } with hwD
  have sD : clear_path mpE wC = .ok () wD := clear_path_ok hu (Or.inr haB)
  rw [bindOk sD]
  have hldD : existsP wD.fs ldSrc = true := by
    show existsP (clearAt wC.fs mp) ldSrc = true
    rw [existsP_eq_of_lookupP_eq (lookupP_clearAt_of_not_pref
      (not_prefix_of_head_ne hmpn (by decide) (by
        have hl : ldSrc.head? = some ("lib64") := rfl
        rw [hl]; exact h4)))]
    exact hldB
  have hmissD : ∃ l ∈ occlumLibs, existsP wD.fs (occlumSrcDir ++ [l]) = false := by
    obtain ⟨l, hl, hm⟩ := hmissB
    refine ⟨l, hl, ?_⟩
    show existsP (clearAt wC.fs mp) (occlumSrcDir ++ [l]) = false
    rw [existsP_eq_of_lookupP_eq (lookupP_clearAt_of_not_pref
      (not_prefix_of_head_ne hmpn (by simp) (by
        have ho : (occlumSrcDir ++ [l]).head? = some ("opt") := rfl
        rw [ho]; exact h3)))]
    exact hm
  obtain ⟨name, w1, hnm, herr, htr⟩ := build_all_err_lib o ls wD hldD hmissD
  rw [bindErr herr]
  refine ⟨name, w1, hnm, rfl, ?_⟩
  rw [htr]
  rw [hwD, hwC, hwB, hwA]
  dsimp only
  rw [ht2, ht1]
  cases hE : existsP w0.fs mp <;> cases hW : existsP w0.fs WDp <;>
    simp [List.filter_append, evIsStage]

-- What a successful environment staging leaves behind.

theorem prefix_eq_of_length {u v : P} (h : u <+: v) (hl : u.length = v.length) : u = v :=
  List.IsPrefix.eq_of_length h hl

theorem existsP_libfold_of_len {env q : P} (hq : q.length < env.length + 5) :
    ∀ (libs : List String) (fs : Fs), existsP fs q = true →
      existsP (libs.foldl (fun f l => copyTree f (occlumSrcDir ++ [l])
        ((env ++ ["opt", "occlum", "glibc", "lib"]) ++ [l])) fs) q = true := by
  intro libs
  induction libs with
  | nil => intro fs h; exact h
  | cons l libs ih =>
    intro fs h
    simp only [List.foldl_cons]
    apply ih
    rw [existsP_copyTree_of_not_pref (not_prefix_of_length (by
      simp only [List.length_append, List.length_cons, List.length_nil]
      omega))]
    exact h

theorem stageEnvFs_ld_exists {fs : Fs} {env : P} (henv : env ≠ [])
    (h64 : env.head? ≠ some ("lib64")) (hld : existsP fs ldSrc = true) :
    existsP (stageEnvFs fs env) ((env ++ ["lib64"]) ++ [LD_LIB]) = true := by
  unfold stageEnvFs
  apply existsP_foldl_create_of
  apply existsP_libfold_of_len (by
    simp only [List.length_append, List.length_cons, List.length_nil]
    omega)
  apply existsP_createDirAll_of
  have hld1 : existsP (envFs1 fs env) ldSrc = true := by
    rw [existsP_envFs1_eq henv (by decide) (by
      have hl : ldSrc.head? = some ("lib64") := rfl
      rw [hl]; exact h64)]
    exact hld
  obtain ⟨n, hn⟩ := lookupP_some_of_existsP hld1 (by decide)
  simp [existsP, lookupP_copyTree_dst hn]

theorem sysfold_exists {base : P} (names : List String) :
    ∀ (fs : Fs) (d : String), d ∈ names →
      existsP (names.foldl (fun f s => create_dirF f (base ++ [s])) fs) (base ++ [d])
        = true := by
  induction names with
  | nil => intro fs d hd; simp at hd
  | cons a names ih =>
    intro fs d hd
    simp only [List.foldl_cons]
    rcases List.mem_cons.mp hd with rfl | hd2
    · exact existsP_foldl_create_of names (existsP_create_dirF_self fs (base ++ [d]))
    · exact ih _ d hd2

theorem stageEnvFs_sysdirs_exist (fs : Fs) (env : P) {d : String} (hd : d ∈ sysDirs) :
    existsP (stageEnvFs fs env) (env ++ [d]) = true := by
  unfold stageEnvFs
  exact sysfold_exists sysDirs _ d hd

theorem libfold_exists_of {env q : P} :
    ∀ (libs : List String) (fs : Fs),
      (∀ x ∈ libs, ¬ ((env ++ ["opt", "occlum", "glibc", "lib"]) ++ [x]) <+: q) →
      existsP fs q = true →
      existsP (libs.foldl (fun f l => copyTree f (occlumSrcDir ++ [l])
        ((env ++ ["opt", "occlum", "glibc", "lib"]) ++ [l])) fs) q = true := by
  intro libs
  induction libs with
  | nil => intro fs _ h; exact h
  | cons a libs ih =>
    intro fs hnp h
    simp only [List.foldl_cons]
    apply ih _ (fun x hx => hnp x (by simp [hx]))
    rw [existsP_copyTree_of_not_pref (hnp a (by simp))]
    exact h

theorem libfold_exists {env : P} (henv : env ≠ []) (hopt : env.head? ≠ some ("opt")) :
    ∀ (libs : List String), libs.Nodup →
      ∀ (fs : Fs), (∀ l ∈ libs, existsP fs (occlumSrcDir ++ [l]) = true) →
      ∀ l ∈ libs,
        existsP (libs.foldl (fun f x => copyTree f (occlumSrcDir ++ [x])
          ((env ++ ["opt", "occlum", "glibc", "lib"]) ++ [x])) fs)
          ((env ++ ["opt", "occlum", "glibc", "lib"]) ++ [l]) = true := by
  intro libs
  induction libs with
  | nil => intro _ fs _ l hl; simp at hl
  | cons a libs ih =>
    intro hnd fs hsrc l hl
    simp only [List.foldl_cons]
    rcases List.mem_cons.mp hl with rfl | hl2
    · obtain ⟨n, hn⟩ := lookupP_some_of_existsP (hsrc l (by simp)) (by simp)
      have hdst : existsP (copyTree fs (occlumSrcDir ++ [l])
          ((env ++ ["opt", "occlum", "glibc", "lib"]) ++ [l]))
          ((env ++ ["opt", "occlum", "glibc", "lib"]) ++ [l]) = true := by
        simp [existsP, lookupP_copyTree_dst hn]
      apply libfold_exists_of libs _ ?_ hdst
      intro x hx hpre
      have hx_ne : x ≠ l := by
        intro hxe
        subst hxe
        exact (List.nodup_cons.mp hnd).1 hx
      have heq := prefix_eq_of_length hpre (by simp)
      exact hx_ne (append_singleton_inj heq)
    · have hnd2 := (List.nodup_cons.mp hnd).2
      have hocc : (occlumSrcDir ++ [a]).head? = some ("opt") := rfl
      have hsrc2 : ∀ x ∈ libs, existsP (copyTree fs (occlumSrcDir ++ [a])
          ((env ++ ["opt", "occlum", "glibc", "lib"]) ++ [a]))
          (occlumSrcDir ++ [x]) = true := by
        intro x hx
        have hnp : ¬ ((env ++ ["opt", "occlum", "glibc", "lib"]) ++ [a]) <+:
            occlumSrcDir ++ [x] := by
          apply not_prefix_of_head_ne (by simp) (by simp)
          rw [head?_append_of_ne_nil _
              (by simp : env ++ ["opt", "occlum", "glibc", "lib"] ≠ []),
            head?_append_of_ne_nil _ henv]
          have ho : (occlumSrcDir ++ [x]).head? = some ("opt") := rfl
          rw [ho]
          exact hopt
        rw [existsP_copyTree_of_not_pref hnp]
        exact hsrc x (by simp [hx])
      exact ih hnd2 _ hsrc2 l hl2

theorem stageEnvFs_libs_exist {fs : Fs} {env : P} (henv : env ≠ [])
    (hopt : env.head? ≠ some ("opt"))
    (hlibs : ∀ l ∈ occlumLibs, existsP fs (occlumSrcDir ++ [l]) = true) :
    ∀ l ∈ occlumLibs,
      existsP (stageEnvFs fs env) ((env ++ ["opt", "occlum", "glibc", "lib"]) ++ [l])
        = true := by
  intro l hl
  unfold stageEnvFs
  apply existsP_foldl_create_of
  apply libfold_exists henv hopt occlumLibs (by decide) _ ?_ l hl
  intro x hx
  apply existsP_createDirAll_of
  have hnp : ¬ ((env ++ ["lib64"]) ++ [LD_LIB]) <+: occlumSrcDir ++ [x] := by
    apply not_prefix_of_head_ne (by simp) (by simp)
    rw [head?_append_of_ne_nil _ (by simp : env ++ ["lib64"] ≠ []),
      head?_append_of_ne_nil _ henv]
    have ho : (occlumSrcDir ++ [x]).head? = some ("opt") := rfl
    rw [ho]
    exact hopt
  rw [existsP_copyTree_of_not_pref hnp]
  rw [existsP_envFs1_eq henv (by simp) (by
    have ho : (occlumSrcDir ++ [x]).head? = some ("opt") := rfl
    rw [ho]; exact hopt)]
  exact hlibs x hx

-- The mount path's children survive the two preparation phases untouched.

theorem childrenOf_prepFs_mp {fs0 : Fs} {mp : P} (hmpn : mp ≠ [])
    (h1 : mp.head? ≠ some ("eccfs_tmp")) :
    childrenOf (if existsP fs0 WDp then
        clearAt (if existsP fs0 mp then fs0 else createDirAll fs0 mp) WDp
      else createDirAll (if existsP fs0 mp then fs0 else createDirAll fs0 mp) WDp) mp
      = childrenOf fs0 mp := by
  have hWD : WDp.head? = some ("eccfs_tmp") := rfl
  have hbase : childrenOf (if existsP fs0 mp then fs0 else createDirAll fs0 mp) mp
      = childrenOf fs0 mp := by
    split
    · rfl
    · exact childrenOf_createDirAll_self_eq fs0 mp
  split
  · rw [childrenOf_clearAt_of_head_ne (by decide) hmpn
      (by rw [hWD]; exact fun h => h1 h.symm)]
    exact hbase
  · rw [childrenOf_createDirAll_of_head hmpn (by rw [hWD]; exact fun h => h1 h.symm)]
    exact hbase

-- The claims.

/-- C1: on every successful `mount` with N caller-supplied layers, the content
written to `key.txt` is the colon-joined rendering of the N+2 key-mode
descriptors in build order (writable, staged environment, then the N caller
layers), each `<mode>-<HEX>` with `enc`/`int` per the builder's
confidentiality flag and upper-case hex of the key; parsing the line back by
splitting on colons and dashes and hex-decoding recovers exactly the
(is_encrypted, key) pairs in call order, and the keys are the successive
16-byte draws of the random source. -/
theorem C1_key_record (o : Oracles) (dd : EPath) (ls : List P) {mpE : EPath}
    {cid : String} (w0 : World)
    (hu : mpE.utf8 = true)
    (hcid : mpE.comps.dropLast.getLast? = some cid)
    (h1 : mpE.comps.head? ≠ some ("eccfs_tmp"))
    (h2 : mpE.comps.head? ≠ some ("keys"))
    (h3 : mpE.comps.head? ≠ some ("opt"))
    (h4 : mpE.comps.head? ≠ some ("lib64"))
    (hmp : lookupP w0.fs mpE.comps = none ∨ lookupP w0.fs mpE.comps = some Node.dir)
    (hwd : lookupP w0.fs WDp = none ∨ lookupP w0.fs WDp = some Node.dir)
    (horph : lookupP w0.fs WDp = none → childrenOf w0.fs WDp = [])
    (hkeys : existsP w0.fs KEYSp = true)
    (hld : existsP w0.fs ldSrc = true)
    (hlibs : ∀ l ∈ occlumLibs, existsP w0.fs (occlumSrcDir ++ [l]) = true) :
    ∃ w1, mount o dd ls mpE w0 = .ok ⟨("eccfs"), mpE, dd⟩ w1 ∧
      lookupP w1.fs keyTxt
        = some (Node.file (modeStr (mountModes o w0.rcalls w0.bcalls ls))) ∧
      (mountModes o w0.rcalls w0.bcalls ls).length = ls.length + 2 ∧
      parseLine (modeStr (mountModes o w0.rcalls w0.bcalls ls)).data
        = some ((mountModes o w0.rcalls w0.bcalls ls).map
            (fun m => (m.is_encrypted, m.key))) ∧
      (mountModes o w0.rcalls w0.bcalls ls).map (fun m => m.key)
        = (List.range (ls.length + 2)).map (fun k => keyAt o.randByte (w0.rcalls + k)) := by
  refine ⟨_, mount_run o dd ls w0 hu hcid h1 h2 h3 h4 hmp hwd horph hkeys hld hlibs,
    ?_, ?_, ?_, ?_⟩
  · show lookupP (mountFinalFs o w0.rcalls w0.bcalls ls mpE.comps w0.fs) keyTxt = _
    rw [mountFinalFs]
    exact lookupP_writeF_self _ _ _
  · exact mountModes_length o _ _ ls
  · exact parseLine_modeStr _ (by simp [mountModes]) (mountModes_valid o _ _ ls)
  · exact mountModes_key_map o _ _ ls

/-- C1 witness: the round-trip facts at a concrete one-layer run. -/
theorem C1_key_record_witness :
    ∃ w1, mount oT ddT lsT mpT wT = .ok ⟨("eccfs"), mpT, ddT⟩ w1 ∧
      lookupP w1.fs keyTxt = some (Node.file (modeStr (mountModes oT 0 0 lsT))) ∧
      (mountModes oT 0 0 lsT).length = lsT.length + 2 ∧
      parseLine (modeStr (mountModes oT 0 0 lsT)).data
        = some ((mountModes oT 0 0 lsT).map (fun m => (m.is_encrypted, m.key))) ∧
      (mountModes oT 0 0 lsT).map (fun m => m.key)
        = (List.range (lsT.length + 2)).map (fun k => keyAt oT.randByte (0 + k)) :=
  C1_key_record oT ddT lsT wT rfl
    (show mpT.comps.dropLast.getLast? = some ("c1") by decide)
    (by decide) (by decide) (by decide)
    (by decide) (Or.inr (by decide)) (Or.inl (by decide)) (fun _ => by decide)
    (by decide) (by decide) (by decide)

/-- C2 witness: the corrected statement at a concrete single-component mount
path. -/
theorem C2_identity_error_witness :
    ∃ s, (s = ("parent do not exist") ∨ s = ("Unknown error: file name parse fail")) ∧
      mount oT ddT [] ⟨["c1"], true⟩ wT = .error (Err.msg s)
        { wT with
          fs := if existsP wT.fs (["c1"]) then wT.fs else createDirAll wT.fs (["c1"]),
          trace := wT.trace ++
            (if existsP wT.fs (["c1"]) then [] else [Ev.createMountPath (["c1"])]) } :=
  C2_identity_error oT ddT [] ⟨["c1"], true⟩ wT (by decide)

/-- C2 counterexample: against the original claim, the failing call does have a
filesystem side effect: the absent mount path is created before identity
resolution fails, so the final filesystem differs from the initial one. -/
theorem C2_identity_error_cx :
    (resErr (mount oT ddT [] ⟨["c1"], true⟩ wT)).map
        (fun e => (e.1, e.2.fs == wT.fs))
      = some (Err.msg ("Unknown error: file name parse fail"), false) := by
  rfl

/-- C3: after every successful `mount` with N caller-supplied layers, the
direct children of the mount path are exactly the writable image
`run.rwimage`, the staged-environment image `0000.roimage`, and one
`%04d.roimage` file per caller layer at index i+1, in strictly ascending index
order starting at 0 and mapping 1:1 to build order. -/
theorem C3_image_files (o : Oracles) (dd : EPath) (ls : List P) {mpE : EPath}
    {cid : String} (w0 : World)
    (hu : mpE.utf8 = true)
    (hcid : mpE.comps.dropLast.getLast? = some cid)
    (h1 : mpE.comps.head? ≠ some ("eccfs_tmp"))
    (h2 : mpE.comps.head? ≠ some ("keys"))
    (h3 : mpE.comps.head? ≠ some ("opt"))
    (h4 : mpE.comps.head? ≠ some ("lib64"))
    (hmp : lookupP w0.fs mpE.comps = none ∨ lookupP w0.fs mpE.comps = some Node.dir)
    (hwd : lookupP w0.fs WDp = none ∨ lookupP w0.fs WDp = some Node.dir)
    (horph : lookupP w0.fs WDp = none → childrenOf w0.fs WDp = [])
    (hkeys : existsP w0.fs KEYSp = true)
    (hld : existsP w0.fs ldSrc = true)
    (hlibs : ∀ l ∈ occlumLibs, existsP w0.fs (occlumSrcDir ++ [l]) = true) :
    ∃ w1, mount o dd ls mpE w0 = .ok ⟨("eccfs"), mpE, dd⟩ w1 ∧
      childrenOf w1.fs mpE.comps =
        (mpE.comps ++ [ECCFS_RW_IMAGE_NAME]) ::
          (List.range (ls.length + 1)).map
            (fun i => mpE.comps ++ [pad4 i ++ (".roimage")]) := by
  have hmpn : mpE.comps ≠ [] := by
    intro h
    rw [h] at hcid
    simp at hcid
  refine ⟨_, mount_run o dd ls w0 hu hcid h1 h2 h3 h4 hmp hwd horph hkeys hld hlibs, ?_⟩
  show childrenOf (mountFinalFs o w0.rcalls w0.bcalls ls mpE.comps w0.fs) mpE.comps = _
  rw [childrenOf_mountFinalFs o w0.rcalls w0.bcalls ls h1 h2 hmpn w0.fs]
  simp only [imgFile, imgName]

/-- C3 witness: the exact image-file set at a concrete one-layer run. -/
theorem C3_image_files_witness :
    ∃ w1, mount oT ddT lsT mpT wT = .ok ⟨("eccfs"), mpT, ddT⟩ w1 ∧
      childrenOf w1.fs mpT.comps =
        (mpT.comps ++ [ECCFS_RW_IMAGE_NAME]) ::
          (List.range (lsT.length + 1)).map
            (fun i => mpT.comps ++ [pad4 i ++ (".roimage")]) :=
  C3_image_files oT ddT lsT wT rfl
    (show mpT.comps.dropLast.getLast? = some ("c1") by decide)
    (by decide) (by decide) (by decide)
    (by decide) (Or.inr (by decide)) (Or.inl (by decide)) (fun _ => by decide)
    (by decide) (by decide) (by decide)

/-- C4: within one `mount` call each builder invocation is keyed by a
separate, fresh 16-byte draw from the random source (draw c+k for the k-th of
the N+2 builds); whenever the source's draws within the call's window are
pairwise distinct, so are the N+2 recorded keys and the N+2 upper-case hex
fields published in the key record. -/
theorem C4_fresh_keys (o : Oracles) (c b : Nat) (ls : List P)
    (hinj : (List.range (ls.length + 2)).Pairwise
      (fun k1 k2 => keyAt o.randByte (c + k1) ≠ keyAt o.randByte (c + k2))) :
    (∀ k ∈ (mountModes o c b ls).map (fun m => m.key), k.length = 16) ∧
    ((mountModes o c b ls).map (fun m => m.key)).Pairwise (fun k1 k2 => k1 ≠ k2) ∧
    ((mountModes o c b ls).map (fun m => hexUpper m.key)).Pairwise
      (fun s1 s2 => s1 ≠ s2) := by
  refine ⟨?_, ?_, ?_⟩
  · intro k hk
    rw [mountModes_key_map] at hk
    obtain ⟨i, _, rfl⟩ := List.mem_map.mp hk
    exact keyAt_length _ _
  · rw [mountModes_key_map]
    exact hinj.map _ (fun a b h => h)
  · have hm : (mountModes o c b ls).map (fun m => hexUpper m.key)
        = ((mountModes o c b ls).map (fun m => m.key)).map hexUpper := by
      rw [List.map_map]
      rfl
    rw [hm, mountModes_key_map, List.map_map]
    apply hinj.map
    intro a b hab he
    exact hab (hexUpper_inj (validKey_keyAt _ _) (validKey_keyAt _ _) he)

/-- C4 witness: pairwise-distinct keys and hex fields at a concrete one-layer
window of a distinct-per-call source. -/
theorem C4_fresh_keys_witness :
    (∀ k ∈ (mountModes oT 0 0 lsT).map (fun m => m.key), k.length = 16) ∧
    ((mountModes oT 0 0 lsT).map (fun m => m.key)).Pairwise (fun k1 k2 => k1 ≠ k2) ∧
    ((mountModes oT 0 0 lsT).map (fun m => hexUpper m.key)).Pairwise
      (fun s1 s2 => s1 ≠ s2) :=
  C4_fresh_keys oT 0 0 lsT (by decide)

/-- C5: the effectful steps of a successful `mount` happen in exactly the
order recorded by `mountTrace`: create the mount path if absent, prepare the
scratch workspace (before the host passthrough mount, correcting the claimed
order), mount the host passthrough, clear the target, build the writable
layer, stage the environment (after the writable build, correcting the claimed
order), build the environment image, clear the workspace, build each caller
layer in input order (clearing after each), unmount the host passthrough, and
only then mount the key-custody filesystem, write the key record and unmount
it — the host passthrough is never still mounted at that point, and the final
mount table equals the initial one. -/
theorem C5_step_order (o : Oracles) (dd : EPath) (ls : List P) {mpE : EPath}
    {cid : String} (w0 : World)
    (hu : mpE.utf8 = true)
    (hcid : mpE.comps.dropLast.getLast? = some cid)
    (h1 : mpE.comps.head? ≠ some ("eccfs_tmp"))
    (h2 : mpE.comps.head? ≠ some ("keys"))
    (h3 : mpE.comps.head? ≠ some ("opt"))
    (h4 : mpE.comps.head? ≠ some ("lib64"))
    (hmp : lookupP w0.fs mpE.comps = none ∨ lookupP w0.fs mpE.comps = some Node.dir)
    (hwd : lookupP w0.fs WDp = none ∨ lookupP w0.fs WDp = some Node.dir)
    (horph : lookupP w0.fs WDp = none → childrenOf w0.fs WDp = [])
    (hkeys : existsP w0.fs KEYSp = true)
    (hld : existsP w0.fs ldSrc = true)
    (hlibs : ∀ l ∈ occlumLibs, existsP w0.fs (occlumSrcDir ++ [l]) = true) :
    ∃ w1, mount o dd ls mpE w0 = .ok ⟨("eccfs"), mpE, dd⟩ w1 ∧
      w1.trace = w0.trace ++
        mountTrace o mpE.comps cid w0.rcalls w0.bcalls ls
          (!(existsP w0.fs mpE.comps)) (existsP w0.fs WDp) ∧
      w1.mounts = w0.mounts :=
  ⟨_, mount_run o dd ls w0 hu hcid h1 h2 h3 h4 hmp hwd horph hkeys hld hlibs, rfl, rfl⟩

/-- C5 witness: the corrected step order at a concrete one-layer run. -/
theorem C5_step_order_witness :
    ∃ w1, mount oT ddT lsT mpT wT = .ok ⟨("eccfs"), mpT, ddT⟩ w1 ∧
      w1.trace = wT.trace ++
        mountTrace oT mpT.comps ("c1") 0 0 lsT
          (!(existsP wT.fs mpT.comps)) (existsP wT.fs WDp) ∧
      w1.mounts = wT.mounts :=
  C5_step_order oT ddT lsT wT rfl
    (show mpT.comps.dropLast.getLast? = some ("c1") by decide)
    (by decide) (by decide) (by decide)
    (by decide) (Or.inr (by decide)) (Or.inl (by decide)) (fun _ => by decide)
    (by decide) (by decide) (by decide)

/-- C5 counterexample: against the claimed control-flow order, a concrete run
prepares the scratch workspace strictly before the host passthrough mount, and
builds the writable layer strictly before the environment is staged. -/
theorem C5_step_order_cx :
    (resOk (mount oT ddT lsT mpT wT)).map (fun r =>
      ((r.2.trace.takeWhile (fun e => !(evIsHostMount e))).any evIsWsPrep,
       (r.2.trace.takeWhile (fun e => !(evIsStage e))).any evIsRw))
      = some (true, true) := by
  rw [mount_run oT ddT lsT wT rfl
    (show mpT.comps.dropLast.getLast? = some ("c1") by decide)
    (by decide) (by decide) (by decide)
    (by decide) (Or.inr (by decide)) (Or.inl (by decide)) (fun _ => by decide)
    (by decide) (by decide) (by decide)]
  rfl

/-- C6: a successful environment-staging run at a target directory leaves the
dynamic linker in the `lib64` subdirectory (a pre-existing entry at
`lib64/ld-linux-x86-64.so.2` having been removed before the copy, which is
part of `envFs1` inside `stageEnvFs`), the six C-runtime shared objects in
`opt/occlum/glibc/lib`, and the eight placeholder directories at top level;
and a missing staging source aborts the whole `mount` call with the copy
error and no staging committed, both when the dynamic linker itself is
missing (the first copy) and when a C-runtime library is missing (the second
copy, where the linker has already been staged into the partially built
environment). -/
theorem C6_env_staging :
    (∀ (env : P) (w : World), env ≠ [] → env.head? ≠ some ("lib64") →
      env.head? ≠ some ("opt") →
      existsP w.fs ldSrc = true →
      (∀ l ∈ occlumLibs, existsP w.fs (occlumSrcDir ++ [l]) = true) →
      create_environment env w = .ok ()
        { w with fs := stageEnvFs w.fs env, trace := w.trace ++ [Ev.stageEnv env] } ∧
      existsP (stageEnvFs w.fs env) ((env ++ ["lib64"]) ++ [LD_LIB]) = true ∧
      (∀ l ∈ occlumLibs,
        existsP (stageEnvFs w.fs env)
          ((env ++ ["opt", "occlum", "glibc", "lib"]) ++ [l]) = true) ∧
      (∀ d ∈ sysDirs, existsP (stageEnvFs w.fs env) (env ++ [d]) = true)) ∧
    (∀ (o : Oracles) (dd : EPath) (ls : List P) (mpE : EPath) (cid : String)
        (w0 : World),
      mpE.utf8 = true → mpE.comps.dropLast.getLast? = some cid →
      mpE.comps.head? ≠ some ("eccfs_tmp") → mpE.comps.head? ≠ some ("lib64") →
      (lookupP w0.fs mpE.comps = none ∨ lookupP w0.fs mpE.comps = some Node.dir) →
      (lookupP w0.fs WDp = none ∨ lookupP w0.fs WDp = some Node.dir) →
      existsP w0.fs ldSrc = false →
      ∃ w1, mount o dd ls mpE w0
          = .error (Err.io (("copy source missing: ") ++ LD_LIB)) w1 ∧
        w1.trace.filter evIsStage = w0.trace.filter evIsStage) ∧
    (∀ (o : Oracles) (dd : EPath) (ls : List P) (mpE : EPath) (cid : String)
        (w0 : World),
      mpE.utf8 = true → mpE.comps.dropLast.getLast? = some cid →
      mpE.comps.head? ≠ some ("eccfs_tmp") → mpE.comps.head? ≠ some ("opt") →
      mpE.comps.head? ≠ some ("lib64") →
      (lookupP w0.fs mpE.comps = none ∨ lookupP w0.fs mpE.comps = some Node.dir) →
      (lookupP w0.fs WDp = none ∨ lookupP w0.fs WDp = some Node.dir) →
      existsP w0.fs ldSrc = true →
      (∃ l ∈ occlumLibs, existsP w0.fs (occlumSrcDir ++ [l]) = false) →
      ∃ name w1, name ∈ occlumLibs ∧
        mount o dd ls mpE w0
          = .error (Err.io (("copy source missing: ") ++ name)) w1 ∧
        w1.trace.filter evIsStage = w0.trace.filter evIsStage) := by
  refine ⟨?_, ?_, ?_⟩
  · intro env w henv h64 hopt hld hlibs
    exact ⟨create_environment_ok henv h64 hopt hld hlibs,
      stageEnvFs_ld_exists henv h64 hld,
      stageEnvFs_libs_exist henv hopt hlibs,
      fun d hd => stageEnvFs_sysdirs_exist w.fs env hd⟩
  · intro o dd ls mpE cid w0 hu hcid h1 h4 hmp hwd hldF
    exact mount_err_ld o dd ls w0 hu hcid h1 h4 hmp hwd hldF
  · intro o dd ls mpE cid w0 hu hcid h1 h3 h4 hmp hwd hld hmiss
    exact mount_err_lib o dd ls w0 hu hcid h1 h3 h4 hmp hwd hld hmiss

/-- C6 witness: a concrete successful staging of the workspace environment
directory, and a concrete `mount` aborted by a missing dynamic linker. -/
theorem C6_env_staging_witness :
    (create_environment OENVp wT = .ok ()
        { wT with fs := stageEnvFs wT.fs OENVp,
                  trace := wT.trace ++ [Ev.stageEnv OENVp] } ∧
      existsP (stageEnvFs wT.fs OENVp) ((OENVp ++ ["lib64"]) ++ [LD_LIB]) = true ∧
      (∀ l ∈ occlumLibs,
        existsP (stageEnvFs wT.fs OENVp)
          ((OENVp ++ ["opt", "occlum", "glibc", "lib"]) ++ [l]) = true) ∧
      (∀ d ∈ sysDirs, existsP (stageEnvFs wT.fs OENVp) (OENVp ++ [d]) = true)) ∧
    (∃ w1, mount oT ddT [] mpT wNoLd
        = .error (Err.io (("copy source missing: ") ++ LD_LIB)) w1 ∧
      w1.trace.filter evIsStage = wNoLd.trace.filter evIsStage) ∧
    (∃ name w1, name ∈ occlumLibs ∧
      mount oT ddT [] mpT wNoLib
        = .error (Err.io (("copy source missing: ") ++ name)) w1 ∧
      w1.trace.filter evIsStage = wNoLib.trace.filter evIsStage) :=
  ⟨C6_env_staging.1 OENVp wT (by decide) (by decide) (by decide) (by decide)
      (by decide),
   C6_env_staging.2.1 oT ddT [] mpT ("c1") wNoLd rfl (by decide) (by decide)
      (by decide) (Or.inr (by decide)) (Or.inl (by decide)) (by decide),
   C6_env_staging.2.2 oT ddT [] mpT ("c1") wNoLib rfl (by decide) (by decide)
      (by decide) (by decide) (Or.inr (by decide)) (Or.inl (by decide))
      (by decide) ⟨("libm.so.6"), by decide, by decide⟩⟩

/-- C7: on a successful `mount` against a target that already holds entries,
every pre-existing direct child that is not one of the image-file names is
gone afterwards, and the direct children of the mount path are exactly the
expected image files. -/
theorem C7_clear_preexisting (o : Oracles) (dd : EPath) (ls : List P) {mpE : EPath}
    {cid : String} (w0 : World)
    (hu : mpE.utf8 = true)
    (hcid : mpE.comps.dropLast.getLast? = some cid)
    (h1 : mpE.comps.head? ≠ some ("eccfs_tmp"))
    (h2 : mpE.comps.head? ≠ some ("keys"))
    (h3 : mpE.comps.head? ≠ some ("opt"))
    (h4 : mpE.comps.head? ≠ some ("lib64"))
    (hmp : lookupP w0.fs mpE.comps = none ∨ lookupP w0.fs mpE.comps = some Node.dir)
    (hwd : lookupP w0.fs WDp = none ∨ lookupP w0.fs WDp = some Node.dir)
    (horph : lookupP w0.fs WDp = none → childrenOf w0.fs WDp = [])
    (hkeys : existsP w0.fs KEYSp = true)
    (hld : existsP w0.fs ldSrc = true)
    (hlibs : ∀ l ∈ occlumLibs, existsP w0.fs (occlumSrcDir ++ [l]) = true) :
    ∃ w1, mount o dd ls mpE w0 = .ok ⟨("eccfs"), mpE, dd⟩ w1 ∧
      (∀ q ∈ childrenOf w0.fs mpE.comps,
        q ≠ mpE.comps ++ [ECCFS_RW_IMAGE_NAME] → (∀ n, q ≠ imgFile mpE.comps n) →
        lookupP w1.fs q = none) ∧
      childrenOf w1.fs mpE.comps =
        (mpE.comps ++ [ECCFS_RW_IMAGE_NAME]) ::
          (List.range (ls.length + 1)).map (fun i => imgFile mpE.comps i) := by
  have hmpn : mpE.comps ≠ [] := by
    intro h
    rw [h] at hcid
    simp at hcid
  refine ⟨_, mount_run o dd ls w0 hu hcid h1 h2 h3 h4 hmp hwd horph hkeys hld hlibs,
    ?_, ?_⟩
  · intro q hq hqrw hqimg
    obtain ⟨n, _, hlen, hpre⟩ := mem_childrenOf.mp hq
    have hqn : q ≠ [] := by
      intro h
      rw [h] at hlen
      simp at hlen
    have hqh : q.head? = mpE.comps.head? := head?_of_pref hpre hmpn
    show lookupP (mountFinalFs o w0.rcalls w0.bcalls ls mpE.comps w0.fs) q = none
    rw [mountFinalFs]
    rw [lookupP_writeF_ne _ (by
      intro h
      rw [h] at hqh
      have hk : keyTxt.head? = some ("keys") := rfl
      rw [hk] at hqh
      exact h2 hqh.symm)]
    rw [lookupP_buildAllFs_other o hqn (by rw [hqh]; exact h1) hqrw hqimg]
    apply lookupP_clearAt_of_child
    rw [childrenOf_prepFs_mp hmpn h1]
    exact hq
  · show childrenOf (mountFinalFs o w0.rcalls w0.bcalls ls mpE.comps w0.fs)
      mpE.comps = _
    exact childrenOf_mountFinalFs o w0.rcalls w0.bcalls ls h1 h2 hmpn w0.fs

/-- C7 witness: a concrete run whose target holds a stale entry beforehand. -/
theorem C7_clear_preexisting_witness :
    ∃ w1, mount oT ddT lsT mpT wT = .ok ⟨("eccfs"), mpT, ddT⟩ w1 ∧
      (∀ q ∈ childrenOf wT.fs mpT.comps,
        q ≠ mpT.comps ++ [ECCFS_RW_IMAGE_NAME] → (∀ n, q ≠ imgFile mpT.comps n) →
        lookupP w1.fs q = none) ∧
      childrenOf w1.fs mpT.comps =
        (mpT.comps ++ [ECCFS_RW_IMAGE_NAME]) ::
          (List.range (lsT.length + 1)).map (fun i => imgFile mpT.comps i) :=
  C7_clear_preexisting oT ddT lsT wT rfl
    (show mpT.comps.dropLast.getLast? = some ("c1") by decide)
    (by decide) (by decide)
    (by decide) (by decide) (Or.inr (by decide)) (Or.inl (by decide))
    (fun _ => by decide) (by decide) (by decide) (by decide)

/-- C8: `unmount` releases exactly one mount at the handle's path and touches
nothing else (filesystem, counters and handle are unchanged); when no such
mount is present the propagated OS error is returned with the state fully
unchanged — but, correcting the claim, the error wraps only the bare OS error
and names neither the path nor the filesystem type (only the `map_err` arms of
`mount` produce such messages; `unmount` uses a plain `?`). -/
theorem C8_unmount_frame (h : MountPoint) (w : World) :
    (∀ w1, unmount h w = .ok () w1 →
      w1.fs = w.fs ∧ w1.rcalls = w.rcalls ∧ w1.bcalls = w.bcalls ∧
      w1.mounts = eraseMountAt w.mounts h.mount_path.comps ∧
      w1.trace = w.trace ++ [Ev.umountFs h.mount_path.comps]) ∧
    (∀ e w1, unmount h w = .error e w1 →
      w1 = w ∧ e = Err.os ("EINVAL") ∧ errNamesMount e = false) := by
  constructor
  · intro w1 h1
    unfold unmount nix_umount at h1
    split at h1
    · injection h1 with _ h2
      subst h2
      exact ⟨rfl, rfl, rfl, rfl, rfl⟩
    · simp at h1
  · intro e w1 h1
    unfold unmount nix_umount at h1
    split at h1
    · simp at h1
    · injection h1 with he hw
      subst hw
      refine ⟨rfl, he.symm, ?_⟩
      rw [← he]
      rfl

/-- C8 witness: the frame facts at a concrete mounted world. -/
theorem C8_unmount_frame_witness :
    wMOut.fs = wM.fs ∧ wMOut.rcalls = wM.rcalls ∧ wMOut.bcalls = wM.bcalls ∧
    wMOut.mounts = eraseMountAt wM.mounts hT.mount_path.comps ∧
    wMOut.trace = wM.trace ++ [Ev.umountFs hT.mount_path.comps] :=
  (C8_unmount_frame hT wM).1 wMOut rfl

/-- C8 counterexample: against the original claim, the failure of `unmount` on
an unmounted path is the bare propagated OS error: it does not name the path
or the filesystem type involved. -/
theorem C8_unmount_frame_cx :
    (resErr (unmount hT wU)).map (fun e => (e.1, errNamesMount e.1, e.2 == wU))
      = some (Err.os ("EINVAL"), false, true) := by
  rfl

/-- C9: on a successful `mount`, the workspace snapshots recorded at the start
of the read-only builds are `[OENVp]` for the staged-environment build — the
environment is staged inside the scratch workspace, so, correcting the claim,
the workspace is not empty immediately before that build — followed by `[]`
for every caller-layer build (the workspace is cleared after each read-only
build, so each caller build starts with an empty workspace). -/
theorem C9_workspace_children (o : Oracles) (dd : EPath) (ls : List P) {mpE : EPath}
    {cid : String} (w0 : World)
    (hu : mpE.utf8 = true)
    (hcid : mpE.comps.dropLast.getLast? = some cid)
    (h1 : mpE.comps.head? ≠ some ("eccfs_tmp"))
    (h2 : mpE.comps.head? ≠ some ("keys"))
    (h3 : mpE.comps.head? ≠ some ("opt"))
    (h4 : mpE.comps.head? ≠ some ("lib64"))
    (hmp : lookupP w0.fs mpE.comps = none ∨ lookupP w0.fs mpE.comps = some Node.dir)
    (hwd : lookupP w0.fs WDp = none ∨ lookupP w0.fs WDp = some Node.dir)
    (horph : lookupP w0.fs WDp = none → childrenOf w0.fs WDp = [])
    (hkeys : existsP w0.fs KEYSp = true)
    (hld : existsP w0.fs ldSrc = true)
    (hlibs : ∀ l ∈ occlumLibs, existsP w0.fs (occlumSrcDir ++ [l]) = true) :
    ∃ w1, mount o dd ls mpE w0 = .ok ⟨("eccfs"), mpE, dd⟩ w1 ∧
      w1.trace.filterMap roCh
        = w0.trace.filterMap roCh ++ ([OENVp] :: List.replicate ls.length []) := by
  refine ⟨_, mount_run o dd ls w0 hu hcid h1 h2 h3 h4 hmp hwd horph hkeys hld hlibs, ?_⟩
  show (w0.trace ++ mountTrace o mpE.comps cid w0.rcalls w0.bcalls ls
      (!(existsP w0.fs mpE.comps)) (existsP w0.fs WDp)).filterMap roCh = _
  rw [List.filterMap_append, mountTrace_roCh]

/-- C9 witness: the workspace snapshots at a concrete one-layer run. -/
theorem C9_workspace_children_witness :
    ∃ w1, mount oT ddT lsT mpT wT = .ok ⟨("eccfs"), mpT, ddT⟩ w1 ∧
      w1.trace.filterMap roCh
        = wT.trace.filterMap roCh ++ ([OENVp] :: List.replicate lsT.length []) :=
  C9_workspace_children oT ddT lsT wT rfl
    (show mpT.comps.dropLast.getLast? = some ("c1") by decide)
    (by decide) (by decide)
    (by decide) (by decide) (Or.inr (by decide)) (Or.inl (by decide))
    (fun _ => by decide) (by decide) (by decide) (by decide)

/-- C9 counterexample: against the original claim, a concrete run records a
read-only build (the staged-environment build) whose workspace snapshot is not
empty. -/
theorem C9_workspace_children_cx :
    (resOk (mount oT ddT lsT mpT wT)).map
        (fun r => (r.2.trace.filterMap roCh).all (fun ch => ch == ([] : List P)))
      = some false := by
  rw [mount_run oT ddT lsT wT rfl
    (show mpT.comps.dropLast.getLast? = some ("c1") by decide)
    (by decide) (by decide) (by decide)
    (by decide) (Or.inr (by decide)) (Or.inl (by decide)) (fun _ => by decide)
    (by decide) (by decide) (by decide)]
  rfl

/-- C10 witness: the misleading failure at a concrete existing-but-non-UTF-8
mount path, with the host passthrough left mounted. -/
theorem C10_utf8_error_witness :
    ∃ w1, mount oT ddT [] mpF wT = .error (Err.msg ("mount_path does not exist")) w1 ∧
      w1.mounts = (("hostfs"), mpF.comps) :: wT.mounts ∧
      existsP w1.fs mpF.comps = true :=
  C10_utf8_error oT ddT [] wT rfl
    (show mpF.comps.dropLast.getLast? = some ("c1") by decide)
    (by decide) (by decide)
    (Or.inl (by decide))

end Eccfs
